import Mathlib

/-!
Im3d state stacks.

A shallow embedding of the `Vector` container and of the draw-state / transform /
identifier stacks of `Im3d::Context` (im3d.h), with the properties of the stack
engine proved over it; and of primitive construction, the hot id, sorting and drawing,
whose methods im3d.h only declares: these are modelled from the specification.

Conventions of the embedding:

* `U32` values are natural numbers; arithmetic that can leave the 32-bit range is
  reduced modulo `2^32` explicitly.
* `float` is a type parameter `F`: the stack operations only store and copy floats.
* An operation that can hit `IM3D_ASSERT` or touch storage outside the allocation
  returns `Except Fault _`.
* The free functions (`PushColor()`, ...) act on the current context, which is passed
  explicitly.
-/

namespace Im3d

/-- Number of values of the type `U32` (`typedef unsigned int U32`). A `U32` is kept as
a natural number, and `U32` arithmetic is reduced modulo this. -/
def U32_RANGE : Nat := 4294967296

/-- The type `typedef U32 Id`. -/
abbrev Id := Nat

/-- Ways in which a call does not return normally. -/
inductive Fault where
  /-- An `IM3D_ASSERT` failed (fatal). -/
  | assertion
  /-- A storage slot outside the allocation, or one never written, was accessed. -/
  | outOfBounds
deriving DecidableEq, Repr

/-- The macro `IM3D_ASSERT(e)`. -/
def IM3D_ASSERT (e : Bool) : Except Fault Unit :=
  if e then .ok () else .error Fault.assertion

/-! The container `Vector`. -/

/-- The class `template <typename T> class Vector`. `m_data` lists, in index order, the
slots of the allocation that hold a value; the allocation has `m_capacity` slots, and
the slots from `m_data.length` on have never been written. -/
structure Vector (α : Type) where
  m_data : List α
  m_size : Nat
  m_capacity : Nat
deriving DecidableEq, Repr

namespace Vector

variable {α : Type}

/-- The constructor `Vector(): m_size(0), m_capacity(0), m_data(0)`. -/
def new : Vector α := { m_data := [], m_size := 0, m_capacity := 0 }

/-- The assignment `m_data[_i] = _v` on the storage, for `_i` at most the number of
slots written so far (a slot further out would leave a gap; it is stored right
after the written slots). -/
def store (data : List α) (_i : Nat) (_v : α) : List α :=
  data.take _i ++ _v :: data.drop (_i + 1)

/-- The capacity `m_capacity + m_capacity / 2` that `push_back` passes to `reserve`,
in `U32` arithmetic. -/
def growRequest (m_capacity : Nat) : Nat :=
  (m_capacity + m_capacity / 2) % U32_RANGE

/-- Modelled from the spec: `Vector::reserve` is declared in im3d.h and defined in the
implementation unit, which is not among the sources. The spec says that "buffer growth
(vertex storage, stacks) uses amortized-growth reallocation" and that "a failed
allocation is treated as fatal". The reallocation keeps `m_size`, carries the `m_size`
stored elements over to the new storage and records the new capacity. How many slots the
reallocation ends up with, given the current capacity and the requested one, is the
parameter `grant`; a reallocation that fails or declines to grow is a `grant` that
leaves no room. -/
def reserve (grant : Nat → Nat → Nat) (self : Vector α) (_capacity : Nat) : Vector α :=
  { m_data := self.m_data.take self.m_size
    m_size := self.m_size
    m_capacity := grant self.m_capacity _capacity % U32_RANGE }

/-- The method `operator[](U32 _i)`, read:
`{ IM3D_ASSERT(_i < m_size); return m_data[_i]; }`. -/
def index (self : Vector α) (_i : Nat) : Except Fault α := do
  IM3D_ASSERT (decide (_i < self.m_size))
  match self.m_data.get? _i with
  | some v => pure v
  | none => throw Fault.outOfBounds

/-- The method `push_back(T _v)`:
`{ if (m_size == m_capacity) { reserve(m_capacity + m_capacity / 2); } m_data[m_size++] = _v; }`.
The write is a fault when slot `m_size` is outside the allocation. -/
def push_back (grant : Nat → Nat → Nat) (self : Vector α) (_v : α) :
    Except Fault (Vector α) :=
  let self1 :=
    if self.m_size = self.m_capacity then self.reserve grant (growRequest self.m_capacity)
    else self
  if self1.m_size < self1.m_capacity then
    .ok { self1 with
      m_data := store self1.m_data self1.m_size _v
      m_size := (self1.m_size + 1) % U32_RANGE }
  else .error Fault.outOfBounds

/-- The method `pop_back()`: `{ IM3D_ASSERT(m_size > 0); --m_size; }`. -/
def pop_back (self : Vector α) : Except Fault (Vector α) := do
  IM3D_ASSERT (decide (self.m_size > 0))
  pure { self with m_size := self.m_size - 1 }

/-- The method `front()`: `{ IM3D_ASSERT(m_size > 0); return m_data[0]; }`. -/
def front (self : Vector α) : Except Fault α := do
  IM3D_ASSERT (decide (self.m_size > 0))
  match self.m_data.get? 0 with
  | some v => pure v
  | none => throw Fault.outOfBounds

/-- The method `back()`, read:
`{ IM3D_ASSERT(m_size > 0); return m_data[m_size - 1]; }`. -/
def back (self : Vector α) : Except Fault α := do
  IM3D_ASSERT (decide (self.m_size > 0))
  match self.m_data.get? (self.m_size - 1) with
  | some v => pure v
  | none => throw Fault.outOfBounds

/-- The method `back()`, assigned through the returned reference (`v.back() = _v`):
the assertion of `back()`, then a write to slot `m_size - 1`. -/
def back_assign (self : Vector α) (_v : α) : Except Fault (Vector α) := do
  IM3D_ASSERT (decide (self.m_size > 0))
  if self.m_size - 1 < self.m_capacity then
    pure { self with m_data := store self.m_data (self.m_size - 1) _v }
  else throw Fault.outOfBounds

/-- The method `size()`. -/
def size (self : Vector α) : Nat := self.m_size

/-- The method `capacity()`. -/
def capacity (self : Vector α) : Nat := self.m_capacity

/-- The method `empty()`. -/
def empty (self : Vector α) : Bool := self.m_size == 0

/-- The method `clear()`: `{ m_size = 0; }`. -/
def clear (self : Vector α) : Vector α := { self with m_size := 0 }

/-- The elements the vector holds: slots `0 .. m_size - 1` of the storage. -/
def contents (self : Vector α) : List α := self.m_data.take self.m_size

/-- Representation invariant: the `m_size` elements have all been written, the written
slots lie inside the allocation, and the capacity is a `U32`. -/
def Valid (self : Vector α) : Prop :=
  self.m_size ≤ self.m_data.length ∧ self.m_data.length ≤ self.m_capacity ∧
    self.m_capacity < U32_RANGE

instance (self : Vector α) : Decidable self.Valid := by
  unfold Valid; exact inferInstance

/-- The vector is in its representation invariant and holds at least one element. -/
def Live (self : Vector α) : Prop := self.Valid ∧ 0 < self.m_size

instance (self : Vector α) : Decidable self.Live := by
  unfold Live; exact inferInstance

/-- One more element fits: the vector is not full, or the reallocation that `push_back`
asks for ends up with more slots than the vector has elements. -/
def HasRoom (grant : Nat → Nat → Nat) (self : Vector α) : Prop :=
  self.m_size = self.m_capacity →
    self.m_size < grant self.m_capacity (growRequest self.m_capacity) % U32_RANGE

instance (grant : Nat → Nat → Nat) (self : Vector α) : Decidable (self.HasRoom grant) := by
  unfold HasRoom; exact inferInstance

/-- The reallocation policy `grant` leaves room for one more element whenever
`push_back` asks it to grow a full vector of at most `n` elements. -/
def GrantsRoom (grant : Nat → Nat → Nat) (n : Nat) : Prop :=
  ∀ c, c ≤ n → c < grant c (growRequest c) % U32_RANGE

instance (grant : Nat → Nat → Nat) (n : Nat) : Decidable (GrantsRoom grant n) := by
  unfold GrantsRoom; exact inferInstance

end Vector

/-- A reallocation policy that grants the requested capacity, never shrinks, and never
grants fewer than 8 slots. -/
def grantAtLeast8 (current requested : Nat) : Nat :=
  max 8 (max current requested)

/-! The value types of im3d.h that the context stores. -/

/-- The struct `Vec2`: `float x, y`. -/
structure Vec2 (F : Type) where
  x : F
  y : F
deriving DecidableEq

/-- The struct `Vec3`: `float x, y, z`. -/
structure Vec3 (F : Type) where
  x : F
  y : F
  z : F
deriving DecidableEq

/-- The struct `Vec4`: `float x, y, z, w`. -/
structure Vec4 (F : Type) where
  x : F
  y : F
  z : F
  w : F
deriving DecidableEq

/-- The struct `Mat3`: `float m[9]`. -/
structure Mat3 (F : Type) where
  m : Fin 9 → F

/-- The struct `Mat4`: `float m[16]`. -/
structure Mat4 (F : Type) where
  m : Fin 16 → F

/-- The struct `Color`: `U32 v`, a packed rgba8 value. -/
structure Color where
  v : Nat
deriving DecidableEq, Repr

/-- The struct `VertexData`. -/
structure VertexData (F : Type) where
  m_positionSize : Vec4 F
  m_color : Color
deriving DecidableEq

/-- The enum `DrawPrimitiveType` (without the `DrawPrimitive_Count` marker). -/
inductive DrawPrimitiveType where
  | DrawPrimitive_Triangles
  | DrawPrimitive_Lines
  | DrawPrimitive_Points
deriving DecidableEq, Repr

/-- The struct `DrawList`; the pointer `m_vertexData` together with `m_vertexCount` is
a view of vertices, kept as the list of vertices viewed. -/
structure DrawList (F : Type) where
  m_primType : DrawPrimitiveType
  m_vertexData : List (VertexData F)
  m_vertexCount : Nat
deriving DecidableEq

/-- The enum `Key` (without the `Key_Count` marker); the `Action_*` enumerators are
other names of these four. -/
inductive Key where
  | Mouse_Left
  | Key_T
  | Key_R
  | Key_S
deriving DecidableEq, Repr

/-- The struct `AppData`; the two pointers `m_userData` and `drawCallback` are kept as
addresses. -/
structure AppData (F : Type) where
  m_keyDown : Key → Bool
  m_cursorRayOrigin : Vec3 F
  m_cursorRayDirection : Vec3 F
  m_worldUp : Vec3 F
  m_viewOrigin : Vec3 F
  m_viewportSize : Vec2 F
  m_tanHalfFov : F
  m_deltaTime : F
  m_userData : Nat
  drawCallback : Nat

/-- The enum `PrimitiveMode`. -/
inductive PrimitiveMode where
  | PrimitiveMode_None
  | PrimitiveMode_Points
  | PrimitiveMode_Lines
  | PrimitiveMode_LineStrip
  | PrimitiveMode_LineLoop
  | PrimitiveMode_Triangles
  | PrimitiveMode_TriangleStrip
deriving DecidableEq, Repr

/-- The enum `GizmoMode`. -/
inductive GizmoMode where
  | GizmoMode_Translation
  | GizmoMode_Rotation
  | GizmoMode_Scale
deriving DecidableEq, Repr

/-! The class `Context`. -/

/-- The data members of `class Context`, public and private, in declaration order. -/
structure Context (F : Type) where
  m_gizmoMode : GizmoMode
  m_activeId : Id
  m_hotId : Id
  m_hotDepth : F
  m_gizmoStateVec3 : Vec3 F
  m_gizmoStateMat3 : Mat3 F
  m_gizmoStateFloat : F
  m_gizmoHeightPixels : F
  m_gizmoSizePixels : F
  m_colorStack : Vector Color
  m_alphaStack : Vector F
  m_sizeStack : Vector F
  m_enableSortingStack : Vector Bool
  m_matrixStack : Vector (Mat4 F)
  m_idStack : Vector Id
  m_vertexData : DrawPrimitiveType → Fin 2 → Vector (VertexData F)
  m_sortedDrawLists : Vector (DrawList F)
  m_sortCalled : Bool
  m_drawCalled : Bool
  m_primMode : PrimitiveMode
  m_primList : Int
  m_firstVertThisPrim : Nat
  m_vertCountThisPrim : Nat
  m_appData : AppData F
  m_keyDownCurr : Key → Bool
  m_keyDownPrev : Key → Bool

namespace Context

variable {F : Type}

/-- The method `pushColor`: `{ m_colorStack.push_back(_color); }`. -/
def pushColor (grant : Nat → Nat → Nat) (self : Context F) (_color : Color) :
    Except Fault (Context F) := do
  let s ← self.m_colorStack.push_back grant _color
  pure { self with m_colorStack := s }

/-- The method `popColor`: `{ m_colorStack.pop_back(); }`. -/
def popColor (self : Context F) : Except Fault (Context F) := do
  let s ← self.m_colorStack.pop_back
  pure { self with m_colorStack := s }

/-- The method `setColor`: `{ m_colorStack.back() = _color; }`. -/
def setColor (self : Context F) (_color : Color) : Except Fault (Context F) := do
  let s ← self.m_colorStack.back_assign _color
  pure { self with m_colorStack := s }

/-- The method `getColor`: `{ return m_colorStack.back(); }`. -/
def getColor (self : Context F) : Except Fault Color :=
  self.m_colorStack.back

/-- The method `pushAlpha`: `{ m_alphaStack.push_back(_alpha); }`. -/
def pushAlpha (grant : Nat → Nat → Nat) (self : Context F) (_alpha : F) :
    Except Fault (Context F) := do
  let s ← self.m_alphaStack.push_back grant _alpha
  pure { self with m_alphaStack := s }

/-- The method `popAlpha`: `{ m_alphaStack.pop_back(); }`. -/
def popAlpha (self : Context F) : Except Fault (Context F) := do
  let s ← self.m_alphaStack.pop_back
  pure { self with m_alphaStack := s }

/-- The method `setAlpha`: `{ m_alphaStack.back() = _alpha; }`. -/
def setAlpha (self : Context F) (_alpha : F) : Except Fault (Context F) := do
  let s ← self.m_alphaStack.back_assign _alpha
  pure { self with m_alphaStack := s }

/-- The method `getAlpha`: `{ return m_alphaStack.back(); }`. -/
def getAlpha (self : Context F) : Except Fault F :=
  self.m_alphaStack.back

/-- The method `pushSize`: `{ m_sizeStack.push_back(_size); }`. -/
def pushSize (grant : Nat → Nat → Nat) (self : Context F) (_size : F) :
    Except Fault (Context F) := do
  let s ← self.m_sizeStack.push_back grant _size
  pure { self with m_sizeStack := s }

/-- The method `popSize`: `{ m_sizeStack.pop_back(); }`. -/
def popSize (self : Context F) : Except Fault (Context F) := do
  let s ← self.m_sizeStack.pop_back
  pure { self with m_sizeStack := s }

/-- The method `setSize`: `{ m_sizeStack.back() = _size; }`. -/
def setSize (self : Context F) (_size : F) : Except Fault (Context F) := do
  let s ← self.m_sizeStack.back_assign _size
  pure { self with m_sizeStack := s }

/-- The method `getSize`: `{ return m_sizeStack.back(); }`. -/
def getSize (self : Context F) : Except Fault F :=
  self.m_sizeStack.back

/-- Modelled from the spec: `Context::pushEnableSorting` is declared in im3d.h and
defined in the implementation unit, which is not among the sources. By the stack
engine contract of the spec, "`push(value)` appends `value`", here on the sort-enable
stack. -/
def pushEnableSorting (grant : Nat → Nat → Nat) (self : Context F) (_enable : Bool) :
    Except Fault (Context F) := do
  let s ← self.m_enableSortingStack.push_back grant _enable
  pure { self with m_enableSortingStack := s }

/-- Modelled from the spec: `Context::popEnableSorting` is declared in im3d.h and
defined in the implementation unit, which is not among the sources. By the stack
engine contract of the spec, "`pop()` removes the top, leaving the previous value
exposed", here on the sort-enable stack. -/
def popEnableSorting (self : Context F) : Except Fault (Context F) := do
  let s ← self.m_enableSortingStack.pop_back
  pure { self with m_enableSortingStack := s }

/-- The method `getEnableSorting`: `{ return m_enableSortingStack.back(); }`. -/
def getEnableSorting (self : Context F) : Except Fault Bool :=
  self.m_enableSortingStack.back

/-- The method `pushMatrix`: `{ m_matrixStack.push_back(_mat4); }`. -/
def pushMatrix (grant : Nat → Nat → Nat) (self : Context F) (_mat4 : Mat4 F) :
    Except Fault (Context F) := do
  let s ← self.m_matrixStack.push_back grant _mat4
  pure { self with m_matrixStack := s }

/-- The method `popMatrix`: `{ m_matrixStack.pop_back(); }`. -/
def popMatrix (self : Context F) : Except Fault (Context F) := do
  let s ← self.m_matrixStack.pop_back
  pure { self with m_matrixStack := s }

/-- The method `setMatrix`: `{ m_matrixStack.back() = _mat4; }`. -/
def setMatrix (self : Context F) (_mat4 : Mat4 F) : Except Fault (Context F) := do
  let s ← self.m_matrixStack.back_assign _mat4
  pure { self with m_matrixStack := s }

/-- The method `getMatrix`: `{ return m_matrixStack.back(); }`. -/
def getMatrix (self : Context F) : Except Fault (Mat4 F) :=
  self.m_matrixStack.back

/-- The method `pushId`: `{ m_idStack.push_back(_id); }`. -/
def pushId (grant : Nat → Nat → Nat) (self : Context F) (_id : Id) :
    Except Fault (Context F) := do
  let s ← self.m_idStack.push_back grant _id
  pure { self with m_idStack := s }

/-- The method `popId`: `{ m_idStack.pop_back(); }`. -/
def popId (self : Context F) : Except Fault (Context F) := do
  let s ← self.m_idStack.pop_back
  pure { self with m_idStack := s }

/-- The method `setId`: `{ m_idStack.back() = _id; }`. -/
def setId (self : Context F) (_id : Id) : Except Fault (Context F) := do
  let s ← self.m_idStack.back_assign _id
  pure { self with m_idStack := s }

/-- The method `getId`: `{ return m_idStack.back(); }`. -/
def getId (self : Context F) : Except Fault Id :=
  self.m_idStack.back

/-- The method `getActiveId`: `{ return m_activeId; }`. -/
def getActiveId (self : Context F) : Id := self.m_activeId

/-- The method `getHotId`: `{ return m_hotId; }`. -/
def getHotId (self : Context F) : Id := self.m_hotId

end Context

/-! The free functions of the draw-state interface. `GetContext()` is the context
argument `ctx`; a function that changes the current context returns the new one. -/

section FreeFunctions

variable {F : Type}

/-- The function `PushDrawState()`:
`{ Context& ctx = GetContext(); ctx.pushColor(ctx.getColor()); ctx.pushAlpha(ctx.getAlpha());
ctx.pushSize(ctx.getSize()); ctx.pushEnableSorting(ctx.getEnableSorting()); }`. -/
def PushDrawState (grant : Nat → Nat → Nat) (ctx : Context F) :
    Except Fault (Context F) := do
  let ctx ← ctx.pushColor grant (← ctx.getColor)
  let ctx ← ctx.pushAlpha grant (← ctx.getAlpha)
  let ctx ← ctx.pushSize grant (← ctx.getSize)
  ctx.pushEnableSorting grant (← ctx.getEnableSorting)

/-- The function `PopDrawState()`:
`{ Context& ctx = GetContext(); ctx.popColor(); ctx.popAlpha(); ctx.popSize();
ctx.popEnableSorting(); }`. -/
def PopDrawState (ctx : Context F) : Except Fault (Context F) := do
  let ctx ← ctx.popColor
  let ctx ← ctx.popAlpha
  let ctx ← ctx.popSize
  ctx.popEnableSorting

/-- The function `PushColor()`: `{ GetContext().pushColor(GetContext().getColor()); }`. -/
def PushColor (grant : Nat → Nat → Nat) (ctx : Context F) : Except Fault (Context F) := do
  ctx.pushColor grant (← ctx.getColor)

/-- The function `GetColor()`: `{ return GetContext().getColor(); }`. -/
def GetColor (ctx : Context F) : Except Fault Color := ctx.getColor

/-- The function `PushAlpha()`: `{ GetContext().pushAlpha(GetContext().getAlpha()); }`. -/
def PushAlpha (grant : Nat → Nat → Nat) (ctx : Context F) : Except Fault (Context F) := do
  ctx.pushAlpha grant (← ctx.getAlpha)

/-- The function `GetAlpha()`: `{ return GetContext().getAlpha(); }`. -/
def GetAlpha (ctx : Context F) : Except Fault F := ctx.getAlpha

/-- The function `PushSize()`: `{ GetContext().pushSize(GetContext().getAlpha()); }`. -/
def PushSize (grant : Nat → Nat → Nat) (ctx : Context F) : Except Fault (Context F) := do
  ctx.pushSize grant (← ctx.getAlpha)

/-- The function `GetSize()`: `{ return GetContext().getSize(); }`. -/
def GetSize (ctx : Context F) : Except Fault F := ctx.getSize

/-- The function `PushMatrix()`:
`{ GetContext().pushMatrix(GetContext().getMatrix()); }`. -/
def PushMatrix (grant : Nat → Nat → Nat) (ctx : Context F) : Except Fault (Context F) := do
  ctx.pushMatrix grant (← ctx.getMatrix)

/-- The function `PushId()`: `{ GetContext().pushId(GetContext().getId()); }`. -/
def PushId (grant : Nat → Nat → Nat) (ctx : Context F) : Except Fault (Context F) := do
  ctx.pushId grant (← ctx.getId)

/-- The function `GetId()`: `{ return GetContext().getId(); }`. -/
def GetId (ctx : Context F) : Except Fault Id := ctx.getId

end FreeFunctions

/-! The five state stacks with value-taking `push`, addressed uniformly. The
definitions below only select the method of `Context` for the stack named. -/

/-- Names of the state stacks of the context that im3d.h defines inline: color, alpha,
size, transform (matrix) and identifier. -/
inductive StackKind where
  | color
  | alpha
  | size
  | matrix
  | id
deriving DecidableEq, Repr

/-- The element type of each state stack. -/
@[reducible] def StackKind.Value (F : Type) : StackKind → Type
  | .color => Color
  | .alpha => F
  | .size => F
  | .matrix => Mat4 F
  | .id => Id

namespace Context

variable {F : Type}

/-- The data member holding the stack `k`. -/
def stack (self : Context F) : (k : StackKind) → Vector (k.Value F)
  | .color => self.m_colorStack
  | .alpha => self.m_alphaStack
  | .size => self.m_sizeStack
  | .matrix => self.m_matrixStack
  | .id => self.m_idStack

/-- The methods `pushColor`, `pushAlpha`, `pushSize`, `pushMatrix`, `pushId`. -/
def push (grant : Nat → Nat → Nat) (self : Context F) :
    (k : StackKind) → k.Value F → Except Fault (Context F)
  | .color, v => self.pushColor grant v
  | .alpha, v => self.pushAlpha grant v
  | .size, v => self.pushSize grant v
  | .matrix, v => self.pushMatrix grant v
  | .id, v => self.pushId grant v

/-- The methods `popColor`, `popAlpha`, `popSize`, `popMatrix`, `popId`. -/
def pop (self : Context F) : StackKind → Except Fault (Context F)
  | .color => self.popColor
  | .alpha => self.popAlpha
  | .size => self.popSize
  | .matrix => self.popMatrix
  | .id => self.popId

/-- The methods `setColor`, `setAlpha`, `setSize`, `setMatrix`, `setId`. -/
def set (self : Context F) : (k : StackKind) → k.Value F → Except Fault (Context F)
  | .color, v => self.setColor v
  | .alpha, v => self.setAlpha v
  | .size, v => self.setSize v
  | .matrix, v => self.setMatrix v
  | .id, v => self.setId v

/-- The methods `getColor`, `getAlpha`, `getSize`, `getMatrix`, `getId`. -/
def get (self : Context F) : (k : StackKind) → Except Fault (k.Value F)
  | .color => self.getColor
  | .alpha => self.getAlpha
  | .size => self.getSize
  | .matrix => self.getMatrix
  | .id => self.getId

end Context

/-- The four draw-state stacks (color, alpha, size, sort-enable) are in their
representation invariant and non-empty. -/
def Context.DrawStateLive {F : Type} (ctx : Context F) : Prop :=
  ctx.m_colorStack.Live ∧ ctx.m_alphaStack.Live ∧ ctx.m_sizeStack.Live ∧
    ctx.m_enableSortingStack.Live

instance {F : Type} (ctx : Context F) : Decidable ctx.DrawStateLive := by
  unfold Context.DrawStateLive; exact inferInstance

/-- The depth of the deepest of the four draw-state stacks. -/
def Context.drawStateDepth {F : Type} (ctx : Context F) : Nat :=
  max (max ctx.m_colorStack.m_size ctx.m_alphaStack.m_size)
    (max ctx.m_sizeStack.m_size ctx.m_enableSortingStack.m_size)

/-- The no-argument free functions `PushColor()`, `PushAlpha()`, `PushSize()`,
`PushMatrix()`, `PushId()`. -/
def PushTop {F : Type} (grant : Nat → Nat → Nat) (ctx : Context F) :
    StackKind → Except Fault (Context F)
  | .color => PushColor grant ctx
  | .alpha => PushAlpha grant ctx
  | .size => PushSize grant ctx
  | .matrix => PushMatrix grant ctx
  | .id => PushId grant ctx

/-! Sequences of stack operations, and the plain list model of a stack. -/

/-- One operation on a state stack: `push(value)`, `pop()` or `set(value)`. -/
inductive StackOp (α : Type) where
  | push (v : α)
  | pop
  | set (v : α)
deriving DecidableEq, Repr

namespace Context

variable {F : Type}

/-- Perform one operation on the stack `k`. -/
def apply (grant : Nat → Nat → Nat) (self : Context F) (k : StackKind) :
    StackOp (k.Value F) → Except Fault (Context F)
  | .push v => self.push grant k v
  | .pop => self.pop k
  | .set v => self.set k v

/-- Perform a sequence of operations on the stack `k`, first to last; the first fault
ends the run. -/
def run (grant : Nat → Nat → Nat) (self : Context F) (k : StackKind) :
    List (StackOp (k.Value F)) → Except Fault (Context F)
  | [] => .ok self
  | op :: ops => do
    let ctx ← self.apply grant k op
    ctx.run grant k ops

end Context

namespace ListModel

variable {α : Type}

/-- The stack engine contract of the spec on a plain list whose last element is the
top: "`push(value)` appends `value`; `pop()` removes the top, leaving the previous
value exposed; `set(value)` overwrites the top in place". -/
def step (l : List α) : StackOp α → List α
  | .push v => l ++ [v]
  | .pop => l.dropLast
  | .set v => l.dropLast ++ [v]

/-- Simulate a sequence of operations on the list model. -/
def run (l : List α) (ops : List (StackOp α)) : List α :=
  ops.foldl step l

/-- The contract "`get()` reads the top" on the list model. -/
def top (l : List α) : Option α := l.getLast?

end ListModel

namespace StackOp

variable {α : Type}

/-- The sequence never pops the baseline entry of a stack that is `depth` entries deep:
each `pop()` is made when more than one entry is on the stack. -/
def KeepsBaseline : Nat → List (StackOp α) → Prop
  | _, [] => True
  | depth, .push _ :: ops => KeepsBaseline (depth + 1) ops
  | depth, .set _ :: ops => KeepsBaseline depth ops
  | depth, .pop :: ops => 1 < depth ∧ KeepsBaseline (depth - 1) ops

instance (depth : Nat) (ops : List (StackOp α)) : Decidable (KeepsBaseline depth ops) := by
  induction ops generalizing depth with
  | nil => exact isTrue trivial
  | cons op ops ih =>
    cases op with
    | push v => exact ih (depth + 1)
    | set v => exact ih depth
    | pop => exact @instDecidableAnd _ _ _ (ih (depth - 1))

/-- Number of `push(value)` operations in a sequence. -/
def pushes (ops : List (StackOp α)) : Nat :=
  (ops.filter fun op => match op with | .push _ => true | _ => false).length

/-- Number of `pop()` operations in a sequence. -/
def pops (ops : List (StackOp α)) : Nat :=
  (ops.filter fun op => match op with | .pop => true | _ => false).length

/-- Number of `set(value)` operations in a sequence. -/
def sets (ops : List (StackOp α)) : Nat :=
  (ops.filter fun op => match op with | .set _ => true | _ => false).length

/-- The sequence "consists only of pushes and pops that balance": no `set`, every
prefix has at least as many pushes as pops, and the totals are equal. -/
def Balanced (ops : List (StackOp α)) : Prop :=
  sets ops = 0 ∧ (∀ n, n ≤ ops.length → pops (ops.take n) ≤ pushes (ops.take n)) ∧
    pushes ops = pops ops

instance (ops : List (StackOp α)) : Decidable (Balanced ops) := by
  unfold Balanced; exact inferInstance

end StackOp

/-! Matrix element access, packed colors and key state. -/

/-- The index `i` that `Mat3::operator()(int _row, int _col)` computes: `_row * 3 + _col`
when the macro `IM3D_MATRIX_ROW_MAJOR` is defined, `_col * 3 + _row` otherwise. The macro
belongs to im3d_config.h, which is not among the sources; whether it is defined is the
parameter `rowMajor`, and "column-major unless IM3D_MATRIX_ROW_MAJOR defined" makes
`false` the default. -/
def Mat3.index (rowMajor : Bool) (_row _col : Int) : Int :=
  if rowMajor then _row * 3 + _col else _col * 3 + _row

/-- The method `Mat3::operator()(int _row, int _col)`: `return m[i]`, a fault when `i` is
outside `float m[9]`. -/
def Mat3.elem {F : Type} (rowMajor : Bool) (self : Mat3 F) (_row _col : Int) :
    Except Fault F :=
  if h : 0 ≤ Mat3.index rowMajor _row _col ∧ Mat3.index rowMajor _row _col < 9 then
    .ok (self.m ⟨(Mat3.index rowMajor _row _col).toNat, by omega⟩)
  else .error Fault.outOfBounds

/-- The index `i` that `Mat4::operator()(int _row, int _col)` computes: `_row * 4 + _col`
when the macro `IM3D_MATRIX_ROW_MAJOR` is defined, `_col * 4 + _row` otherwise. -/
def Mat4.index (rowMajor : Bool) (_row _col : Int) : Int :=
  if rowMajor then _row * 4 + _col else _col * 4 + _row

/-- The method `Mat4::operator()(int _row, int _col)`: `return m[i]`, a fault when `i` is
outside `float m[16]`. -/
def Mat4.elem {F : Type} (rowMajor : Bool) (self : Mat4 F) (_row _col : Int) :
    Except Fault F :=
  if h : 0 ≤ Mat4.index rowMajor _row _col ∧ Mat4.index rowMajor _row _col < 16 then
    .ok (self.m ⟨(Mat4.index rowMajor _row _col).toNat, by omega⟩)
  else .error Fault.outOfBounds

namespace Color

/-- The mask `U32 mask = 0xff << _i` of `Color::set` and `Color::get`, for a bit offset
`_i`. -/
def mask (_i : Nat) : Nat := (255 <<< _i) % U32_RANGE

/-- The conversion `(U32)x` of a float: the integer part of `x`, for `0 ≤ x < 2^32`
(for other `x` the C++ conversion is not defined; the model gives the integer part
modulo `2^32`, and 0 for negative `x`). -/
def toU32 {F : Type} [LinearOrderedField F] [FloorRing F] (x : F) : Nat :=
  ⌊x⌋₊ % U32_RANGE

/-- The method `Color::set(int _i, float _val)`:
`{ _i *= 8; U32 mask = 0xff << _i; v = (v & ~mask) | ((U32)(_val * 255.0f) << _i); }`.
On a `U32`, `~mask` is `mask ^ 0xffffffff`, and `<<` drops the bits shifted past
bit 31. -/
def set {F : Type} [LinearOrderedField F] [FloorRing F] (self : Color) (_i : Nat)
    (_val : F) : Color :=
  { v := (self.v &&& (mask (_i * 8) ^^^ 4294967295)) |||
      ((toU32 (_val * 255) <<< (_i * 8)) % U32_RANGE) }

/-- The method `setR`: `{ set(3, _val); }`. -/
def setR {F : Type} [LinearOrderedField F] [FloorRing F] (self : Color) (_val : F) :
    Color := self.set 3 _val

/-- The method `setG`: `{ set(2, _val); }`. -/
def setG {F : Type} [LinearOrderedField F] [FloorRing F] (self : Color) (_val : F) :
    Color := self.set 2 _val

/-- The method `setB`: `{ set(1, _val); }`. -/
def setB {F : Type} [LinearOrderedField F] [FloorRing F] (self : Color) (_val : F) :
    Color := self.set 1 _val

/-- The method `setA`: `{ set(0, _val); }`. -/
def setA {F : Type} [LinearOrderedField F] [FloorRing F] (self : Color) (_val : F) :
    Color := self.set 0 _val

/-- The method `Color::get(int _i)`:
`{ _i *= 8; U32 mask = 0xff << _i; return (float)((v & mask) >> _i) / 255.0f; }`.
The float type only has to convert integers and divide. -/
def get {F : Type} [NatCast F] [Div F] (self : Color) (_i : Nat) : F :=
  (((self.v &&& mask (_i * 8)) >>> (_i * 8) : Nat) : F) / ((255 : Nat) : F)

/-- The method `getR`: `{ return get(3); }`. -/
def getR {F : Type} [NatCast F] [Div F] (self : Color) : F := self.get 3

/-- The method `getG`: `{ return get(2); }`. -/
def getG {F : Type} [NatCast F] [Div F] (self : Color) : F := self.get 2

/-- The method `getB`: `{ return get(1); }`. -/
def getB {F : Type} [NatCast F] [Div F] (self : Color) : F := self.get 1

/-- The method `getA`: `{ return get(0); }`. -/
def getA {F : Type} [NatCast F] [Div F] (self : Color) : F := self.get 0

/-- The byte of channel `_i` of a packed color: bits `8 * _i` to `8 * _i + 7`. -/
def channel (self : Color) (_i : Nat) : Nat := self.v / 2 ^ (8 * _i) % 256

end Color

namespace Context

variable {F : Type}

/-- The method `isKeyDown`: `{ return m_keyDownCurr[_key]; }`. -/
def isKeyDown (self : Context F) (_key : Key) : Bool := self.m_keyDownCurr _key

/-- The method `wasKeyPressed`:
`{ return m_keyDownCurr[_key] && !m_keyDownPrev[_key]; }`. -/
def wasKeyPressed (self : Context F) (_key : Key) : Bool :=
  self.m_keyDownCurr _key && !self.m_keyDownPrev _key

end Context

/-! Primitive construction, gizmo hot id and sorting. Their methods are declared in
im3d.h and defined in the implementation unit, which is not among the sources. -/

/-- The vector, matrix and color arithmetic that `Context::vertex` uses. The spec keeps
"the vector/matrix/color arithmetic library" out of scope, "assumed available as an opaque
numeric type set", so its two operations are parameters: `transform m p` "transforms
position by the current transform-stack top", and `mulAlpha c a` "multiplies color's alpha
by the current alpha-stack top". -/
structure VertexMath (F : Type) where
  transform : Mat4 F → Vec3 F → Vec3 F
  mulAlpha : Color → F → Color

/-- The arguments of one call `vertex(_position, _size, _color)`. -/
structure VertexInput (F : Type) where
  position : Vec3 F
  size : F
  color : Color

/-- The constructor `Vec4(const Vec3& _xyz, float _w)`. -/
def Vec4.ofVec3 {F : Type} (_xyz : Vec3 F) (_w : F) : Vec4 F :=
  { x := _xyz.x, y := _xyz.y, z := _xyz.z, w := _w }

/-- The constructor `VertexData(const Vec3& _position, float _size, Color _color)`. -/
def VertexData.new {F : Type} (_position : Vec3 F) (_size : F) (_color : Color) :
    VertexData F :=
  { m_positionSize := Vec4.ofVec3 _position _size, m_color := _color }

/-- The table `DrawPrimitiveSize`: vertices per draw primitive type. -/
def DrawPrimitiveSize : DrawPrimitiveType → Nat
  | .DrawPrimitive_Triangles => 3
  | .DrawPrimitive_Lines => 2
  | .DrawPrimitive_Points => 1

/-- Modelled from the spec: the primitive type that a primitive mode "maps to"; points
feed the points buffer, the three line modes the lines buffer and the two triangle modes
the triangles buffer. -/
def PrimitiveMode.primType : PrimitiveMode → Option DrawPrimitiveType
  | .PrimitiveMode_None => none
  | .PrimitiveMode_Points => some .DrawPrimitive_Points
  | .PrimitiveMode_Lines => some .DrawPrimitive_Lines
  | .PrimitiveMode_LineStrip => some .DrawPrimitive_Lines
  | .PrimitiveMode_LineLoop => some .DrawPrimitive_Lines
  | .PrimitiveMode_Triangles => some .DrawPrimitive_Triangles
  | .PrimitiveMode_TriangleStrip => some .DrawPrimitive_Triangles

/-- Append the elements of a list with `push_back`, first to last. -/
def Vector.push_back_all {α : Type} (grant : Nat → Nat → Nat) (self : Vector α) :
    List α → Except Fault (Vector α)
  | [] => .ok self
  | v :: vs => do
    let s ← self.push_back grant v
    s.push_back_all grant vs

namespace Context

variable {F : Type}

/-- The sort bucket that `m_primList` selects: "1 if sorting enabled, else 0". -/
def primList (self : Context F) : Fin 2 := if self.m_primList = 1 then 1 else 0

/-- The vertex buffer `m_vertexData[type][m_primList]` of the primitive being built. -/
def activeBucket (self : Context F) (type : DrawPrimitiveType) : Vector (VertexData F) :=
  self.m_vertexData type self.primList

/-- Assign the vertex buffer `m_vertexData[type][m_primList]`. -/
def setActiveBucket (self : Context F) (type : DrawPrimitiveType)
    (bucket : Vector (VertexData F)) : Context F :=
  { self with
    m_vertexData := fun t l =>
      if t = type ∧ l = self.primList then bucket else self.m_vertexData t l }

/-- Modelled from the spec: `Context::begin`. "`begin(mode)`: fails (assert) if a
primitive is already open. Records the starting vertex count and resets the
per-primitive vertex counter. Selects the bucket index from the current sort-enable state
(0 = unsorted, 1 = sortable) and the Primitive Type implied by `mode`." It also fails
after `draw()`: "calling any Begin/Vertex/Gizmo function ... after `endFrame()` without
an intervening `resetFrame()` is caller error", and im3d.h keeps `m_drawCalled` "for
assert if primitives are pushed after draw() was called". -/
def begin_ (self : Context F) (_mode : PrimitiveMode) : Except Fault (Context F) := do
  IM3D_ASSERT (!self.m_drawCalled)
  IM3D_ASSERT (decide (self.m_primMode = .PrimitiveMode_None))
  let sorting ← self.getEnableSorting
  let ctx : Context F := { self with
    m_primMode := _mode
    m_primList := if sorting then 1 else 0
    m_vertCountThisPrim := 0 }
  match _mode.primType with
  | some type => pure { ctx with m_firstVertThisPrim := (ctx.activeBucket type).size }
  | none => pure ctx

/-- Modelled from the spec: the "shared prior vertices" that `vertex` re-emits before
the new vertex. "For strip/loop/fan modes, once at least two (lines) or three
(triangles) vertices have been seen since `begin`, each new vertex additionally triggers
synthesis of the implied additional primitive by re-emitting the necessary shared prior
vertices": a line strip or loop repeats the last stored vertex, a triangle strip the
last two, in the order they are stored (the spec leaves the winding open). -/
def sharedVertices (self : Context F) (bucket : Vector (VertexData F)) :
    Except Fault (List (VertexData F)) :=
  match self.m_primMode with
  | .PrimitiveMode_LineStrip | .PrimitiveMode_LineLoop =>
    if 2 ≤ self.m_vertCountThisPrim then do
      let last ← bucket.back
      pure [last]
    else pure []
  | .PrimitiveMode_TriangleStrip =>
    if 3 ≤ self.m_vertCountThisPrim then do
      let a ← bucket.index (bucket.size - 2)
      let b ← bucket.back
      pure [a, b]
    else pure []
  | _ => pure []

/-- Modelled from the spec: `Context::vertex(_position, _size, _color)`.
"`vertex(position, size, color)`: fails (assert) if no primitive is open. Transforms
`position` by the current transform-stack top, multiplies `color`'s alpha by the current
alpha-stack top, and appends the resulting vertex to the active bucket", after the shared
prior vertices of a strip or loop. `m_vertCountThisPrim` counts the "calls to vertex()
since the last call to begin()". As `begin`, it fails after `draw()` (`m_drawCalled`). -/
def vertex (math : VertexMath F) (grant : Nat → Nat → Nat) (self : Context F)
    (_position : Vec3 F) (_size : F) (_color : Color) : Except Fault (Context F) := do
  IM3D_ASSERT (!self.m_drawCalled)
  IM3D_ASSERT (decide (self.m_primMode ≠ .PrimitiveMode_None))
  let mat ← self.getMatrix
  let alpha ← self.getAlpha
  let vd := VertexData.new (math.transform mat _position) _size (math.mulAlpha _color alpha)
  match self.m_primMode.primType with
  | none => throw Fault.assertion
  | some type =>
    let shared ← self.sharedVertices (self.activeBucket type)
    let bucket ← (self.activeBucket type).push_back_all grant (shared ++ [vd])
    pure { self.setActiveBucket type bucket with
      m_vertCountThisPrim := (self.m_vertCountThisPrim + 1) % U32_RANGE }

/-- Modelled from the spec: `Context::end`. "`end()`: fails (assert) if no primitive is
open, or if the number of vertices pushed does not satisfy the minimum for the mode (e.g.
a Lines primitive needs an even count; a degenerate primitive with too few vertices is
silently discarded, not an error)"; "a loop closes by repeating its first vertex", after
the last vertex, which starts the closing segment. A `Lines` or `Triangles` primitive
asserts a whole number of primitives; a strip or loop with too few vertices is discarded
by cutting the buffer back to `m_firstVertThisPrim`. -/
def end_ (grant : Nat → Nat → Nat) (self : Context F) : Except Fault (Context F) := do
  IM3D_ASSERT (decide (self.m_primMode ≠ .PrimitiveMode_None))
  match self.m_primMode.primType with
  | none => throw Fault.assertion
  | some type =>
    let bucket := self.activeBucket type
    let discarded : Vector (VertexData F) := { bucket with m_size := self.m_firstVertThisPrim }
    let count := self.m_vertCountThisPrim
    let closed ← match self.m_primMode with
      | .PrimitiveMode_Lines => do
        IM3D_ASSERT (decide (count % 2 = 0))
        pure bucket
      | .PrimitiveMode_Triangles => do
        IM3D_ASSERT (decide (count % 3 = 0))
        pure bucket
      | .PrimitiveMode_LineStrip => pure (if count < 2 then discarded else bucket)
      | .PrimitiveMode_TriangleStrip => pure (if count < 3 then discarded else bucket)
      | .PrimitiveMode_LineLoop =>
        if count < 3 then pure discarded
        else do
          let last ← bucket.back
          let first ← bucket.index self.m_firstVertThisPrim
          bucket.push_back_all grant [last, first]
      | _ => pure bucket
    pure { self.setActiveBucket type closed with m_primMode := .PrimitiveMode_None }

/-- The calls `begin(mode)`, `vertex(...)` for each of `vs` in turn, `end()`. -/
def primitive (math : VertexMath F) (grant : Nat → Nat → Nat) (self : Context F)
    (_mode : PrimitiveMode) (vs : List (VertexInput F)) : Except Fault (Context F) := do
  let ctx ← self.begin_ _mode
  let ctx ← vs.foldlM (fun c v => c.vertex math grant v.position v.size v.color) ctx
  ctx.end_ grant

/-- The method `vertex(const Vec3& _position)` of line 428:
`{ vertex(_position, getSize(), getColor()); }`, over any three-argument `vertex`. -/
def vertexPosition (vertex : Context F → Vec3 F → F → Color → Except Fault (Context F))
    (self : Context F) (_position : Vec3 F) : Except Fault (Context F) := do
  vertex self _position (← self.getSize) (← self.getColor)

/-- Modelled from the spec: `Context::makeHot`, declared in im3d.h under the comment
"Make _id hot if _depth < m_hotDepth && _intersects". In the spec an element, "if it
intersects and its computed depth is nearer than `hotDepth`, becomes the new
`hotId`/`hotDepth` for this frame", but "an active drag suppresses re-evaluation of hover
candidates, so the dragged gizmo keeps exclusive control even if the cursor passes over
another candidate": once a candidate is active, a second, nearer candidate "must not
change `hotId`/`activeId`", and im3d.h has the active gizmo "the same as m_hotId". So
nothing is made hot while a gizmo is active, that is while `m_activeId` is not
`Id_Invalid`. `Id_Invalid` is declared `extern const Id` in im3d.h and its value is in the
implementation unit: it is a parameter here. The result is the new context and the
returned `bool`, true when `_id` was made hot. -/
def makeHot [LT F] [DecidableRel (fun a b : F => a < b)] (Id_Invalid : Id)
    (self : Context F) (_id : Id) (_depth : F) (_intersects : Bool) : Context F × Bool :=
  if self.m_activeId = Id_Invalid ∧ _depth < self.m_hotDepth ∧ _intersects = true then
    ({ self with m_hotId := _id, m_hotDepth := _depth }, true)
  else (self, false)

end Context

/-! The free functions `Vertex`. `Context::vertex(_position, _size, _color)` is the
parameter `vertex`: the overloads are the same over any definition of it. -/

section VertexFunctions

variable {F : Type}

/-- The function `Vertex(const Vec3& _position)`:
`{ GetContext().vertex(_position, GetContext().getSize(), GetContext().getColor()); }`. -/
def Vertex (vertex : Context F → Vec3 F → F → Color → Except Fault (Context F))
    (ctx : Context F) (_position : Vec3 F) : Except Fault (Context F) := do
  vertex ctx _position (← ctx.getSize) (← ctx.getColor)

/-- The function `Vertex(const Vec3& _position, Color _color)`:
`{ GetContext().vertex(_position, GetContext().getSize(), _color); }`. -/
def VertexColor (vertex : Context F → Vec3 F → F → Color → Except Fault (Context F))
    (ctx : Context F) (_position : Vec3 F) (_color : Color) : Except Fault (Context F) := do
  vertex ctx _position (← ctx.getSize) _color

/-- The function `Vertex(const Vec3& _position, float _size)`:
`{ GetContext().vertex(_position, _size, GetContext().getColor()); }`. -/
def VertexSize (vertex : Context F → Vec3 F → F → Color → Except Fault (Context F))
    (ctx : Context F) (_position : Vec3 F) (_size : F) : Except Fault (Context F) := do
  vertex ctx _position _size (← ctx.getColor)

/-- The function `Vertex(const Vec3& _position, float _size, Color _color)`:
`{ GetContext().vertex(_position, _size, _color); }`. -/
def VertexSizeColor (vertex : Context F → Vec3 F → F → Color → Except Fault (Context F))
    (ctx : Context F) (_position : Vec3 F) (_size : F) (_color : Color) :
    Except Fault (Context F) :=
  vertex ctx _position _size _color

/-- The function `Vertex(float _x, float _y, float _z)`:
`{ Vertex(Vec3(_x, _y, _z)); }`. -/
def VertexXYZ (vertex : Context F → Vec3 F → F → Color → Except Fault (Context F))
    (ctx : Context F) (_x _y _z : F) : Except Fault (Context F) :=
  Vertex vertex ctx ⟨_x, _y, _z⟩

/-- The function `Vertex(float _x, float _y, float _z, Color _color)`:
`{ Vertex(Vec3(_x, _y, _z), _color); }`. -/
def VertexXYZColor (vertex : Context F → Vec3 F → F → Color → Except Fault (Context F))
    (ctx : Context F) (_x _y _z : F) (_color : Color) : Except Fault (Context F) :=
  VertexColor vertex ctx ⟨_x, _y, _z⟩ _color

/-- The function `Vertex(float _x, float _y, float _z, float _size)`:
`{ Vertex(Vec3(_x, _y, _z), _size); }`. -/
def VertexXYZSize (vertex : Context F → Vec3 F → F → Color → Except Fault (Context F))
    (ctx : Context F) (_x _y _z _size : F) : Except Fault (Context F) :=
  VertexSize vertex ctx ⟨_x, _y, _z⟩ _size

/-- The function `Vertex(float _x, float _y, float _z, float _size, Color _color)`:
`{ Vertex(Vec3(_x, _y, _z), _size, _color); }`. -/
def VertexXYZSizeColor (vertex : Context F → Vec3 F → F → Color → Except Fault (Context F))
    (ctx : Context F) (_x _y _z _size : F) (_color : Color) : Except Fault (Context F) :=
  VertexSizeColor vertex ctx ⟨_x, _y, _z⟩ _size _color

end VertexFunctions

/-- The vertex list of the explicit `Lines` primitive for a loop: "each consecutive pair
of vertices". -/
def consecutivePairs {α : Type} : List α → List α
  | a :: b :: rest => a :: b :: consecutivePairs (b :: rest)
  | _ => []

/-- The vertex list of the explicit `Lines` primitive for a loop: each consecutive pair
of vertices "followed by the last-to-first pair", as in `[A,B,B,C,C,A]` for `[A,B,C]`. -/
def loopAsLines {α : Type} (vs : List α) : List α :=
  consecutivePairs vs ++
    match vs.getLast?, vs.head? with
    | some last, some first => [last, first]
    | _, _ => []

/-- The line segments that a `Lines` vertex buffer holds: its vertices two by two. -/
def segments {α : Type} : List α → List (α × α)
  | a :: b :: rest => (a, b) :: segments rest
  | _ => []

/-! Depth sorting of the sortable buffers. -/

section Sorting

variable {F : Type}

/-- Split a vertex buffer into primitives of `n` vertices each, first to last (vertices
left over at the end, fewer than `n`, belong to no primitive). `fuel` bounds the number of
primitives. -/
def primitivesAux {α : Type} (n : Nat) : Nat → List α → List (List α)
  | 0, _ => []
  | fuel + 1, l =>
    if n = 0 ∨ l.length < n then [] else l.take n :: primitivesAux n fuel (l.drop n)

/-- The primitives of `n` vertices each that a vertex buffer holds. -/
def primitivesOf {α : Type} (n : Nat) (l : List α) : List (List α) :=
  primitivesAux n l.length l

/-- The position `xyz` of a stored vertex. -/
def VertexData.position (v : VertexData F) : Vec3 F :=
  { x := v.m_positionSize.x, y := v.m_positionSize.y, z := v.m_positionSize.z }

/-- Modelled from the spec: the centroid of a primitive, the "average of its 2 or 3
vertices, or the single vertex for points". -/
def centroid [Field F] (prim : List (VertexData F)) : Vec3 F :=
  { x := (prim.map fun v => v.position.x).sum / (prim.length : F)
    y := (prim.map fun v => v.position.y).sum / (prim.length : F)
    z := (prim.map fun v => v.position.z).sum / (prim.length : F) }

/-- The squared distance between two points. -/
def distanceSq [Field F] (a b : Vec3 F) : F :=
  (a.x - b.x) * (a.x - b.x) + (a.y - b.y) * (a.y - b.y) + (a.z - b.z) * (a.z - b.z)

/-- Modelled from the spec: the "per-primitive (not per-vertex) sort key: the squared
distance from the view origin to the primitive's centroid". -/
def sortKey [Field F] (viewOrigin : Vec3 F) (prim : List (VertexData F)) : F :=
  distanceSq viewOrigin (centroid prim)

/-- Modelled from the spec: "Sort primitives by descending distance (farthest first)";
"ties break by original insertion order (stable sort)". Each primitive is inserted in
front of the first one that is not farther than it. -/
def sortPrimitives [LinearOrderedField F] (viewOrigin : Vec3 F)
    (prims : List (List (VertexData F))) : List (List (VertexData F)) :=
  prims.insertionSort fun a b => sortKey viewOrigin b ≤ sortKey viewOrigin a

/-- The sortable primitives of a type, in the order in which they are stored. -/
def Context.sortablePrimitives (self : Context F) (type : DrawPrimitiveType) :
    List (List (VertexData F)) :=
  primitivesOf (DrawPrimitiveSize type) (self.m_vertexData type 1).contents

/-- The sortable primitives of a type, in sorted order. -/
def Context.sortedPrimitives [LinearOrderedField F] (self : Context F)
    (type : DrawPrimitiveType) : List (List (VertexData F)) :=
  sortPrimitives self.m_appData.m_viewOrigin (self.sortablePrimitives type)

/-- The number of sortable primitives, of the three types together. -/
def Context.sortableCount (self : Context F) : Nat :=
  (self.sortablePrimitives .DrawPrimitive_Triangles).length +
    (self.sortablePrimitives .DrawPrimitive_Lines).length +
    (self.sortablePrimitives .DrawPrimitive_Points).length

/-- The sortable buffer of a type with its primitives stored in sorted order (vertices
left over at the end, belonging to no primitive, stay where they are). -/
def Context.sortedBucket [LinearOrderedField F] (self : Context F)
    (type : DrawPrimitiveType) : Vector (VertexData F) :=
  let bucket := self.m_vertexData type 1
  let sorted := (self.sortedPrimitives type).flatten
  { bucket with m_data := sorted ++ bucket.m_data.drop sorted.length }

/-- One step of choosing the type whose next primitive is emitted: `type` replaces the
best type so far when it has a primitive pending and the best so far has none, or a
nearer one. -/
def farther [LT F] [DecidableRel (fun a b : F => a < b)] (key : List (VertexData F) → F)
    (pending : DrawPrimitiveType → List (List (VertexData F)))
    (best : Option DrawPrimitiveType) (type : DrawPrimitiveType) :
    Option DrawPrimitiveType :=
  match (pending type).head?, best with
  | none, _ => best
  | some _, none => some type
  | some p, some b =>
    match (pending b).head? with
    | some q => if key q < key p then some type else some b
    | none => some type

/-- Modelled from the spec: the type whose next pending primitive is the farthest of
the (up to three) next pending primitives, if any is pending; of two at the same
distance, the one of the earlier type (triangles, lines, points). -/
def nextSorted [LT F] [DecidableRel (fun a b : F => a < b)] (key : List (VertexData F) → F)
    (pending : DrawPrimitiveType → List (List (VertexData F))) : Option DrawPrimitiveType :=
  farther key pending
    (farther key pending (farther key pending none .DrawPrimitive_Triangles)
      .DrawPrimitive_Lines)
    .DrawPrimitive_Points

/-- Modelled from the spec: the order in which the sorted primitives are emitted,
"interleaved ... sorted primitives per type in the sorted order computed above": while a
primitive is pending, the farthest of the next pending primitives of the three types is
emitted, so that the primitives of each type come in their sorted order. `fuel` bounds
the number of primitives. -/
def mergeSorted [LT F] [DecidableRel (fun a b : F => a < b)] (key : List (VertexData F) → F) :
    Nat → (DrawPrimitiveType → List (List (VertexData F))) →
      List (DrawPrimitiveType × List (VertexData F))
  | 0, _ => []
  | fuel + 1, pending =>
    match nextSorted key pending with
    | none => []
    | some type =>
      match pending type with
      | [] => []
      | p :: rest =>
        (type, p) :: mergeSorted key fuel (fun t => if t = type then rest else pending t)

/-- Modelled from the spec: "one Draw List per contiguous same-type run, minimizing the
number of lists the host must consume": a primitive joins the draw list of the primitive
emitted right after it when that one has the same type, and starts a draw list
otherwise. -/
def drawListsOfRuns : List (DrawPrimitiveType × List (VertexData F)) → List (DrawList F)
  | [] => []
  | (type, p) :: rest =>
    match drawListsOfRuns rest with
    | [] => [{ m_primType := type, m_vertexData := p, m_vertexCount := p.length % U32_RANGE }]
    | dl :: dls =>
      if dl.m_primType = type then
        { m_primType := type, m_vertexData := p ++ dl.m_vertexData
          m_vertexCount := (p.length + dl.m_vertexCount) % U32_RANGE } :: dls
      else
        { m_primType := type, m_vertexData := p, m_vertexCount := p.length % U32_RANGE } ::
          dl :: dls

/-- Modelled from the spec: `Context::sort`, declared in im3d.h ("Sort primitive data")
and defined in the implementation unit. "For the sortable bucket of each Primitive
Type", the primitives are sorted by `sortPrimitives` and stored back in that order, and
the draw lists of the sorted primitives, "one Draw List per contiguous same-type run",
are appended to `m_sortedDrawLists`; "sorting happens at most once per frame": "a guard
flag prevents redundant re-sorting", which is `m_sortCalled`. -/
def Context.sort [LinearOrderedField F] (grant : Nat → Nat → Nat) (self : Context F) :
    Except Fault (Context F) :=
  if self.m_sortCalled then pure self
  else do
    let runs := mergeSorted (sortKey self.m_appData.m_viewOrigin) self.sortableCount
      (fun type => self.sortedPrimitives type)
    let lists ← self.m_sortedDrawLists.push_back_all grant (drawListsOfRuns runs)
    pure { self with
      m_sortCalled := true
      m_vertexData := fun type list =>
        if list = 1 then self.sortedBucket type else self.m_vertexData type list
      m_sortedDrawLists := lists }

/-- Modelled from the spec: the draw lists of the unsorted buffers, in the emission order
"unsorted Triangles, unsorted Lines, unsorted Points"; a buffer that holds no vertex gives
no draw list (a frame with one unsorted triangle delivers "exactly one Draw List"). -/
def Context.unsortedDrawLists (self : Context F) : List (DrawList F) :=
  ([DrawPrimitiveType.DrawPrimitive_Triangles, DrawPrimitiveType.DrawPrimitive_Lines,
      DrawPrimitiveType.DrawPrimitive_Points].filter
    fun type => decide (0 < (self.m_vertexData type 0).size)).map
    fun type =>
      { m_primType := type, m_vertexData := (self.m_vertexData type 0).contents
        m_vertexCount := (self.m_vertexData type 0).size }

/-- Modelled from the spec: `Context::draw`, declared in im3d.h and defined in the
implementation unit; the spec's `endFrame()`, which "invokes Sort & Emit, then marks the
frame as drawn". "`draw()` fails (assert) if `reset()` was not called since the previous
`draw()`". The draw lists are handed to the host's draw callback one by one: the result
lists them in the order of the calls, "unsorted Triangles, unsorted Lines, unsorted
Points, then" the draw lists of the sorted primitives. -/
def Context.draw [LinearOrderedField F] (grant : Nat → Nat → Nat) (self : Context F) :
    Except Fault (Context F × List (DrawList F)) := do
  IM3D_ASSERT (!self.m_drawCalled)
  let ctx ← self.sort grant
  pure ({ ctx with m_drawCalled := true },
    self.unsortedDrawLists ++ ctx.m_sortedDrawLists.contents)

/-- The function `Draw()`: `{ GetContext().draw(); }`, over the context's `draw`. -/
def Draw [LinearOrderedField F] (grant : Nat → Nat → Nat) (ctx : Context F) :
    Except Fault (Context F × List (DrawList F)) :=
  ctx.draw grant

/-- The primitives of a type that a sequence of draw lists holds, in the order in which
the host receives them. -/
def emittedPrimitives (type : DrawPrimitiveType) (lists : List (DrawList F)) :
    List (List (VertexData F)) :=
  ((lists.filter fun dl => decide (dl.m_primType = type)).map
    fun dl => primitivesOf (DrawPrimitiveSize type) dl.m_vertexData).flatten

end Sorting

/-- The vertices that a line strip or line loop has stored after the vertices `vs` so
far: the first vertex alone, then each consecutive pair. -/
def stripStored {α : Type} : List α → List α
  | [a] => [a]
  | vs => consecutivePairs vs

/-- The fields that `vertex` reads and leaves alone are the same in two contexts: the
primitive mode, the sort bucket, the index of the first vertex, the transform and
alpha stacks, and the flag `m_drawCalled`. -/
def Context.SamePrimitiveState {F : Type} (c1 c : Context F) : Prop :=
  c1.m_primMode = c.m_primMode ∧ c1.m_primList = c.m_primList ∧
    c1.m_firstVertThisPrim = c.m_firstVertThisPrim ∧
    c1.m_matrixStack = c.m_matrixStack ∧ c1.m_alphaStack = c.m_alphaStack ∧
    c1.m_drawCalled = c.m_drawCalled

/-- The vertex that `vertex(_position, _size, _color)` stores under the transform `mat`
and the alpha `alpha`. -/
def VertexMath.stored {F : Type} (math : VertexMath F) (mat : Mat4 F) (alpha : F)
    (v : VertexInput F) : VertexData F :=
  VertexData.new (math.transform mat v.position) v.size (math.mulAlpha v.color alpha)

/-- A draw list holds whole primitives of its type: its vertices are those of a list of
primitives of the size of its type, one after the other. -/
def DrawList.Whole {F : Type} (dl : DrawList F) : Prop :=
  ∃ ps : List (List (VertexData F)), dl.m_vertexData = ps.flatten ∧
    ∀ q ∈ ps, q.length = DrawPrimitiveSize dl.m_primType

/-! A sample context, for evaluating the definitions on concrete values. Floats are
rational numbers here. -/

/-- A stack holding the single entry `v`, in storage of 8 slots. -/
def Vector.single {α : Type} (v : α) : Vector α :=
  { m_data := [v], m_size := 1, m_capacity := 8 }

/-- A context in which every state stack holds one entry: color 0xffffffff, alpha 1,
size 2, sorting off, the zero matrix, id 17. -/
def sampleContext : Context ℚ :=
  { m_gizmoMode := GizmoMode.GizmoMode_Translation
    m_activeId := 0
    m_hotId := 0
    m_hotDepth := 0
    m_gizmoStateVec3 := ⟨0, 0, 0⟩
    m_gizmoStateMat3 := ⟨fun _ => 0⟩
    m_gizmoStateFloat := 0
    m_gizmoHeightPixels := 0
    m_gizmoSizePixels := 0
    m_colorStack := Vector.single ⟨4294967295⟩
    m_alphaStack := Vector.single 1
    m_sizeStack := Vector.single 2
    m_enableSortingStack := Vector.single false
    m_matrixStack := Vector.single ⟨fun _ => 0⟩
    m_idStack := Vector.single 17
    m_vertexData := fun _ _ => Vector.new
    m_sortedDrawLists := Vector.new
    m_sortCalled := false
    m_drawCalled := false
    m_primMode := PrimitiveMode.PrimitiveMode_None
    m_primList := 0
    m_firstVertThisPrim := 0
    m_vertCountThisPrim := 0
    m_appData :=
      { m_keyDown := fun _ => false
        m_cursorRayOrigin := ⟨0, 0, 0⟩
        m_cursorRayDirection := ⟨0, 0, 0⟩
        m_worldUp := ⟨0, 0, 0⟩
        m_viewOrigin := ⟨0, 0, 0⟩
        m_viewportSize := ⟨0, 0⟩
        m_tanHalfFov := 0
        m_deltaTime := 0
        m_userData := 0
        drawCallback := 0 }
    m_keyDownCurr := fun _ => false
    m_keyDownPrev := fun _ => false }

/-- The sample context after `pushColor(255)`. -/
def sampleContextPushed : Context ℚ :=
  { sampleContext with
    m_colorStack := { m_data := [⟨4294967295⟩, ⟨255⟩], m_size := 2, m_capacity := 8 } }

/-- A triangle whose three vertices are at `(d, 0, 0)`, `(d, 1, 0)` and `(d, -1, 0)`: its
centroid is at distance `d` from the origin. -/
def sampleTriangle (d : ℚ) : List (VertexData ℚ) :=
  [VertexData.new ⟨d, 0, 0⟩ 1 ⟨4294967295⟩, VertexData.new ⟨d, 1, 0⟩ 1 ⟨4294967295⟩,
    VertexData.new ⟨d, -1, 0⟩ 1 ⟨4294967295⟩]

/-- The sample context with three sortable triangles submitted, at distances 1, 5 and 3
from the view origin `(0, 0, 0)`, in that order. -/
def sampleContextTriangles : Context ℚ :=
  { sampleContext with
    m_vertexData := fun type list =>
      if type = .DrawPrimitive_Triangles ∧ list = 1 then
        { m_data := sampleTriangle 1 ++ sampleTriangle 5 ++ sampleTriangle 3
          m_size := 9, m_capacity := 12 }
      else Vector.new }

/-- The sample context at the start of a frame, with 0 for `Id_Invalid`: no active id,
no hot id, and a hot depth larger than any depth tested. -/
def sampleContextFrameStart : Context ℚ :=
  { sampleContext with m_activeId := 0, m_hotId := 0, m_hotDepth := 1000000 }

/-- The sample context during a drag, with 0 for `Id_Invalid`: gizmo 7 is active and hot,
at depth 5. -/
def sampleContextDragging : Context ℚ :=
  { sampleContext with m_activeId := 7, m_hotId := 7, m_hotDepth := 5 }

/-- A stand-in for the arithmetic library, for evaluating `vertex` on concrete values:
positions are left where they are and colors as they are. -/
def sampleMath : VertexMath ℚ :=
  { transform := fun _ p => p, mulAlpha := fun c _ => c }

/-- The sample context with a `Triangles` primitive open. -/
def sampleContextOpen : Context ℚ :=
  { sampleContext with m_primMode := .PrimitiveMode_Triangles }

/-- Three vertices `A = (0,0,0)`, `B = (1,0,0)`, `C = (0,1,0)`, of size 1 and colors 1,
2, 3. -/
def sampleLoop : List (VertexInput ℚ) :=
  [⟨⟨0, 0, 0⟩, 1, ⟨1⟩⟩, ⟨⟨1, 0, 0⟩, 1, ⟨2⟩⟩, ⟨⟨0, 1, 0⟩, 1, ⟨3⟩⟩]

/-! Facts about `Vector`, in terms of the elements it holds. -/

namespace Vector

variable {α : Type}

theorem assert_true {β : Type} (f : Unit → Except Fault β) :
    (IM3D_ASSERT true >>= f) = f () := rfl

theorem assert_false {β : Type} (f : Unit → Except Fault β) :
    (IM3D_ASSERT false >>= f) = .error Fault.assertion := rfl

theorem contents_length {s : Vector α} (h : s.Valid) : s.contents.length = s.m_size := by
  unfold contents
  rw [List.length_take]
  exact Nat.min_eq_left h.1

theorem back_eq_getLast? {s : Vector α} (h : s.Valid) (hpos : 0 < s.m_size) :
    ∃ v, s.back = .ok v ∧ s.contents.getLast? = some v := by
  have h1 : s.m_size ≤ s.m_data.length := h.1
  have hlt : s.m_size - 1 < s.m_data.length := by omega
  have e : s.m_data.get? (s.m_size - 1) = some (s.m_data.get ⟨s.m_size - 1, hlt⟩) :=
    List.get?_eq_get hlt
  refine ⟨s.m_data.get ⟨s.m_size - 1, hlt⟩, ?_, ?_⟩
  · unfold back
    rw [decide_eq_true hpos, assert_true, e]
    rfl
  · unfold contents
    rw [List.getLast?_eq_getElem?, List.length_take, Nat.min_eq_left h1,
      List.getElem?_take_of_lt (by omega), ← List.get?_eq_getElem?, e]

theorem back_of_empty {s : Vector α} (h : s.m_size = 0) :
    s.back = .error Fault.assertion := by
  unfold back
  rw [decide_eq_false (by omega), assert_false]

theorem index_eq {s : Vector α} (h : s.Valid) {i : Nat} (hi : i < s.m_size) :
    ∃ v, s.index i = .ok v ∧ s.contents.get? i = some v := by
  have h1 : s.m_size ≤ s.m_data.length := h.1
  have hlt : i < s.m_data.length := by omega
  have e : s.m_data.get? i = some (s.m_data.get ⟨i, hlt⟩) := List.get?_eq_get hlt
  refine ⟨s.m_data.get ⟨i, hlt⟩, ?_, ?_⟩
  · unfold index
    rw [decide_eq_true hi, assert_true, e]
    rfl
  · unfold contents
    rw [List.get?_eq_getElem?, List.getElem?_take_of_lt hi, ← List.get?_eq_getElem?, e]

theorem store_take {data : List α} {i : Nat} (hi : i ≤ data.length) (v : α) :
    (store data i v).take (i + 1) = data.take i ++ [v] := by
  unfold store
  have hlen : (data.take i).length = i := by simp [hi]
  rw [List.take_append_eq_append_take, hlen]
  simp [List.take_take]

theorem store_length {data : List α} {i : Nat} (hi : i ≤ data.length) (v : α) :
    (store data i v).length = max data.length (i + 1) := by
  unfold store
  simp
  omega

theorem push_back_spec (grant : Nat → Nat → Nat) {s : Vector α} (h : s.Valid) (v : α)
    (hroom : s.m_size = s.m_capacity →
      s.m_size < grant s.m_capacity (growRequest s.m_capacity) % U32_RANGE) :
    ∃ s1, s.push_back grant v = .ok s1 ∧ s1.Valid ∧ s1.contents = s.contents ++ [v] ∧
      s1.m_size = s.m_size + 1 := by
  obtain ⟨h1, h2, h3⟩ := h
  have hmod : grant s.m_capacity (growRequest s.m_capacity) % U32_RANGE < U32_RANGE :=
    Nat.mod_lt _ (by decide)
  by_cases hfull : s.m_size = s.m_capacity
  · have hr := hroom hfull
    have hsz : (s.m_size + 1) % U32_RANGE = s.m_size + 1 := Nat.mod_eq_of_lt (by omega)
    have hlen : s.m_size ≤ (s.m_data.take s.m_size).length := by
      rw [List.length_take]; omega
    have hrun : s.push_back grant v = .ok
        { m_data := store (s.m_data.take s.m_size) s.m_size v
          m_size := s.m_size + 1
          m_capacity := grant s.m_capacity (growRequest s.m_capacity) % U32_RANGE } := by
      unfold push_back
      rw [if_pos hfull]
      simp only [reserve]
      rw [if_pos hr, hsz]
    refine ⟨_, hrun, ⟨?_, ?_, hmod⟩, ?_, rfl⟩
    · show s.m_size + 1 ≤ (store (s.m_data.take s.m_size) s.m_size v).length
      rw [store_length hlen]; omega
    · show (store (s.m_data.take s.m_size) s.m_size v).length ≤
        grant s.m_capacity (growRequest s.m_capacity) % U32_RANGE
      rw [store_length hlen, List.length_take]; omega
    · show (store (s.m_data.take s.m_size) s.m_size v).take (s.m_size + 1) = _
      rw [store_take hlen, List.take_take, Nat.min_self]; rfl
  · have hlt : s.m_size < s.m_capacity := by omega
    have hsz : (s.m_size + 1) % U32_RANGE = s.m_size + 1 := Nat.mod_eq_of_lt (by omega)
    have hrun : s.push_back grant v = .ok
        { m_data := store s.m_data s.m_size v
          m_size := s.m_size + 1
          m_capacity := s.m_capacity } := by
      unfold push_back
      rw [if_neg hfull]
      simp only []
      rw [if_pos hlt, hsz]
    refine ⟨_, hrun, ⟨?_, ?_, h3⟩, ?_, rfl⟩
    · show s.m_size + 1 ≤ (store s.m_data s.m_size v).length
      rw [store_length h1]; omega
    · show (store s.m_data s.m_size v).length ≤ s.m_capacity
      rw [store_length h1]; omega
    · show (store s.m_data s.m_size v).take (s.m_size + 1) = _
      rw [store_take h1]; rfl

theorem push_back_of_no_room (grant : Nat → Nat → Nat) {s : Vector α} (v : α)
    (h : ¬ s.HasRoom grant) : s.push_back grant v = .error Fault.outOfBounds := by
  unfold HasRoom at h
  have hfull : s.m_size = s.m_capacity := by
    by_contra hc; exact h (fun hf => absurd hf hc)
  have hno : ¬ s.m_size < grant s.m_capacity (growRequest s.m_capacity) % U32_RANGE :=
    fun hlt => h (fun _ => hlt)
  unfold push_back
  rw [if_pos hfull]
  simp only [reserve]
  rw [if_neg hno]

theorem GrantsRoom.hasRoom {grant : Nat → Nat → Nat} {n : Nat} (h : GrantsRoom grant n)
    {s : Vector α} (hn : s.m_size ≤ n) : s.HasRoom grant :=
  fun hfull => hfull ▸ h _ hn

/-- The policy `grantAtLeast8` leaves room up to the largest capacity whose growth
request still fits in a `U32`. -/
theorem grantAtLeast8_grantsRoom : GrantsRoom grantAtLeast8 2863311530 := by
  intro c hc
  unfold grantAtLeast8 growRequest U32_RANGE
  have h1 : (c + c / 2) % 4294967296 = c + c / 2 := Nat.mod_eq_of_lt (by omega)
  rw [h1]
  have h2 : max 8 (max c (c + c / 2)) < 4294967296 := by
    simp only [max_def]
    split_ifs <;> omega
  rw [Nat.mod_eq_of_lt h2]
  simp only [max_def]
  split_ifs <;> omega

theorem pop_back_spec {s : Vector α} (h : s.Valid) (hpos : 0 < s.m_size) :
    ∃ s1, s.pop_back = .ok s1 ∧ s1.Valid ∧ s1.contents = s.contents.dropLast ∧
      s1.m_size = s.m_size - 1 ∧ s1.m_data = s.m_data ∧ s1.m_capacity = s.m_capacity := by
  obtain ⟨h1, h2, h3⟩ := h
  have hrun : s.pop_back = .ok { s with m_size := s.m_size - 1 } := by
    unfold pop_back
    rw [decide_eq_true hpos, assert_true]
    rfl
  refine ⟨_, hrun, ⟨?_, h2, h3⟩, ?_, rfl, rfl, rfl⟩
  · show s.m_size - 1 ≤ s.m_data.length
    omega
  · show s.m_data.take (s.m_size - 1) = (s.m_data.take s.m_size).dropLast
    rw [List.dropLast_eq_take, List.length_take, List.take_take]
    congr 1
    omega

theorem pop_back_of_empty {s : Vector α} (h : s.m_size = 0) :
    s.pop_back = .error Fault.assertion := by
  unfold pop_back
  rw [decide_eq_false (by omega), assert_false]

theorem back_assign_spec {s : Vector α} (h : s.Valid) (hpos : 0 < s.m_size) (v : α) :
    ∃ s1, s.back_assign v = .ok s1 ∧ s1.Valid ∧ s1.contents = s.contents.dropLast ++ [v] ∧
      s1.m_size = s.m_size ∧ s1.m_capacity = s.m_capacity := by
  obtain ⟨h1, h2, h3⟩ := h
  have hlt : s.m_size - 1 < s.m_capacity := by omega
  have hle : s.m_size - 1 ≤ s.m_data.length := by omega
  have hrun : s.back_assign v = .ok { s with m_data := store s.m_data (s.m_size - 1) v } := by
    unfold back_assign
    rw [decide_eq_true hpos, assert_true, if_pos hlt]
    rfl
  refine ⟨_, hrun, ⟨?_, ?_, h3⟩, ?_, rfl, rfl⟩
  · show s.m_size ≤ (store s.m_data (s.m_size - 1) v).length
    rw [store_length hle]; omega
  · show (store s.m_data (s.m_size - 1) v).length ≤ s.m_capacity
    rw [store_length hle]; omega
  · show (store s.m_data (s.m_size - 1) v).take s.m_size =
      (s.m_data.take s.m_size).dropLast ++ [v]
    have hd : (s.m_data.take s.m_size).dropLast = s.m_data.take (s.m_size - 1) := by
      rw [List.dropLast_eq_take, List.length_take, List.take_take]
      congr 1
      omega
    have hst := store_take hle v
    rw [Nat.sub_add_cancel hpos] at hst
    rw [hd, hst]

theorem back_assign_of_empty {s : Vector α} (h : s.m_size = 0) (v : α) :
    s.back_assign v = .error Fault.assertion := by
  unfold back_assign
  rw [decide_eq_false (by omega), assert_false]

end Vector

/-! The context methods in terms of `Vector`. -/

namespace Context

variable {F : Type}

theorem get_eq_back (ctx : Context F) (k : StackKind) : ctx.get k = (ctx.stack k).back := by
  cases k <;> rfl

theorem push_of_push_back (grant : Nat → Nat → Nat) (ctx : Context F) (k : StackKind)
    (v : k.Value F) {s1 : Vector (k.Value F)} (h : (ctx.stack k).push_back grant v = .ok s1) :
    ∃ ctx1, ctx.push grant k v = .ok ctx1 ∧ ctx1.stack k = s1 := by
  cases k <;>
    (simp only [stack] at h
     simp only [push, pushColor, pushAlpha, pushSize, pushMatrix, pushId, h]
     exact ⟨_, rfl, rfl⟩)

theorem pop_of_pop_back (ctx : Context F) (k : StackKind)
    {s1 : Vector (k.Value F)} (h : (ctx.stack k).pop_back = .ok s1) :
    ∃ ctx1, ctx.pop k = .ok ctx1 ∧ ctx1.stack k = s1 := by
  cases k <;>
    (simp only [stack] at h
     simp only [pop, popColor, popAlpha, popSize, popMatrix, popId, h]
     exact ⟨_, rfl, rfl⟩)

theorem set_of_back_assign (ctx : Context F) (k : StackKind)
    (v : k.Value F) {s1 : Vector (k.Value F)} (h : (ctx.stack k).back_assign v = .ok s1) :
    ∃ ctx1, ctx.set k v = .ok ctx1 ∧ ctx1.stack k = s1 := by
  cases k <;>
    (simp only [stack] at h
     simp only [set, setColor, setAlpha, setSize, setMatrix, setId, h]
     exact ⟨_, rfl, rfl⟩)

theorem push_of_push_back_error (grant : Nat → Nat → Nat) (ctx : Context F)
    (k : StackKind) (v : k.Value F) {e : Fault}
    (h : (ctx.stack k).push_back grant v = .error e) : ctx.push grant k v = .error e := by
  cases k <;>
    (simp only [stack] at h
     simp only [push, pushColor, pushAlpha, pushSize, pushMatrix, pushId, h]
     rfl)

theorem pop_of_pop_back_error (ctx : Context F) (k : StackKind) {e : Fault}
    (h : (ctx.stack k).pop_back = .error e) : ctx.pop k = .error e := by
  cases k <;>
    (simp only [stack] at h
     simp only [pop, popColor, popAlpha, popSize, popMatrix, popId, h]
     rfl)

end Context

theorem ok_bind {α β : Type} (a : α) (f : α → Except Fault β) :
    (Except.ok a >>= f) = f a := rfl

theorem bind_eq_ok {α β : Type} {x : Except Fault α} {f : α → Except Fault β} {b : β}
    (h : (x >>= f) = .ok b) : ∃ a, x = .ok a ∧ f a = .ok b := by
  cases x with
  | error e => cases h
  | ok a => exact ⟨a, rfl, h⟩

/-! Sequences of operations. -/

theorem Vector.GrantsRoom.mono {grant : Nat → Nat → Nat} {m n : Nat}
    (h : Vector.GrantsRoom grant n) (hmn : m ≤ n) : Vector.GrantsRoom grant m :=
  fun c hc => h c (Nat.le_trans hc hmn)

namespace StackOp

variable {α : Type}

theorem KeepsBaseline.take {ops : List (StackOp α)} :
    ∀ {depth : Nat}, KeepsBaseline depth ops → ∀ n, KeepsBaseline depth (ops.take n) := by
  induction ops with
  | nil => intro depth _ n; simp [KeepsBaseline]
  | cons op ops ih =>
    intro depth h n
    cases n with
    | zero => simp [KeepsBaseline]
    | succ n =>
      cases op with
      | push v => exact @ih (depth + 1) h n
      | set v => exact @ih depth h n
      | pop => exact ⟨h.1, @ih (depth - 1) h.2 n⟩

@[simp] theorem pushes_nil : pushes ([] : List (StackOp α)) = 0 := rfl
@[simp] theorem pops_nil : pops ([] : List (StackOp α)) = 0 := rfl
@[simp] theorem sets_nil : sets ([] : List (StackOp α)) = 0 := rfl

@[simp] theorem pushes_cons_push (v : α) (ops : List (StackOp α)) :
    pushes (.push v :: ops) = pushes ops + 1 := by
  simp [pushes]

@[simp] theorem pushes_cons_pop (ops : List (StackOp α)) :
    pushes (.pop :: ops) = pushes ops := by
  simp [pushes]

@[simp] theorem pops_cons_push (v : α) (ops : List (StackOp α)) :
    pops (.push v :: ops) = pops ops := by
  simp [pops]

@[simp] theorem pops_cons_pop (ops : List (StackOp α)) :
    pops (.pop :: ops) = pops ops + 1 := by
  simp [pops]

@[simp] theorem sets_cons_push (v : α) (ops : List (StackOp α)) :
    sets (.push v :: ops) = sets ops := by
  simp [sets]

@[simp] theorem sets_cons_pop (ops : List (StackOp α)) :
    sets (.pop :: ops) = sets ops := by
  simp [sets]

@[simp] theorem sets_cons_set (v : α) (ops : List (StackOp α)) :
    sets (.set v :: ops) = sets ops + 1 := by
  simp [sets]

end StackOp

namespace ListModel

variable {α : Type}

@[simp] theorem model_run_nil (l : List α) : run l [] = l := rfl

@[simp] theorem model_run_cons (l : List α) (op : StackOp α) (ops : List (StackOp α)) :
    run l (op :: ops) = run (step l op) ops := rfl

/-- On the list model, pushes and pops that stay above a base part of the list and
never outnumber each other the wrong way leave the base part alone. -/
theorem run_above_base (base : List α) (ops : List (StackOp α)) :
    ∀ extra : List α, StackOp.sets ops = 0 →
      (∀ n, n ≤ ops.length →
        StackOp.pops (ops.take n) ≤ StackOp.pushes (ops.take n) + extra.length) →
      ∃ extra1, run (base ++ extra) ops = base ++ extra1 ∧
        extra1.length + StackOp.pops ops = extra.length + StackOp.pushes ops := by
  induction ops with
  | nil => intro extra _ _; exact ⟨extra, rfl, rfl⟩
  | cons op ops ih =>
    intro extra hsets hpre
    cases op with
    | push v =>
      obtain ⟨extra1, hrun, hlen⟩ := ih (extra ++ [v]) (by simpa using hsets) (by
        intro n hn
        have := hpre (n + 1) (by simp; omega)
        simp at this
        simp
        omega)
      refine ⟨extra1, ?_, ?_⟩
      · rw [model_run_cons]
        show run (base ++ extra ++ [v]) ops = _
        rw [List.append_assoc]; exact hrun
      · simp at hlen ⊢; omega
    | pop =>
      have h1 := hpre 1 (by simp)
      simp at h1
      have hne : extra ≠ [] := by
        intro h; rw [h] at h1; simp at h1
      obtain ⟨extra1, hrun, hlen⟩ := ih extra.dropLast (by simpa using hsets) (by
        intro n hn
        have := hpre (n + 1) (by simp; omega)
        simp at this
        simp
        omega)
      refine ⟨extra1, ?_, ?_⟩
      · rw [model_run_cons]
        show run ((base ++ extra).dropLast) ops = _
        rw [List.dropLast_append_of_ne_nil _ hne]; exact hrun
      · simp at hlen ⊢; omega
    | set v => simp at hsets

theorem run_balanced (l : List α) {ops : List (StackOp α)} (h : StackOp.Balanced ops) :
    run l ops = l := by
  obtain ⟨hsets, hpre, htot⟩ := h
  obtain ⟨extra1, hrun, hlen⟩ := run_above_base l ops [] hsets (by
    intro n hn; simpa using hpre n hn)
  have : extra1 = [] := List.length_eq_zero.mp (by simp at hlen; omega)
  rw [this] at hrun
  simpa using hrun

end ListModel

namespace Context

variable {F : Type}

theorem apply_spec (grant : Nat → Nat → Nat) (ctx : Context F) (k : StackKind)
    (op : StackOp (k.Value F)) (hvalid : (ctx.stack k).Valid)
    (hkeep : StackOp.KeepsBaseline (ctx.stack k).m_size [op])
    (hne : 0 < (ctx.stack k).m_size)
    (hroom : (∃ v, op = .push v) → (ctx.stack k).HasRoom grant) :
    ∃ ctx1, ctx.apply grant k op = .ok ctx1 ∧ (ctx1.stack k).Valid ∧
      0 < (ctx1.stack k).m_size ∧
      (ctx1.stack k).m_size + StackOp.pops [op] = (ctx.stack k).m_size + StackOp.pushes [op] ∧
      (ctx1.stack k).contents = ListModel.step (ctx.stack k).contents op := by
  cases op with
  | push v =>
    obtain ⟨s1, hrun, hv1, hc, hsz⟩ :=
      Vector.push_back_spec grant hvalid v (hroom ⟨v, rfl⟩)
    obtain ⟨ctx1, hp, hs⟩ := push_of_push_back grant ctx k v hrun
    refine ⟨ctx1, hp, hs ▸ hv1, ?_, ?_, ?_⟩
    · rw [hs]; omega
    · rw [hs]; simp; omega
    · rw [hs]; exact hc
  | pop =>
    have hd : 1 < (ctx.stack k).m_size := hkeep.1
    obtain ⟨s1, hrun, hv1, hc, hsz, -, -⟩ := Vector.pop_back_spec hvalid hne
    obtain ⟨ctx1, hp, hs⟩ := pop_of_pop_back ctx k hrun
    refine ⟨ctx1, hp, hs ▸ hv1, ?_, ?_, ?_⟩
    · rw [hs]; omega
    · rw [hs]; simp; omega
    · rw [hs]; exact hc
  | set v =>
    obtain ⟨s1, hrun, hv1, hc, hsz, -⟩ := Vector.back_assign_spec hvalid hne v
    obtain ⟨ctx1, hp, hs⟩ := set_of_back_assign ctx k v hrun
    refine ⟨ctx1, hp, hs ▸ hv1, ?_, ?_, ?_⟩
    · rw [hs]; omega
    · rw [hs]; simp [StackOp.pushes, StackOp.pops]; omega
    · rw [hs]; exact hc

theorem run_nil (grant : Nat → Nat → Nat) (ctx : Context F) (k : StackKind) :
    ctx.run grant k [] = .ok ctx := by
  rw [run]

theorem run_cons (grant : Nat → Nat → Nat) (ctx : Context F) (k : StackKind)
    (op : StackOp (k.Value F)) (ops : List (StackOp (k.Value F))) :
    ctx.run grant k (op :: ops) = (ctx.apply grant k op >>= fun c => c.run grant k ops) := by
  rw [run]

theorem run_spec (grant : Nat → Nat → Nat) (k : StackKind)
    (ops : List (StackOp (k.Value F))) :
    ∀ ctx : Context F, (ctx.stack k).Valid → 0 < (ctx.stack k).m_size →
      StackOp.KeepsBaseline (ctx.stack k).m_size ops →
      Vector.GrantsRoom grant ((ctx.stack k).m_size + ops.length) →
      ∃ ctx1, ctx.run grant k ops = .ok ctx1 ∧ (ctx1.stack k).Valid ∧
        0 < (ctx1.stack k).m_size ∧
        (ctx1.stack k).contents = ListModel.run (ctx.stack k).contents ops := by
  induction ops with
  | nil => intro ctx hv hne _ _; exact ⟨ctx, run_nil grant ctx k, hv, hne, rfl⟩
  | cons op ops ih =>
    intro ctx hv hne hkeep hroom
    have hkeep1 : StackOp.KeepsBaseline (ctx.stack k).m_size [op] := by
      cases op with
      | push v => trivial
      | set v => trivial
      | pop => exact ⟨hkeep.1, trivial⟩
    obtain ⟨ctx1, hap, hv1, hne1, hsz1, hc1⟩ :=
      apply_spec grant ctx k op hv hkeep1 hne (fun _ => hroom.hasRoom (by omega))
    have hkeep2 : StackOp.KeepsBaseline (ctx1.stack k).m_size ops := by
      cases op with
      | push v =>
        have e : (ctx1.stack k).m_size = (ctx.stack k).m_size + 1 := by simpa using hsz1
        rw [e]; exact hkeep
      | set v =>
        have e : (ctx1.stack k).m_size = (ctx.stack k).m_size := by
          simpa [StackOp.pushes, StackOp.pops] using hsz1
        rw [e]; exact hkeep
      | pop =>
        have e : (ctx1.stack k).m_size = (ctx.stack k).m_size - 1 := by
          have : (ctx1.stack k).m_size + 1 = (ctx.stack k).m_size := by simpa using hsz1
          omega
        rw [e]; exact hkeep.2
    have hle : (ctx1.stack k).m_size ≤ (ctx.stack k).m_size + 1 := by
      cases op with
      | push v => have := hsz1; simp at this; omega
      | set v => have := hsz1; simp [StackOp.pushes, StackOp.pops] at this; omega
      | pop => have := hsz1; simp at this; omega
    obtain ⟨ctx2, hrun2, hv2, hne2, hc2⟩ :=
      ih ctx1 hv1 hne1 hkeep2 (hroom.mono (by simp; omega))
    refine ⟨ctx2, ?_, hv2, hne2, ?_⟩
    · rw [run_cons, hap]; exact hrun2
    · rw [hc2, hc1]; rfl

/-- One guarded operation either returns, or faults on storage for want of room; it
never fails an assertion. -/
theorem apply_cases (grant : Nat → Nat → Nat) (ctx : Context F) (k : StackKind)
    (op : StackOp (k.Value F)) (hvalid : (ctx.stack k).Valid)
    (hkeep : StackOp.KeepsBaseline (ctx.stack k).m_size [op])
    (hne : 0 < (ctx.stack k).m_size) :
    (∃ ctx1, ctx.apply grant k op = .ok ctx1 ∧ (ctx1.stack k).Valid ∧
      0 < (ctx1.stack k).m_size ∧
      (ctx1.stack k).m_size + StackOp.pops [op] =
        (ctx.stack k).m_size + StackOp.pushes [op]) ∨
    ctx.apply grant k op = .error Fault.outOfBounds := by
  by_cases hroom : (ctx.stack k).HasRoom grant
  · obtain ⟨ctx1, h1, h2, h3, h4, -⟩ :=
      apply_spec grant ctx k op hvalid hkeep hne (fun _ => hroom)
    exact Or.inl ⟨ctx1, h1, h2, h3, h4⟩
  · cases op with
    | push v =>
      exact Or.inr (push_of_push_back_error grant ctx k v
        (Vector.push_back_of_no_room grant v hroom))
    | pop =>
      obtain ⟨ctx1, h1, h2, h3, h4, -⟩ :=
        apply_spec grant ctx k .pop hvalid hkeep hne (fun ⟨_, hv⟩ => by cases hv)
      exact Or.inl ⟨ctx1, h1, h2, h3, h4⟩
    | set v =>
      obtain ⟨ctx1, h1, h2, h3, h4, -⟩ :=
        apply_spec grant ctx k (.set v) hvalid hkeep hne (fun ⟨_, hv⟩ => by cases hv)
      exact Or.inl ⟨ctx1, h1, h2, h3, h4⟩

/-- A guarded sequence never fails an assertion, and whenever it returns the stack is
non-empty and in its representation invariant. -/
theorem run_safe (grant : Nat → Nat → Nat) (k : StackKind)
    (ops : List (StackOp (k.Value F))) :
    ∀ ctx : Context F, (ctx.stack k).Valid → 0 < (ctx.stack k).m_size →
      StackOp.KeepsBaseline (ctx.stack k).m_size ops →
      ctx.run grant k ops ≠ .error Fault.assertion ∧
        ∀ ctx1, ctx.run grant k ops = .ok ctx1 →
          (ctx1.stack k).Valid ∧ 0 < (ctx1.stack k).m_size := by
  induction ops with
  | nil =>
    intro ctx hv hne _
    rw [run_nil]
    refine ⟨fun h => (by cases h), fun ctx1 h => ?_⟩
    cases h
    exact ⟨hv, hne⟩
  | cons op ops ih =>
    intro ctx hv hne hkeep
    have hkeep1 : StackOp.KeepsBaseline (ctx.stack k).m_size [op] := by
      cases op with
      | push v => trivial
      | set v => trivial
      | pop => exact ⟨hkeep.1, trivial⟩
    rw [run_cons]
    rcases apply_cases grant ctx k op hv hkeep1 hne with ⟨ctx1, hap, hv1, hne1, hsz1⟩ | herr
    · have hkeep2 : StackOp.KeepsBaseline (ctx1.stack k).m_size ops := by
        cases op with
        | push v =>
          have e : (ctx1.stack k).m_size = (ctx.stack k).m_size + 1 := by simpa using hsz1
          rw [e]; exact hkeep
        | set v =>
          have e : (ctx1.stack k).m_size = (ctx.stack k).m_size := by
            simpa [StackOp.pushes, StackOp.pops] using hsz1
          rw [e]; exact hkeep
        | pop =>
          have e : (ctx1.stack k).m_size = (ctx.stack k).m_size - 1 := by
            have : (ctx1.stack k).m_size + 1 = (ctx.stack k).m_size := by simpa using hsz1
            omega
          rw [e]; exact hkeep.2
      rw [hap, ok_bind]
      exact ih ctx1 hv1 hne1 hkeep2
    · rw [herr]
      exact ⟨fun h => (by cases h), fun ctx1 h => (by cases h)⟩

end Context

/-! Packed colors. -/

namespace Color

theorem mask_eq (s : Nat) (hs : s ≤ 24) : mask s = (2 ^ 8 - 1) <<< s := by
  unfold mask U32_RANGE
  apply Nat.mod_eq_of_lt
  rw [Nat.shiftLeft_eq]
  have h1 : 2 ^ s ≤ 2 ^ 24 := Nat.pow_le_pow_right (by decide) hs
  have h2 : (2 : Nat) ^ 24 = 16777216 := by norm_num
  omega

theorem and_mask_shiftRight (v s : Nat) (hs : s ≤ 24) :
    (v &&& mask s) >>> s = v / 2 ^ s % 256 := by
  rw [mask_eq s hs, ← Nat.shiftRight_eq_div_pow, show (256 : Nat) = 2 ^ 8 from rfl]
  apply Nat.eq_of_testBit_eq
  intro j
  simp only [Nat.testBit_shiftRight, Nat.testBit_and, Nat.testBit_shiftLeft,
    Nat.testBit_mod_two_pow, Nat.testBit_two_pow_sub_one]
  by_cases hj : j < 8 <;> simp [hj, Bool.and_comm]

theorem get_eq_channel {F : Type} [NatCast F] [Div F] (c : Color) (i : Nat) (hi : i ≤ 3) :
    (c.get i : F) = ((c.channel i : Nat) : F) / ((255 : Nat) : F) := by
  unfold get channel
  rw [and_mask_shiftRight c.v (i * 8) (by omega), Nat.mul_comm i 8]

end Color

namespace Color

theorem testBit_set_bits (v k s b : Nat) (hs : s ≤ 24) (hk : k < 256) :
    Nat.testBit ((v &&& (((2 ^ 8 - 1) <<< s) ^^^ (2 ^ 32 - 1))) ||| ((k <<< s) % 2 ^ 32)) b =
      if s ≤ b ∧ b < s + 8 then Nat.testBit k (b - s)
      else (Nat.testBit v b && decide (b < 32)) := by
  simp only [Nat.testBit_or, Nat.testBit_and, Nat.testBit_xor, Nat.testBit_shiftLeft,
    Nat.testBit_mod_two_pow, Nat.testBit_two_pow_sub_one]
  by_cases h1 : s ≤ b
  · by_cases h2 : b < s + 8
    · have h3 : b - s < 8 := by omega
      have h4 : b < 32 := by omega
      simp [h1, h2, h3, h4]
    · have h3 : ¬ b - s < 8 := by omega
      have h5 : Nat.testBit k (b - s) = false :=
        Nat.testBit_lt_two_pow (Nat.lt_of_lt_of_le hk
          (by
            have : 2 ^ 8 ≤ 2 ^ (b - s) := Nat.pow_le_pow_right (by decide) (by omega)
            simpa using this))
      simp [h1, h2, h3, h5]
  · simp [h1]

theorem toU32_of_unit {F : Type} [LinearOrderedField F] [FloorRing F] (x : F)
    (h1 : x ≤ 1) : toU32 (x * 255) = ⌊x * 255⌋₊ ∧ ⌊x * 255⌋₊ < 256 := by
  have hk : ⌊x * 255⌋₊ ≤ 255 := by
    apply Nat.floor_le_of_le
    push_cast
    nlinarith
  refine ⟨?_, by omega⟩
  unfold toU32 U32_RANGE
  exact Nat.mod_eq_of_lt (by omega)

/-- The packed value after `set(i, x)` with a byte-sized `(U32)(x * 255)`, bit by bit. -/
theorem testBit_set {F : Type} [LinearOrderedField F] [FloorRing F] (c : Color) (i : Nat)
    (x : F) (hi : i ≤ 3) (h1 : x ≤ 1) (b : Nat) :
    Nat.testBit (c.set i x).v b =
      if i * 8 ≤ b ∧ b < i * 8 + 8 then Nat.testBit ⌊x * 255⌋₊ (b - i * 8)
      else (Nat.testBit c.v b && decide (b < 32)) := by
  obtain ⟨hk, hlt⟩ := toU32_of_unit x h1
  have hs : i * 8 ≤ 24 := by omega
  unfold set
  simp only []
  rw [hk, mask_eq _ hs, show U32_RANGE = 2 ^ 32 from rfl,
    show (4294967295 : Nat) = 2 ^ 32 - 1 from rfl]
  exact testBit_set_bits c.v _ (i * 8) b hs hlt

theorem channel_set {F : Type} [LinearOrderedField F] [FloorRing F] (c : Color) (i j : Nat)
    (x : F) (hi : i ≤ 3) (hj : j ≤ 3) (h1 : x ≤ 1) :
    (c.set i x).channel j = if j = i then ⌊x * 255⌋₊ else c.channel j := by
  obtain ⟨-, hlt⟩ := toU32_of_unit x h1
  unfold channel
  rw [← Nat.shiftRight_eq_div_pow, ← Nat.shiftRight_eq_div_pow,
    show (256 : Nat) = 2 ^ 8 from rfl]
  apply Nat.eq_of_testBit_eq
  intro t
  rw [Nat.testBit_mod_two_pow, Nat.testBit_shiftRight, testBit_set c i x hi h1]
  by_cases hji : j = i
  · subst hji
    rw [if_pos rfl]
    by_cases ht : t < 8
    · rw [if_pos (by omega)]
      simp [ht, show 8 * j + t - j * 8 = t by omega]
    · have hz : Nat.testBit ⌊x * 255⌋₊ t = false :=
        Nat.testBit_lt_two_pow (Nat.lt_of_lt_of_le hlt
          (by
            have : 2 ^ 8 ≤ 2 ^ t := Nat.pow_le_pow_right (by decide) (by omega)
            simpa using this))
      simp [ht, hz]
  · rw [if_neg hji, Nat.testBit_mod_two_pow, Nat.testBit_shiftRight]
    by_cases ht : t < 8
    · rw [if_neg (by omega)]
      simp [ht, show 8 * j + t < 32 by omega]
    · simp [ht]

end Color

/-! Sorting by descending key. -/

section SortLemmas

variable {α K : Type} [LinearOrder K] (key : α → K)

theorem insertionSort_desc_sorted (l : List α) :
    (l.insertionSort fun a b => key b ≤ key a).Pairwise fun a b => key b ≤ key a := by
  haveI : IsTotal α (fun a b => key b ≤ key a) := ⟨fun a b => le_total (key b) (key a)⟩
  haveI : IsTrans α (fun a b => key b ≤ key a) := ⟨fun _ _ _ hab hbc => le_trans hbc hab⟩
  exact List.sorted_insertionSort (fun a b => key b ≤ key a) l

theorem insertionSort_desc_stable (l : List α) (d : K) :
    (l.insertionSort fun a b => key b ≤ key a).filter (fun a => decide (key a = d)) =
      l.filter fun a => decide (key a = d) := by
  have hperm := List.perm_insertionSort (fun a b => key b ≤ key a) l
  have hpair : (l.filter fun a => decide (key a = d)).Pairwise
      (fun a b => key b ≤ key a) := by
    rw [List.pairwise_iff_forall_sublist]
    intro a b hab
    have ha : a ∈ l.filter fun a => decide (key a = d) := hab.subset (by simp)
    have hb : b ∈ l.filter fun a => decide (key a = d) := hab.subset (by simp)
    rw [List.mem_filter] at ha hb
    have ea : key a = d := of_decide_eq_true ha.2
    have eb : key b = d := of_decide_eq_true hb.2
    rw [ea, eb]
  have hsub := List.sublist_insertionSort hpair (List.filter_sublist l)
  have hsub2 := hsub.filter (fun a => decide (key a = d))
  rw [List.filter_filter] at hsub2
  simp only [Bool.and_self] at hsub2
  exact (hsub2.eq_of_length ((hperm.filter _).length_eq).symm).symm

end SortLemmas

/-! Splitting a vertex buffer into primitives. -/

section PrimitiveLemmas

variable {α : Type}

theorem primitivesAux_flatten (n : Nat) (hn : 0 < n) :
    ∀ (ps : List (List α)) (rest : List α) (fuel : Nat),
      (∀ p ∈ ps, p.length = n) → rest.length < n → ps.length ≤ fuel →
      primitivesAux n fuel (ps.flatten ++ rest) = ps := by
  intro ps
  induction ps with
  | nil =>
    intro rest fuel _ hrest _
    cases fuel with
    | zero => rfl
    | succ f =>
      simp only [List.flatten_nil, List.nil_append, primitivesAux]
      rw [if_pos (Or.inr hrest)]
  | cons p ps ih =>
    intro rest fuel hall hrest hfuel
    cases fuel with
    | zero => simp at hfuel
    | succ f =>
      have hp : p.length = n := hall p (List.mem_cons_self _ _)
      simp only [List.flatten_cons, List.append_assoc, primitivesAux]
      rw [if_neg (by simp only [List.length_append]; omega)]
      have htake : (p ++ (ps.flatten ++ rest)).take n = p := by
        rw [← hp, List.take_left]
      have hdrop : (p ++ (ps.flatten ++ rest)).drop n = ps.flatten ++ rest := by
        rw [← hp, List.drop_left]
      rw [htake, hdrop, ih rest f (fun q hq => hall q (List.mem_cons_of_mem _ hq)) hrest
        (by simpa using hfuel)]

theorem primitivesAux_spec (n : Nat) (hn : 0 < n) :
    ∀ (fuel : Nat) (l : List α), l.length ≤ fuel →
      ∃ rest, l = (primitivesAux n fuel l).flatten ++ rest ∧ rest.length < n ∧
        ∀ p ∈ primitivesAux n fuel l, p.length = n := by
  intro fuel
  induction fuel with
  | zero =>
    intro l hl
    have : l = [] := List.length_eq_zero.mp (by omega)
    subst this
    exact ⟨[], rfl, hn, fun p hp => by simp [primitivesAux] at hp⟩
  | succ f ih =>
    intro l hl
    by_cases hlt : l.length < n
    · refine ⟨l, ?_, hlt, fun p hp => ?_⟩
      · simp [primitivesAux, hlt]
      · simp [primitivesAux, hlt] at hp
    · obtain ⟨rest, hrest, hlen, hall⟩ := ih (l.drop n) (by rw [List.length_drop]; omega)
      have hstep : primitivesAux n (f + 1) l = l.take n :: primitivesAux n f (l.drop n) := by
        simp only [primitivesAux]
        rw [if_neg (by omega)]
      refine ⟨rest, ?_, hlen, fun p hp => ?_⟩
      · rw [hstep, List.flatten_cons, List.append_assoc, ← hrest, List.take_append_drop]
      · rw [hstep, List.mem_cons] at hp
        rcases hp with hp | hp
        · rw [hp, List.length_take]; omega
        · exact hall p hp

theorem primitivesOf_spec (n : Nat) (hn : 0 < n) (l : List α) :
    ∃ rest, l = (primitivesOf n l).flatten ++ rest ∧ rest.length < n ∧
      ∀ p ∈ primitivesOf n l, p.length = n :=
  primitivesAux_spec n hn l.length l (Nat.le_refl _)

theorem primitivesOf_flatten (n : Nat) (hn : 0 < n) (ps : List (List α)) (rest : List α)
    (hall : ∀ p ∈ ps, p.length = n) (hrest : rest.length < n) :
    primitivesOf n (ps.flatten ++ rest) = ps := by
  unfold primitivesOf
  apply primitivesAux_flatten n hn ps rest _ hall hrest
  have hlen : ps.flatten.length = ps.length * n := by
    clear hrest
    induction ps with
    | nil => simp
    | cons p ps ih =>
      rw [List.flatten_cons, List.length_append, ih (fun q hq => hall q (List.mem_cons_of_mem _ hq)),
        hall p (List.mem_cons_self _ _), List.length_cons]
      ring
  rw [List.length_append, hlen]
  have : ps.length ≤ ps.length * n := Nat.le_mul_of_pos_right _ hn
  omega

theorem DrawPrimitiveSize_pos (type : DrawPrimitiveType) : 0 < DrawPrimitiveSize type := by
  cases type <;> decide

end PrimitiveLemmas

/-! Line loops as line lists. -/

section LoopLemmas

variable {α β : Type}

theorem consecutivePairs_append_pair (l : List α) (y x : α) :
    consecutivePairs (l ++ [y, x]) = consecutivePairs (l ++ [y]) ++ [y, x] := by
  induction l with
  | nil => rfl
  | cons a t ih =>
    cases t with
    | nil => rfl
    | cons b t1 =>
      show a :: b :: consecutivePairs ((b :: t1) ++ [y, x]) =
        a :: b :: consecutivePairs ((b :: t1) ++ [y]) ++ [y, x]
      rw [ih]
      rfl

theorem consecutivePairs_map (f : α → β) (l : List α) :
    consecutivePairs (l.map f) = (consecutivePairs l).map f := by
  induction l with
  | nil => rfl
  | cons a t ih =>
    cases t with
    | nil => rfl
    | cons b t1 =>
      show f a :: f b :: consecutivePairs ((b :: t1).map f) = _
      rw [ih]
      rfl

theorem eq_nil_or_snoc (l : List α) : l = [] ∨ ∃ init y, l = init ++ [y] := by
  rcases List.eq_nil_or_concat l with h | ⟨init, y, h⟩
  · exact Or.inl h
  · exact Or.inr ⟨init, y, by rw [h, List.concat_eq_append]⟩

theorem stripStored_of_two_le (vs : List α) (h : 2 ≤ vs.length) :
    stripStored vs = consecutivePairs vs := by
  cases vs with
  | nil => rfl
  | cons a t =>
    cases t with
    | nil => simp at h
    | cons b t1 => rfl

theorem stripStored_concat (pre : List α) (v : α) :
    stripStored (pre ++ [v]) =
      stripStored pre ++
        (if 2 ≤ pre.length then
          match pre.getLast? with
          | some last => [last, v]
          | none => [v]
        else [v]) := by
  rcases eq_nil_or_snoc pre with h | ⟨l, y, h⟩
  · subst h; rfl
  · subst h
    rcases eq_nil_or_snoc l with h2 | ⟨l2, z, h2⟩
    · subst h2; rfl
    · subst h2
      have hlen : 2 ≤ (l2 ++ [z] ++ [y]).length := by simp
      rw [if_pos hlen, List.getLast?_concat,
        stripStored_of_two_le _ (by simp), stripStored_of_two_le _ hlen]
      have := consecutivePairs_append_pair (l2 ++ [z]) y v
      simpa using this

theorem stripStored_getLast? (pre : List α) (hne : pre ≠ []) :
    (stripStored pre).getLast? = pre.getLast? := by
  rcases eq_nil_or_snoc pre with h | ⟨l, y, h⟩
  · exact absurd h hne
  · subst h
    rcases eq_nil_or_snoc l with h2 | ⟨l2, z, h2⟩
    · subst h2; rfl
    · subst h2
      have := consecutivePairs_append_pair l2 z y
      rw [stripStored_of_two_le _ (by simp), List.append_assoc]
      simp only [List.singleton_append]
      rw [this]
      simp

theorem stripStored_head? (pre : List α) : (stripStored pre).head? = pre.head? := by
  cases pre with
  | nil => rfl
  | cons a t =>
    cases t with
    | nil => rfl
    | cons b t1 => rfl

theorem length_consecutivePairs (vs : List α) :
    (consecutivePairs vs).length = 2 * (vs.length - 1) := by
  induction vs with
  | nil => rfl
  | cons a t ih =>
    cases t with
    | nil => rfl
    | cons b t1 =>
      show (a :: b :: consecutivePairs (b :: t1)).length = _
      simp only [List.length_cons] at ih ⊢
      omega

theorem length_loopAsLines (vs : List α) (h : 1 ≤ vs.length) :
    (loopAsLines vs).length = 2 * vs.length := by
  unfold loopAsLines
  rcases eq_nil_or_snoc vs with h1 | ⟨l, y, h1⟩
  · subst h1; simp at h
  · subst h1
    rw [List.length_append, length_consecutivePairs, List.getLast?_concat]
    cases l with
    | nil => rfl
    | cons a t =>
      simp only [List.cons_append, List.head?_cons, List.length_cons, List.length_append,
        List.length_nil]
      omega

theorem loopAsLines_map (f : α → β) (vs : List α) :
    loopAsLines (vs.map f) = (loopAsLines vs).map f := by
  unfold loopAsLines
  rw [consecutivePairs_map, List.map_append]
  congr 1
  rcases eq_nil_or_snoc vs with h1 | ⟨l, y, h1⟩
  · subst h1; rfl
  · subst h1
    rw [List.map_append, List.map_singleton, List.getLast?_concat, List.getLast?_concat]
    cases l <;> rfl

end LoopLemmas

theorem Vector.push_back_all_spec {α : Type} (grant : Nat → Nat → Nat) (l : List α) :
    ∀ s : Vector α, s.Valid → Vector.GrantsRoom grant (s.m_size + l.length) →
      ∃ s1, s.push_back_all grant l = .ok s1 ∧ s1.Valid ∧
        s1.contents = s.contents ++ l ∧ s1.m_size = s.m_size + l.length := by
  induction l with
  | nil => intro s hv _; exact ⟨s, rfl, hv, by simp, rfl⟩
  | cons v vs ih =>
    intro s hv hroom
    obtain ⟨s1, hrun, hv1, hc1, hsz1⟩ :=
      Vector.push_back_spec grant hv v (hroom.hasRoom (by omega))
    obtain ⟨s2, hrun2, hv2, hc2, hsz2⟩ := ih s1 hv1 (hroom.mono (by
      rw [hsz1, List.length_cons]; omega))
    refine ⟨s2, ?_, hv2, ?_, ?_⟩
    · show (s.push_back grant v >>= fun s => s.push_back_all grant vs) = _
      rw [hrun, ok_bind]; exact hrun2
    · rw [hc2, hc1, List.append_assoc]; rfl
    · rw [hsz2, hsz1, List.length_cons]; omega

/-! Primitive construction. -/

namespace Context

variable {F : Type}

theorem activeBucket_setActiveBucket (c : Context F) (type : DrawPrimitiveType)
    (b : Vector (VertexData F)) (count : Nat) :
    Context.activeBucket
      { c.setActiveBucket type b with m_vertCountThisPrim := count } type = b := by
  simp [activeBucket, setActiveBucket, primList]

theorem primMode_ne_none {mode : PrimitiveMode} {type : DrawPrimitiveType}
    (h : mode.primType = some type) : mode ≠ .PrimitiveMode_None := by
  intro hn
  rw [hn] at h
  cases h

theorem vertex_step (math : VertexMath F) (grant : Nat → Nat → Nat) (c : Context F)
    (type : DrawPrimitiveType) (v : VertexInput F) (mat : Mat4 F) (alpha : F)
    (shared : List (VertexData F))
    (hdraw : c.m_drawCalled = false)
    (hmode : c.m_primMode.primType = some type)
    (hmat : c.getMatrix = .ok mat) (halpha : c.getAlpha = .ok alpha)
    (hshared : c.sharedVertices (c.activeBucket type) = .ok shared)
    (hvalid : (c.activeBucket type).Valid)
    (hroom : Vector.GrantsRoom grant ((c.activeBucket type).m_size + (shared.length + 1))) :
    ∃ c1, c.vertex math grant v.position v.size v.color = .ok c1 ∧
      c1.SamePrimitiveState c ∧
      c1.m_vertCountThisPrim = (c.m_vertCountThisPrim + 1) % U32_RANGE ∧
      (c1.activeBucket type).Valid ∧
      (c1.activeBucket type).contents =
        (c.activeBucket type).contents ++ (shared ++ [math.stored mat alpha v]) := by
  have hne := primMode_ne_none hmode
  obtain ⟨b1, hpush, hv1, hc1, -⟩ :=
    Vector.push_back_all_spec grant (shared ++ [math.stored mat alpha v])
      (c.activeBucket type) hvalid (by rw [List.length_append]; exact hroom)
  have hrun : c.vertex math grant v.position v.size v.color = .ok
      { c.setActiveBucket type b1 with
        m_vertCountThisPrim := (c.m_vertCountThisPrim + 1) % U32_RANGE } := by
    unfold vertex
    rw [hdraw, Bool.not_false, Vector.assert_true, decide_eq_true hne, Vector.assert_true,
      hmat, ok_bind, halpha, ok_bind]
    simp only [hmode]
    rw [hshared, ok_bind]
    show (Vector.push_back_all grant (c.activeBucket type)
      (shared ++ [math.stored mat alpha v]) >>= _) = _
    rw [hpush, ok_bind]
    rfl
  refine ⟨_, hrun, ⟨rfl, rfl, rfl, rfl, rfl, rfl⟩, rfl, ?_, ?_⟩
  · rw [activeBucket_setActiveBucket]; exact hv1
  · rw [activeBucket_setActiveBucket]; exact hc1

theorem getMatrix_of_same {c1 c : Context F} (h : c1.SamePrimitiveState c) :
    c1.getMatrix = c.getMatrix := by
  unfold getMatrix
  rw [h.2.2.2.1]

theorem getAlpha_of_same {c1 c : Context F} (h : c1.SamePrimitiveState c) :
    c1.getAlpha = c.getAlpha := by
  unfold getAlpha
  rw [h.2.2.2.2.1]

theorem activeBucket_of_same {c1 c : Context F} (h : c1.SamePrimitiveState c)
    (type : DrawPrimitiveType) : c1.activeBucket type = c1.m_vertexData type c.primList := by
  unfold activeBucket primList
  rw [h.2.1]

theorem SamePrimitiveState.trans {c2 c1 c : Context F} (h21 : c2.SamePrimitiveState c1)
    (h10 : c1.SamePrimitiveState c) : c2.SamePrimitiveState c :=
  ⟨h21.1.trans h10.1, h21.2.1.trans h10.2.1, h21.2.2.1.trans h10.2.2.1,
    h21.2.2.2.1.trans h10.2.2.2.1, h21.2.2.2.2.1.trans h10.2.2.2.2.1,
    h21.2.2.2.2.2.trans h10.2.2.2.2.2⟩

/-- Vertices fed to a `Lines` primitive are stored one by one. -/
theorem fold_vertex_lines (math : VertexMath F) (grant : Nat → Nat → Nat) (mat : Mat4 F)
    (alpha : F) (vs : List (VertexInput F)) :
    ∀ c : Context F, c.m_drawCalled = false → c.m_primMode = .PrimitiveMode_Lines →
      c.getMatrix = .ok mat → c.getAlpha = .ok alpha →
      (c.activeBucket .DrawPrimitive_Lines).Valid →
      c.m_vertCountThisPrim + vs.length < U32_RANGE →
      Vector.GrantsRoom grant ((c.activeBucket .DrawPrimitive_Lines).m_size + vs.length) →
      ∃ c1, vs.foldlM (fun c v => c.vertex math grant v.position v.size v.color) c = .ok c1 ∧
        c1.SamePrimitiveState c ∧
        c1.m_vertCountThisPrim = c.m_vertCountThisPrim + vs.length ∧
        (c1.activeBucket .DrawPrimitive_Lines).Valid ∧
        (c1.activeBucket .DrawPrimitive_Lines).contents =
          (c.activeBucket .DrawPrimitive_Lines).contents ++ vs.map (math.stored mat alpha) := by
  induction vs with
  | nil =>
    intro c _ _ _ _ hv _ _
    exact ⟨c, rfl, ⟨rfl, rfl, rfl, rfl, rfl, rfl⟩, rfl, hv, by simp⟩
  | cons v vs ih =>
    intro c hdraw hmode hmat halpha hv hcount hroom
    have hshared : c.sharedVertices (c.activeBucket .DrawPrimitive_Lines) = .ok [] := by
      unfold sharedVertices
      rw [hmode]
      rfl
    obtain ⟨c1, hrun1, hsame1, hcnt1, hv1, hc1⟩ :=
      vertex_step math grant c .DrawPrimitive_Lines v mat alpha [] hdraw
        (by rw [hmode]; rfl) hmat halpha hshared hv (hroom.mono (by simp))
    have hcnt1' : c1.m_vertCountThisPrim = c.m_vertCountThisPrim + 1 := by
      rw [hcnt1]
      exact Nat.mod_eq_of_lt (by simp only [List.length_cons] at hcount; omega)
    have hsz1 : (c1.activeBucket .DrawPrimitive_Lines).m_size =
        (c.activeBucket .DrawPrimitive_Lines).m_size + 1 := by
      rw [← Vector.contents_length hv1, hc1, List.length_append, Vector.contents_length hv]
      rfl
    obtain ⟨c2, hrun2, hsame2, hcnt2, hv2, hc2⟩ :=
      ih c1 (hsame1.2.2.2.2.2.trans hdraw) (hsame1.1.trans hmode)
        ((getMatrix_of_same hsame1).trans hmat)
        ((getAlpha_of_same hsame1).trans halpha) hv1
        (by rw [hcnt1']; simp only [List.length_cons] at hcount; omega)
        (hroom.mono (by rw [hsz1]; simp only [List.length_cons]; omega))
    refine ⟨c2, ?_, hsame2.trans hsame1, ?_, hv2, ?_⟩
    · rw [List.foldlM_cons, hrun1, ok_bind]; exact hrun2
    · rw [hcnt2, hcnt1', List.length_cons]; omega
    · rw [hc2, hc1]; simp

end Context

namespace Context

variable {F : Type}

/-- Vertices fed to a `LineLoop` primitive are stored as the first vertex, then each
consecutive pair. -/
theorem fold_vertex_loop (math : VertexMath F) (grant : Nat → Nat → Nat) (mat : Mat4 F)
    (alpha : F) (base : List (VertexData F)) (vs : List (VertexInput F)) :
    ∀ (pre : List (VertexInput F)) (c : Context F), c.m_drawCalled = false →
      c.m_primMode = .PrimitiveMode_LineLoop →
      c.getMatrix = .ok mat → c.getAlpha = .ok alpha →
      (c.activeBucket .DrawPrimitive_Lines).Valid →
      c.m_vertCountThisPrim = pre.length →
      pre.length + vs.length < U32_RANGE →
      (c.activeBucket .DrawPrimitive_Lines).contents =
        base ++ stripStored (pre.map (math.stored mat alpha)) →
      Vector.GrantsRoom grant
        ((c.activeBucket .DrawPrimitive_Lines).m_size + 2 * vs.length) →
      ∃ c1, vs.foldlM (fun c v => c.vertex math grant v.position v.size v.color) c = .ok c1 ∧
        c1.SamePrimitiveState c ∧
        c1.m_vertCountThisPrim = pre.length + vs.length ∧
        (c1.activeBucket .DrawPrimitive_Lines).Valid ∧
        (c1.activeBucket .DrawPrimitive_Lines).contents =
          base ++ stripStored ((pre ++ vs).map (math.stored mat alpha)) := by
  induction vs with
  | nil =>
    intro pre c _ _ _ _ hv hcnt _ hc _
    exact ⟨c, rfl, ⟨rfl, rfl, rfl, rfl, rfl, rfl⟩, by simpa using hcnt, hv,
      by simpa using hc⟩
  | cons v vs ih =>
    intro pre c hdraw hmode hmat halpha hv hcnt hlen hc hroom
    simp only [List.length_cons] at hlen hroom
    -- the shared vertex re-emitted before `v`
    have hshared : ∃ shared, c.sharedVertices (c.activeBucket .DrawPrimitive_Lines) =
        .ok shared ∧ shared.length ≤ 1 ∧
        stripStored ((pre ++ [v]).map (math.stored mat alpha)) =
          stripStored (pre.map (math.stored mat alpha)) ++
            (shared ++ [math.stored mat alpha v]) := by
      have hstep := stripStored_concat (pre.map (math.stored mat alpha))
        (math.stored mat alpha v)
      rw [List.map_append, List.map_singleton, hstep, List.length_map]
      by_cases h2 : 2 ≤ pre.length
      · have hpre : pre.map (math.stored mat alpha) ≠ [] := by
          intro h
          have hp : pre = [] := List.map_eq_nil_iff.mp h
          rw [hp] at h2
          simp at h2
        have hS : (stripStored (pre.map (math.stored mat alpha))).getLast? =
            (pre.map (math.stored mat alpha)).getLast? := stripStored_getLast? _ hpre
        obtain ⟨y, hy⟩ : ∃ y, (pre.map (math.stored mat alpha)).getLast? = some y := by
          cases hq : (pre.map (math.stored mat alpha)).getLast? with
          | none => exact absurd (List.getLast?_eq_none_iff.mp hq) hpre
          | some y => exact ⟨y, rfl⟩
        have hSne : stripStored (pre.map (math.stored mat alpha)) ≠ [] := by
          intro h
          rw [h, hy] at hS
          cases hS
        have hpos : 0 < (c.activeBucket .DrawPrimitive_Lines).m_size := by
          rw [← Vector.contents_length hv, hc, List.length_append]
          have := List.length_pos.mpr hSne
          omega
        obtain ⟨x, hback, hlast⟩ := Vector.back_eq_getLast? hv hpos
        rw [hc, List.getLast?_append_of_ne_nil _ hSne, hS, hy] at hlast
        have hxy : y = x := Option.some.inj hlast
        refine ⟨[x], ?_, by simp, ?_⟩
        · unfold sharedVertices
          rw [hmode]
          simp only []
          rw [if_pos (by rw [hcnt]; exact h2), hback]
          rfl
        · rw [if_pos h2, hy, hxy]
          rfl
      · refine ⟨[], ?_, by simp, ?_⟩
        · unfold sharedVertices
          rw [hmode]
          simp only []
          rw [if_neg (by rw [hcnt]; exact h2)]
          rfl
        · rw [if_neg h2]
          rfl
    obtain ⟨shared, hsh, hshlen, hstrip⟩ := hshared
    obtain ⟨c1, hrun1, hsame1, hcnt1, hv1, hc1⟩ :=
      vertex_step math grant c .DrawPrimitive_Lines v mat alpha shared hdraw
        (by rw [hmode]; rfl) hmat halpha hsh hv (hroom.mono (by omega))
    have hcnt1' : c1.m_vertCountThisPrim = (pre ++ [v]).length := by
      rw [hcnt1, hcnt, List.length_append, List.length_singleton]
      exact Nat.mod_eq_of_lt (by omega)
    have hsz1 : (c1.activeBucket .DrawPrimitive_Lines).m_size ≤
        (c.activeBucket .DrawPrimitive_Lines).m_size + 2 := by
      rw [← Vector.contents_length hv1, hc1, List.length_append, Vector.contents_length hv,
        List.length_append, List.length_singleton]
      omega
    have hc1' : (c1.activeBucket .DrawPrimitive_Lines).contents =
        base ++ stripStored ((pre ++ [v]).map (math.stored mat alpha)) := by
      rw [hc1, hc, hstrip, List.append_assoc]
    obtain ⟨c2, hrun2, hsame2, hcnt2, hv2, hc2⟩ :=
      ih (pre ++ [v]) c1 (hsame1.2.2.2.2.2.trans hdraw) (hsame1.1.trans hmode)
        ((getMatrix_of_same hsame1).trans hmat)
        ((getAlpha_of_same hsame1).trans halpha) hv1 hcnt1'
        (by rw [List.length_append, List.length_singleton]; omega) hc1'
        (hroom.mono (by omega))
    refine ⟨c2, ?_, hsame2.trans hsame1, ?_, hv2, ?_⟩
    · rw [List.foldlM_cons, hrun1, ok_bind]; exact hrun2
    · rw [hcnt2, List.length_append, List.length_singleton, List.length_cons]; omega
    · rw [hc2, List.append_assoc]; rfl

end Context

namespace Context

variable {F : Type}

theorem begin_spec (c : Context F) (mode : PrimitiveMode) (type : DrawPrimitiveType)
    (sorting : Bool) (hmode : mode.primType = some type)
    (hdraw : c.m_drawCalled = false)
    (hnone : c.m_primMode = .PrimitiveMode_None)
    (hsort : c.getEnableSorting = .ok sorting) :
    ∃ c0, c.begin_ mode = .ok c0 ∧ c0.m_primMode = mode ∧ c0.m_vertCountThisPrim = 0 ∧
      c0.m_vertexData = c.m_vertexData ∧ c0.primList = (if sorting then 1 else 0) ∧
      c0.m_firstVertThisPrim =
        (c.m_vertexData type (if sorting then 1 else 0)).m_size ∧
      c0.m_matrixStack = c.m_matrixStack ∧ c0.m_alphaStack = c.m_alphaStack ∧
      c0.m_drawCalled = false := by
  have hrun : c.begin_ mode = .ok
      { c with
        m_primMode := mode
        m_primList := if sorting then 1 else 0
        m_vertCountThisPrim := 0
        m_firstVertThisPrim := (c.m_vertexData type (if sorting then 1 else 0)).m_size } := by
    unfold begin_
    rw [hdraw, Bool.not_false, Vector.assert_true, decide_eq_true hnone, Vector.assert_true,
      hsort, ok_bind]
    simp only [hmode]
    cases sorting <;> rfl
  refine ⟨_, hrun, rfl, rfl, rfl, ?_, rfl, rfl, rfl, hdraw⟩
  cases sorting <;> rfl

theorem activeBucket_closed (c : Context F) (type : DrawPrimitiveType)
    (b : Vector (VertexData F)) :
    Context.m_vertexData
      { c.setActiveBucket type b with m_primMode := .PrimitiveMode_None } type c.primList =
      b := by
  simp [setActiveBucket]

theorem end_lines (grant : Nat → Nat → Nat) (c : Context F)
    (hmode : c.m_primMode = .PrimitiveMode_Lines) (heven : c.m_vertCountThisPrim % 2 = 0) :
    ∃ c1, c.end_ grant = .ok c1 ∧
      c1.m_vertexData .DrawPrimitive_Lines c.primList =
        c.activeBucket .DrawPrimitive_Lines := by
  have hrun : c.end_ grant = .ok
      { c.setActiveBucket .DrawPrimitive_Lines (c.activeBucket .DrawPrimitive_Lines) with
        m_primMode := .PrimitiveMode_None } := by
    unfold end_
    rw [decide_eq_true (by rw [hmode]; decide), Vector.assert_true]
    simp only [hmode, PrimitiveMode.primType]
    rw [decide_eq_true heven, Vector.assert_true]
    rfl
  exact ⟨_, hrun, activeBucket_closed c _ _⟩

theorem end_loop (grant : Nat → Nat → Nat) (c : Context F)
    (last first : VertexData F) (b1 : Vector (VertexData F))
    (hmode : c.m_primMode = .PrimitiveMode_LineLoop) (h3 : 3 ≤ c.m_vertCountThisPrim)
    (hlast : (c.activeBucket .DrawPrimitive_Lines).back = .ok last)
    (hfirst : (c.activeBucket .DrawPrimitive_Lines).index c.m_firstVertThisPrim = .ok first)
    (hpush : (c.activeBucket .DrawPrimitive_Lines).push_back_all grant [last, first] =
      .ok b1) :
    ∃ c1, c.end_ grant = .ok c1 ∧ c1.m_vertexData .DrawPrimitive_Lines c.primList = b1 := by
  have hrun : c.end_ grant = .ok
      { c.setActiveBucket .DrawPrimitive_Lines b1 with
        m_primMode := .PrimitiveMode_None } := by
    unfold end_
    rw [decide_eq_true (by rw [hmode]; decide), Vector.assert_true]
    simp only [hmode, PrimitiveMode.primType]
    rw [if_neg (by omega), hlast, ok_bind, hfirst, ok_bind, hpush, ok_bind]
    rfl
  exact ⟨_, hrun, activeBucket_closed c _ _⟩

theorem primList_of_same {c1 c : Context F} (h : c1.SamePrimitiveState c) :
    c1.primList = c.primList := by
  unfold primList
  rw [h.2.1]

end Context

theorem Vector.GrantsRoom.lt_range {grant : Nat → Nat → Nat} {n : Nat}
    (h : Vector.GrantsRoom grant n) : n < U32_RANGE :=
  Nat.lt_trans (h n (Nat.le_refl n)) (Nat.mod_lt _ (by decide))

namespace Context

variable {F : Type}

theorem primitive_eq (math : VertexMath F) (grant : Nat → Nat → Nat) (ctx c0 c1 : Context F)
    (mode : PrimitiveMode) (vs : List (VertexInput F))
    (hbegin : ctx.begin_ mode = .ok c0)
    (hfold : vs.foldlM (fun c v => c.vertex math grant v.position v.size v.color) c0 =
      .ok c1) :
    ctx.primitive math grant mode vs = c1.end_ grant := by
  unfold primitive
  rw [hbegin, ok_bind, hfold, ok_bind]

/-- A `LineLoop` primitive of at least three vertices stores the consecutive pairs of
its vertices, then the last and the first vertex. -/
theorem primitive_loop (math : VertexMath F) (grant : Nat → Nat → Nat) (ctx : Context F)
    (vs : List (VertexInput F)) (mat : Mat4 F) (alpha : F) (sorting : Bool)
    (hdraw : ctx.m_drawCalled = false)
    (hmode : ctx.m_primMode = .PrimitiveMode_None)
    (hmat : ctx.getMatrix = .ok mat) (halpha : ctx.getAlpha = .ok alpha)
    (hsort : ctx.getEnableSorting = .ok sorting)
    (hvalid : (ctx.m_vertexData .DrawPrimitive_Lines (if sorting then 1 else 0)).Valid)
    (hn : 3 ≤ vs.length)
    (hroom : Vector.GrantsRoom grant
      ((ctx.m_vertexData .DrawPrimitive_Lines (if sorting then 1 else 0)).m_size +
        2 * vs.length)) :
    ∃ c, ctx.primitive math grant .PrimitiveMode_LineLoop vs = .ok c ∧
      (c.m_vertexData .DrawPrimitive_Lines (if sorting then 1 else 0)).contents =
        (ctx.m_vertexData .DrawPrimitive_Lines (if sorting then 1 else 0)).contents ++
          loopAsLines (vs.map (math.stored mat alpha)) := by
  obtain ⟨c0, hbegin, hm0, hcnt0, hdata0, hlist0, hfirst0, hmats0, halphas0, hdraw0⟩ :=
    begin_spec ctx .PrimitiveMode_LineLoop .DrawPrimitive_Lines sorting rfl hdraw hmode hsort
  have hbucket0 : c0.activeBucket .DrawPrimitive_Lines =
      ctx.m_vertexData .DrawPrimitive_Lines (if sorting then 1 else 0) := by
    unfold activeBucket
    rw [hlist0, hdata0]
  have hmat0 : c0.getMatrix = .ok mat := by
    unfold getMatrix; rw [hmats0]; exact hmat
  have halpha0 : c0.getAlpha = .ok alpha := by
    unfold getAlpha; rw [halphas0]; exact halpha
  have hlenR := hroom.lt_range
  obtain ⟨c1, hfold, hsame1, hcnt1, hv1, hc1⟩ :=
    fold_vertex_loop math grant mat alpha
      (ctx.m_vertexData .DrawPrimitive_Lines (if sorting then 1 else 0)).contents vs [] c0
      hdraw0 hm0 (hmat0) (halpha0) (hbucket0 ▸ hvalid) (by rw [hcnt0]; rfl)
      (by simp only [List.length_nil]; omega) (by rw [hbucket0]; simp [stripStored, consecutivePairs])
      (by rw [hbucket0]; exact hroom)
  rw [List.nil_append] at hc1
  have hlen2 : 2 ≤ (vs.map (math.stored mat alpha)).length := by
    rw [List.length_map]; omega
  rw [stripStored_of_two_le _ hlen2] at hc1
  have hbaselen := Vector.contents_length hvalid
  have hsize1 : (c1.activeBucket .DrawPrimitive_Lines).m_size =
      (ctx.m_vertexData .DrawPrimitive_Lines (if sorting then 1 else 0)).m_size +
        2 * (vs.length - 1) := by
    rw [← Vector.contents_length hv1, hc1, List.length_append, length_consecutivePairs,
      List.length_map, hbaselen]
  -- the last and the first stored vertex
  have hne : vs.map (math.stored mat alpha) ≠ [] := by
    intro h
    rw [h] at hlen2
    simp at hlen2
  have hpairs_ne : consecutivePairs (vs.map (math.stored mat alpha)) ≠ [] := by
    intro h
    have := congrArg List.length h
    rw [length_consecutivePairs, List.length_map] at this
    simp at this
    omega
  obtain ⟨last, hlastv⟩ : ∃ y, (vs.map (math.stored mat alpha)).getLast? = some y := by
    cases hq : (vs.map (math.stored mat alpha)).getLast? with
    | none => exact absurd (List.getLast?_eq_none_iff.mp hq) hne
    | some y => exact ⟨y, rfl⟩
  obtain ⟨first, hfirstv⟩ : ∃ y, (vs.map (math.stored mat alpha)).head? = some y := by
    cases hq : (vs.map (math.stored mat alpha)).head? with
    | none => exact absurd (List.head?_eq_none_iff.mp hq) hne
    | some y => exact ⟨y, rfl⟩
  have hpos1 : 0 < (c1.activeBucket .DrawPrimitive_Lines).m_size := by
    rw [hsize1]; omega
  obtain ⟨x, hback, hx⟩ := Vector.back_eq_getLast? hv1 hpos1
  have hxl : x = last := by
    rw [hc1, List.getLast?_append_of_ne_nil _ hpairs_ne,
      ← stripStored_of_two_le _ hlen2, stripStored_getLast? _ hne, hlastv] at hx
    exact (Option.some.inj hx).symm
  have hfirstidx : c1.m_firstVertThisPrim =
      (ctx.m_vertexData .DrawPrimitive_Lines (if sorting then 1 else 0)).m_size := by
    rw [hsame1.2.2.1, hfirst0]
  obtain ⟨y, hidx, hy⟩ := Vector.index_eq hv1
    (show c1.m_firstVertThisPrim < (c1.activeBucket .DrawPrimitive_Lines).m_size by
      rw [hfirstidx, hsize1]; omega)
  have hyf : y = first := by
    rw [hc1, hfirstidx, ← hbaselen, List.get?_eq_getElem?,
      List.getElem?_append_right (Nat.le_refl _), Nat.sub_self,
      ← List.head?_eq_getElem?, ← stripStored_of_two_le _ hlen2, stripStored_head?,
      hfirstv] at hy
    exact (Option.some.inj hy).symm
  obtain ⟨b1, hpush, -, hcb1, -⟩ :=
    Vector.push_back_all_spec grant [last, first] (c1.activeBucket .DrawPrimitive_Lines) hv1
      (hroom.mono (by rw [hsize1]; simp only [List.length_cons, List.length_nil]; omega))
  obtain ⟨c2, hend, hb2⟩ := end_loop grant c1 last first b1 (hsame1.1.trans hm0)
    (by rw [hcnt1]; simp only [List.length_nil]; omega) (hxl ▸ hback) (hyf ▸ hidx) hpush
  refine ⟨c2, ?_, ?_⟩
  · rw [primitive_eq math grant ctx c0 c1 _ vs hbegin hfold]; exact hend
  · rw [primList_of_same hsame1, hlist0] at hb2
    rw [hb2, hcb1, hc1, List.append_assoc]
    unfold loopAsLines
    rw [hlastv, hfirstv]

/-- A `Lines` primitive of an even number of vertices stores them as they come. -/
theorem primitive_lines (math : VertexMath F) (grant : Nat → Nat → Nat) (ctx : Context F)
    (vs : List (VertexInput F)) (mat : Mat4 F) (alpha : F) (sorting : Bool)
    (hdraw : ctx.m_drawCalled = false)
    (hmode : ctx.m_primMode = .PrimitiveMode_None)
    (hmat : ctx.getMatrix = .ok mat) (halpha : ctx.getAlpha = .ok alpha)
    (hsort : ctx.getEnableSorting = .ok sorting)
    (hvalid : (ctx.m_vertexData .DrawPrimitive_Lines (if sorting then 1 else 0)).Valid)
    (heven : vs.length % 2 = 0)
    (hroom : Vector.GrantsRoom grant
      ((ctx.m_vertexData .DrawPrimitive_Lines (if sorting then 1 else 0)).m_size +
        vs.length)) :
    ∃ c, ctx.primitive math grant .PrimitiveMode_Lines vs = .ok c ∧
      (c.m_vertexData .DrawPrimitive_Lines (if sorting then 1 else 0)).contents =
        (ctx.m_vertexData .DrawPrimitive_Lines (if sorting then 1 else 0)).contents ++
          vs.map (math.stored mat alpha) := by
  obtain ⟨c0, hbegin, hm0, hcnt0, hdata0, hlist0, -, hmats0, halphas0, hdraw0⟩ :=
    begin_spec ctx .PrimitiveMode_Lines .DrawPrimitive_Lines sorting rfl hdraw hmode hsort
  have hbucket0 : c0.activeBucket .DrawPrimitive_Lines =
      ctx.m_vertexData .DrawPrimitive_Lines (if sorting then 1 else 0) := by
    unfold activeBucket
    rw [hlist0, hdata0]
  have hmat0 : c0.getMatrix = .ok mat := by
    unfold getMatrix; rw [hmats0]; exact hmat
  have halpha0 : c0.getAlpha = .ok alpha := by
    unfold getAlpha; rw [halphas0]; exact halpha
  have hlenR := hroom.lt_range
  obtain ⟨c1, hfold, hsame1, hcnt1, hv1, hc1⟩ :=
    fold_vertex_lines math grant mat alpha vs c0 hdraw0 hm0 hmat0 halpha0
      (hbucket0 ▸ hvalid)
      (by rw [hcnt0]; omega) (by rw [hbucket0]; exact hroom)
  obtain ⟨c2, hend, hb2⟩ := end_lines grant c1 (hsame1.1.trans hm0)
    (by rw [hcnt1, hcnt0]; simpa using heven)
  refine ⟨c2, ?_, ?_⟩
  · rw [primitive_eq math grant ctx c0 c1 _ vs hbegin hfold]; exact hend
  · rw [primList_of_same hsame1, hlist0] at hb2
    rw [hb2, hc1, hbucket0]

end Context

/-! Packed colors: values outside the unit interval, and writing a channel back. -/

namespace Color

theorem testBit_set_any_bits (v k s b : Nat) (hs : s ≤ 24) :
    Nat.testBit ((v &&& (((2 ^ 8 - 1) <<< s) ^^^ (2 ^ 32 - 1))) ||| ((k <<< s) % 2 ^ 32)) b =
      if b < s then (Nat.testBit v b && decide (b < 32))
      else if b < s + 8 then Nat.testBit k (b - s)
      else ((Nat.testBit v b || Nat.testBit k (b - s)) && decide (b < 32)) := by
  simp only [Nat.testBit_or, Nat.testBit_and, Nat.testBit_xor, Nat.testBit_shiftLeft,
    Nat.testBit_mod_two_pow, Nat.testBit_two_pow_sub_one]
  by_cases h1 : b < s
  · have h2 : ¬ s ≤ b := by omega
    simp [h1, h2]
  · have h2 : s ≤ b := by omega
    by_cases h3 : b < s + 8
    · have h4 : b - s < 8 := by omega
      have h5 : b < 32 := by omega
      simp [h1, h2, h3, h4, h5]
    · have h4 : ¬ b - s < 8 := by omega
      by_cases h5 : b < 32
      · simp [h1, h2, h3, h4, h5]
      · simp [h1, h2, h3, h4, h5]

/-- The packed value after `set(i, x)` for any `x`, bit by bit: below channel `i` the old
bits, in channel `i` the low byte of `(U32)(x * 255)`, above it the old bits or-ed with
the higher bits of `(U32)(x * 255)`. -/
theorem testBit_set_any {F : Type} [LinearOrderedField F] [FloorRing F] (c : Color)
    (i : Nat) (x : F) (hi : i ≤ 3) (b : Nat) :
    Nat.testBit (c.set i x).v b =
      if b < i * 8 then (Nat.testBit c.v b && decide (b < 32))
      else if b < i * 8 + 8 then Nat.testBit (toU32 (x * 255)) (b - i * 8)
      else ((Nat.testBit c.v b || Nat.testBit (toU32 (x * 255)) (b - i * 8)) &&
        decide (b < 32)) := by
  have hs : i * 8 ≤ 24 := by omega
  unfold set
  simp only []
  rw [mask_eq _ hs, show U32_RANGE = 2 ^ 32 from rfl,
    show (4294967295 : Nat) = 2 ^ 32 - 1 from rfl, testBit_set_any_bits _ _ _ _ hs]

theorem testBit_of_u32 {v b : Nat} (hv : v < U32_RANGE) :
    (Nat.testBit v b && decide (b < 32)) = Nat.testBit v b := by
  by_cases hb : b < 32
  · simp [hb]
  · have hz : Nat.testBit v b = false :=
      Nat.testBit_lt_two_pow (Nat.lt_of_lt_of_le hv
        (by
          have : 2 ^ 32 ≤ 2 ^ b := Nat.pow_le_pow_right (by decide) (by omega)
          simpa [U32_RANGE] using this))
    simp [hz]

theorem testBit_of_byte {k t : Nat} (hk : k < 256) (ht : 8 ≤ t) : Nat.testBit k t = false :=
  Nat.testBit_lt_two_pow (Nat.lt_of_lt_of_le hk
    (by
      have : 2 ^ 8 ≤ 2 ^ t := Nat.pow_le_pow_right (by decide) ht
      simpa using this))

theorem testBit_channel (c : Color) (j t : Nat) :
    Nat.testBit (c.channel j) t = (decide (t < 8) && Nat.testBit c.v (8 * j + t)) := by
  unfold channel
  rw [← Nat.shiftRight_eq_div_pow, show (256 : Nat) = 2 ^ 8 from rfl,
    Nat.testBit_mod_two_pow, Nat.testBit_shiftRight]

theorem channel_lt (c : Color) (j : Nat) : c.channel j < 256 :=
  Nat.mod_lt _ (by decide)

theorem channel_eq_of_testBit (c1 c : Color) (j : Nat)
    (h : ∀ t, t < 8 → Nat.testBit c1.v (8 * j + t) = Nat.testBit c.v (8 * j + t)) :
    c1.channel j = c.channel j := by
  apply Nat.eq_of_testBit_eq
  intro t
  rw [testBit_channel, testBit_channel]
  by_cases ht : t < 8
  · rw [h t ht]
  · simp [ht]

/-- `(U32)(get(i) * 255)` is the byte of channel `i`, in exact arithmetic. -/
theorem toU32_get_mul {F : Type} [LinearOrderedField F] [FloorRing F] (c : Color) (i : Nat)
    (hi : i ≤ 3) : toU32 ((c.get i : F) * 255) = c.channel i := by
  rw [get_eq_channel c i hi, Nat.cast_ofNat,
    div_mul_cancel₀ _ (by norm_num : (255 : F) ≠ 0)]
  unfold toU32
  rw [Nat.floor_natCast]
  exact Nat.mod_eq_of_lt (Nat.lt_trans (channel_lt c i) (by decide))

end Color

/-! The sort-and-emit pipeline. -/

section EmitLemmas

variable {F : Type}

theorem Context.sortedPrimitives_perm [LinearOrderedField F] (ctx : Context F)
    (type : DrawPrimitiveType) :
    List.Perm (ctx.sortedPrimitives type) (ctx.sortablePrimitives type) :=
  List.perm_insertionSort _ _

theorem Context.sortablePrimitives_length (ctx : Context F) (type : DrawPrimitiveType)
    (p : List (VertexData F)) (hp : p ∈ ctx.sortablePrimitives type) :
    p.length = DrawPrimitiveSize type := by
  obtain ⟨rest, -, -, hall⟩ := primitivesOf_spec (DrawPrimitiveSize type)
    (DrawPrimitiveSize_pos type) (ctx.m_vertexData type 1).contents
  exact hall p hp

theorem Context.sortedPrimitives_length [LinearOrderedField F] (ctx : Context F)
    (type : DrawPrimitiveType) (p : List (VertexData F))
    (hp : p ∈ ctx.sortedPrimitives type) : p.length = DrawPrimitiveSize type :=
  ctx.sortablePrimitives_length type p ((ctx.sortedPrimitives_perm type).mem_iff.mp hp)

/-- The sortable buffer of a type, stored in sorted order, holds the sorted primitives. -/
theorem Context.sortedBucket_primitives [LinearOrderedField F] (ctx : Context F)
    (type : DrawPrimitiveType) (hvalid : (ctx.m_vertexData type 1).Valid) :
    primitivesOf (DrawPrimitiveSize type) (ctx.sortedBucket type).contents =
      ctx.sortedPrimitives type := by
  have hn := DrawPrimitiveSize_pos type
  obtain ⟨rest, hdec, hrest, hall⟩ :=
    primitivesOf_spec (DrawPrimitiveSize type) hn (ctx.m_vertexData type 1).contents
  have hsize : (ctx.m_vertexData type 1).contents.length = (ctx.m_vertexData type 1).m_size :=
    Vector.contents_length hvalid
  have hperm := ctx.sortedPrimitives_perm type
  have hlen := hperm.flatten.length_eq
  have hcs : (ctx.m_vertexData type 1).m_data.take (ctx.m_vertexData type 1).m_size =
      (ctx.sortablePrimitives type).flatten ++ rest := hdec
  have hsize2 : (ctx.m_vertexData type 1).m_size =
      (ctx.sortablePrimitives type).flatten.length + rest.length := by
    rw [← hsize, ← List.length_append]
    exact congrArg List.length hdec
  have hcontents : (ctx.sortedBucket type).contents =
      (ctx.sortedPrimitives type).flatten ++ rest := by
    show List.take (ctx.m_vertexData type 1).m_size
      ((ctx.sortedPrimitives type).flatten ++
        (ctx.m_vertexData type 1).m_data.drop (ctx.sortedPrimitives type).flatten.length) = _
    generalize ctx.sortedPrimitives type = sorted at hlen ⊢
    rw [List.take_append_eq_append_take, List.take_of_length_le (by omega), ← List.drop_take,
      hcs, hlen, List.drop_left]
  rw [hcontents]
  exact primitivesOf_flatten _ hn _ rest (ctx.sortedPrimitives_length type) hrest

variable [LT F] [DecidableRel (fun a b : F => a < b)] (key : List (VertexData F) → F)

theorem farther_ne_nil (pending : DrawPrimitiveType → List (List (VertexData F)))
    (best : Option DrawPrimitiveType) (type : DrawPrimitiveType)
    (hbest : ∀ b, best = some b → pending b ≠ []) :
    ∀ t, farther key pending best type = some t → pending t ≠ [] := by
  intro t ht
  unfold farther at ht
  cases hp : pending type with
  | nil =>
    rw [hp] at ht
    exact hbest t ht
  | cons p rest =>
    rw [hp] at ht
    have htype : pending type ≠ [] := by rw [hp]; exact List.cons_ne_nil _ _
    cases best with
    | none =>
      cases ht
      exact htype
    | some b =>
      simp only [List.head?_cons] at ht
      cases hq : (pending b).head? with
      | none =>
        rw [hq] at ht
        cases ht
        exact htype
      | some q =>
        rw [hq] at ht
        simp only [] at ht
        by_cases hlt : key q < key p
        · rw [if_pos hlt] at ht
          cases ht
          exact htype
        · rw [if_neg hlt] at ht
          cases ht
          exact hbest _ rfl

theorem farther_none (pending : DrawPrimitiveType → List (List (VertexData F)))
    (best : Option DrawPrimitiveType) (type : DrawPrimitiveType)
    (h : farther key pending best type = none) : best = none ∧ pending type = [] := by
  unfold farther at h
  cases hp : pending type with
  | nil =>
    rw [hp] at h
    exact ⟨h, rfl⟩
  | cons p rest =>
    rw [hp] at h
    cases best with
    | none => cases h
    | some b =>
      simp only [List.head?_cons] at h
      cases hq : (pending b).head? with
      | none =>
        rw [hq] at h
        cases h
      | some q =>
        rw [hq] at h
        simp only [] at h
        by_cases hlt : key q < key p
        · rw [if_pos hlt] at h
          cases h
        · rw [if_neg hlt] at h
          cases h

theorem nextSorted_ne_nil (pending : DrawPrimitiveType → List (List (VertexData F)))
    (t : DrawPrimitiveType) (h : nextSorted key pending = some t) : pending t ≠ [] := by
  unfold nextSorted at h
  refine farther_ne_nil key pending _ _ ?_ t h
  refine farther_ne_nil key pending _ _ ?_
  refine farther_ne_nil key pending _ _ ?_
  intro b hb
  cases hb

theorem nextSorted_none (pending : DrawPrimitiveType → List (List (VertexData F)))
    (h : nextSorted key pending = none) : ∀ t, pending t = [] := by
  unfold nextSorted at h
  obtain ⟨h2, hP⟩ := farther_none key pending _ _ h
  obtain ⟨h1, hL⟩ := farther_none key pending _ _ h2
  obtain ⟨-, hT⟩ := farther_none key pending _ _ h1
  intro t
  cases t
  · exact hT
  · exact hL
  · exact hP

theorem mergeSorted_step (fuel : Nat)
    (pending : DrawPrimitiveType → List (List (VertexData F))) :
    (mergeSorted key (fuel + 1) pending = [] ∧ ∀ t, pending t = []) ∨
    ∃ type p rest, pending type = p :: rest ∧
      mergeSorted key (fuel + 1) pending =
        (type, p) :: mergeSorted key fuel (fun t => if t = type then rest else pending t) := by
  cases hnext : nextSorted key pending with
  | none =>
    left
    refine ⟨?_, nextSorted_none key pending hnext⟩
    rw [mergeSorted, hnext]
  | some type =>
    right
    have hne := nextSorted_ne_nil key pending type hnext
    cases hp : pending type with
    | nil => exact absurd hp hne
    | cons p rest =>
      refine ⟨type, p, rest, hp, ?_⟩
      rw [mergeSorted, hnext]
      simp only [hp]

/-- The emission order holds the pending primitives of each type, in their order. -/
theorem mergeSorted_filter :
    ∀ (fuel : Nat) (pending : DrawPrimitiveType → List (List (VertexData F))),
      (pending .DrawPrimitive_Triangles).length + (pending .DrawPrimitive_Lines).length +
        (pending .DrawPrimitive_Points).length ≤ fuel →
      ∀ t, ((mergeSorted key fuel pending).filter fun e => decide (e.1 = t)).map Prod.snd =
        pending t := by
  intro fuel
  induction fuel with
  | zero =>
    intro pending htotal t
    have h : (pending t).length = 0 := by
      cases t <;> omega
    rw [List.length_eq_zero.mp h]
    rfl
  | succ fuel ih =>
    intro pending htotal t
    rcases mergeSorted_step key fuel pending with ⟨hnil, hall⟩ | ⟨type, p, rest, hp, hrun⟩
    · rw [hnil, hall t]
      rfl
    · rw [hrun]
      have hrec := ih (fun u => if u = type then rest else pending u)
        (by
          have hlen : (pending type).length = rest.length + 1 := by rw [hp]; rfl
          cases type <;> simp <;> omega) t
      by_cases ht : type = t
      · rw [List.filter_cons_of_pos (by simpa using ht), List.map_cons, hrec, if_pos ht.symm,
          ← ht, hp]
      · rw [List.filter_cons_of_neg (by simpa using ht), hrec,
          if_neg (fun h => ht h.symm)]

theorem mergeSorted_mem :
    ∀ (fuel : Nat) (pending : DrawPrimitiveType → List (List (VertexData F)))
      (e : DrawPrimitiveType × List (VertexData F)),
      e ∈ mergeSorted key fuel pending → e.2 ∈ pending e.1 := by
  intro fuel
  induction fuel with
  | zero =>
    intro pending e he
    simp [mergeSorted] at he
  | succ fuel ih =>
    intro pending e he
    rcases mergeSorted_step key fuel pending with ⟨hnil, -⟩ | ⟨type, p, rest, hp, hrun⟩
    · rw [hnil] at he
      cases he
    · rw [hrun, List.mem_cons] at he
      rcases he with he | he
      · rw [he, hp]
        exact List.mem_cons_self _ _
      · have hrec := ih _ e he
        by_cases ht : e.1 = type
        · rw [if_pos ht] at hrec
          rw [ht, hp]
          exact List.mem_cons_of_mem _ hrec
        · rw [if_neg ht] at hrec
          exact hrec

theorem mergeSorted_length :
    ∀ (fuel : Nat) (pending : DrawPrimitiveType → List (List (VertexData F))),
      (mergeSorted key fuel pending).length ≤ fuel := by
  intro fuel
  induction fuel with
  | zero =>
    intro pending
    simp [mergeSorted]
  | succ fuel ih =>
    intro pending
    rcases mergeSorted_step key fuel pending with ⟨hnil, -⟩ | ⟨type, p, rest, -, hrun⟩
    · rw [hnil]
      simp
    · rw [hrun, List.length_cons]
      exact Nat.succ_le_succ (ih _)

end EmitLemmas

/-! Draw lists of the sorted primitives. -/

section DrawListLemmas

variable {F : Type}

theorem emittedPrimitives_nil (t : DrawPrimitiveType) :
    emittedPrimitives t ([] : List (DrawList F)) = [] := rfl

theorem emittedPrimitives_cons (t : DrawPrimitiveType) (dl : DrawList F)
    (dls : List (DrawList F)) :
    emittedPrimitives t (dl :: dls) =
      if dl.m_primType = t then
        primitivesOf (DrawPrimitiveSize t) dl.m_vertexData ++ emittedPrimitives t dls
      else emittedPrimitives t dls := by
  unfold emittedPrimitives
  by_cases h : dl.m_primType = t
  · rw [List.filter_cons_of_pos (by simpa using h), if_pos h, List.map_cons,
      List.flatten_cons]
  · rw [List.filter_cons_of_neg (by simpa using h), if_neg h]

theorem emittedPrimitives_append (t : DrawPrimitiveType) (l1 l2 : List (DrawList F)) :
    emittedPrimitives t (l1 ++ l2) = emittedPrimitives t l1 ++ emittedPrimitives t l2 := by
  unfold emittedPrimitives
  rw [List.filter_append, List.map_append, List.flatten_append]

theorem primitivesOf_whole (type : DrawPrimitiveType) (ps : List (List (VertexData F)))
    (hall : ∀ q ∈ ps, q.length = DrawPrimitiveSize type) :
    primitivesOf (DrawPrimitiveSize type) ps.flatten = ps := by
  have h := primitivesOf_flatten (DrawPrimitiveSize type) (DrawPrimitiveSize_pos type) ps []
    hall (DrawPrimitiveSize_pos type)
  rw [List.append_nil] at h
  exact h

theorem drawListsOfRuns_cons (type : DrawPrimitiveType) (p : List (VertexData F))
    (es : List (DrawPrimitiveType × List (VertexData F))) :
    (drawListsOfRuns es = [] ∧ drawListsOfRuns ((type, p) :: es) =
      [{ m_primType := type, m_vertexData := p, m_vertexCount := p.length % U32_RANGE }]) ∨
    (∃ dl dls, drawListsOfRuns es = dl :: dls ∧ dl.m_primType = type ∧
      drawListsOfRuns ((type, p) :: es) =
        { m_primType := type, m_vertexData := p ++ dl.m_vertexData
          m_vertexCount := (p.length + dl.m_vertexCount) % U32_RANGE } :: dls) ∨
    (∃ dl dls, drawListsOfRuns es = dl :: dls ∧ dl.m_primType ≠ type ∧
      drawListsOfRuns ((type, p) :: es) =
        { m_primType := type, m_vertexData := p, m_vertexCount := p.length % U32_RANGE } ::
          dl :: dls) := by
  rw [drawListsOfRuns]
  cases hrest : drawListsOfRuns es with
  | nil => exact Or.inl ⟨rfl, rfl⟩
  | cons dl dls =>
    by_cases h : dl.m_primType = type
    · refine Or.inr (Or.inl ⟨dl, dls, rfl, h, ?_⟩)
      simp only []
      rw [if_pos h]
    · refine Or.inr (Or.inr ⟨dl, dls, rfl, h, ?_⟩)
      simp only []
      rw [if_neg h]

theorem drawListsOfRuns_length (es : List (DrawPrimitiveType × List (VertexData F))) :
    (drawListsOfRuns es).length ≤ es.length := by
  induction es with
  | nil => simp [drawListsOfRuns]
  | cons e es ih =>
    obtain ⟨type, p⟩ := e
    rcases drawListsOfRuns_cons type p es with ⟨-, h⟩ | ⟨dl, dls, hrest, -, h⟩ |
      ⟨dl, dls, hrest, -, h⟩
    · rw [h]; simp
    · rw [h]
      rw [hrest] at ih
      simp only [List.length_cons] at ih ⊢
      omega
    · rw [h]
      rw [hrest] at ih
      simp only [List.length_cons] at ih ⊢
      omega

/-- The draw lists of the runs hold the primitives of each type, in their order. -/
theorem emittedPrimitives_drawListsOfRuns
    (es : List (DrawPrimitiveType × List (VertexData F)))
    (hall : ∀ e ∈ es, e.2.length = DrawPrimitiveSize e.1) :
    (∀ dl ∈ drawListsOfRuns es, dl.Whole) ∧
    ∀ t, emittedPrimitives t (drawListsOfRuns es) =
      (es.filter fun e => decide (e.1 = t)).map Prod.snd := by
  induction es with
  | nil =>
    refine ⟨fun dl hdl => ?_, fun t => rfl⟩
    simp [drawListsOfRuns] at hdl
  | cons e es ih =>
    obtain ⟨type, p⟩ := e
    have hp : p.length = DrawPrimitiveSize type := hall (type, p) (List.mem_cons_self _ _)
    obtain ⟨hwhole, hemit⟩ := ih (fun e he => hall e (List.mem_cons_of_mem _ he))
    have hsingle : ∀ q ∈ [p], q.length = DrawPrimitiveSize type := by
      intro q hq
      rw [List.mem_singleton] at hq
      rw [hq]; exact hp
    have hone : primitivesOf (DrawPrimitiveSize type) p = [p] := by
      have h := primitivesOf_whole type [p] hsingle
      simpa using h
    have hfilter : ∀ t, ((((type, p) :: es).filter fun e => decide (e.1 = t)).map Prod.snd) =
        if type = t then p :: (es.filter fun e => decide (e.1 = t)).map Prod.snd
        else (es.filter fun e => decide (e.1 = t)).map Prod.snd := by
      intro t
      by_cases h : type = t
      · rw [List.filter_cons_of_pos (by simpa using h), if_pos h, List.map_cons]
      · rw [List.filter_cons_of_neg (by simpa using h), if_neg h]
    rcases drawListsOfRuns_cons type p es with ⟨hrest, h⟩ | ⟨dl, dls, hrest, htype, h⟩ |
      ⟨dl, dls, hrest, htype, h⟩
    · rw [h]
      rw [hrest] at hemit
      refine ⟨fun dl hdl => ?_, fun t => ?_⟩
      · rw [List.mem_singleton] at hdl
        rw [hdl]
        exact ⟨[p], by simp, hsingle⟩
      · rw [hfilter, ← hemit t, emittedPrimitives_cons, emittedPrimitives_nil]
        by_cases ht : type = t
        · rw [if_pos ht, if_pos ht, ← ht, hone]
          rfl
        · rw [if_neg ht, if_neg ht]
    · rw [h]
      rw [hrest] at hemit hwhole
      obtain ⟨ps, hdata, hps⟩ := hwhole dl (List.mem_cons_self _ _)
      rw [htype] at hps
      have hcons : ∀ q ∈ p :: ps, q.length = DrawPrimitiveSize type := by
        intro q hq
        rw [List.mem_cons] at hq
        rcases hq with hq | hq
        · rw [hq]; exact hp
        · exact hps q hq
      refine ⟨fun d hd => ?_, fun t => ?_⟩
      · rw [List.mem_cons] at hd
        rcases hd with hd | hd
        · rw [hd]
          exact ⟨p :: ps, by rw [hdata]; rfl, hcons⟩
        · exact hwhole d (List.mem_cons_of_mem _ hd)
      · rw [hfilter, ← hemit t, emittedPrimitives_cons, emittedPrimitives_cons]
        by_cases ht : type = t
        · rw [if_pos ht, if_pos ht, if_pos (htype.trans ht), ← ht, hdata,
            primitivesOf_whole type ps hps,
            show p ++ ps.flatten = (p :: ps).flatten from rfl,
            primitivesOf_whole type (p :: ps) hcons]
          rfl
        · rw [if_neg ht, if_neg ht, if_neg (fun h2 => ht (htype.symm.trans h2))]
    · rw [h]
      rw [hrest] at hemit hwhole
      refine ⟨fun d hd => ?_, fun t => ?_⟩
      · rw [List.mem_cons] at hd
        rcases hd with hd | hd
        · rw [hd]
          exact ⟨[p], by simp, hsingle⟩
        · exact hwhole d hd
      · rw [hfilter, ← hemit t, emittedPrimitives_cons]
        by_cases ht : type = t
        · rw [if_pos ht, if_pos ht, ← ht, hone]
          rfl
        · rw [if_neg ht, if_neg ht]

end DrawListLemmas

/-! The methods `sort` and `draw`. -/

namespace Context

variable {F : Type}

theorem begin_after_draw (c : Context F) (mode : PrimitiveMode)
    (h : c.m_drawCalled = true) : c.begin_ mode = .error Fault.assertion := by
  unfold begin_
  rw [h]
  rfl

theorem vertex_after_draw (math : VertexMath F) (grant : Nat → Nat → Nat) (c : Context F)
    (position : Vec3 F) (size : F) (color : Color) (h : c.m_drawCalled = true) :
    c.vertex math grant position size color = .error Fault.assertion := by
  unfold vertex
  rw [h]
  rfl

theorem sortedPrimitives_total [LinearOrderedField F] (ctx : Context F) :
    (ctx.sortedPrimitives .DrawPrimitive_Triangles).length +
      (ctx.sortedPrimitives .DrawPrimitive_Lines).length +
      (ctx.sortedPrimitives .DrawPrimitive_Points).length = ctx.sortableCount := by
  unfold sortableCount
  rw [(ctx.sortedPrimitives_perm .DrawPrimitive_Triangles).length_eq,
    (ctx.sortedPrimitives_perm .DrawPrimitive_Lines).length_eq,
    (ctx.sortedPrimitives_perm .DrawPrimitive_Points).length_eq]

/-- What `sort` does when the frame has not been sorted yet: it returns, the sortable
buffers hold their primitives in sorted order, the unsorted buffers are as before, and
the sorted draw lists hold the sorted primitives of each type, in sorted order. -/
theorem sort_spec [LinearOrderedField F] (grant : Nat → Nat → Nat) (ctx : Context F)
    (hnot : ctx.m_sortCalled = false)
    (hlists : ctx.m_sortedDrawLists.Valid) (hclear : ctx.m_sortedDrawLists.m_size = 0)
    (hroom : Vector.GrantsRoom grant ctx.sortableCount) :
    ∃ ctx1, ctx.sort grant = .ok ctx1 ∧ ctx1.m_sortCalled = true ∧
      ctx1.m_drawCalled = ctx.m_drawCalled ∧
      (∀ type, ctx1.m_vertexData type 1 = ctx.sortedBucket type) ∧
      (∀ type, ctx1.m_vertexData type 0 = ctx.m_vertexData type 0) ∧
      ∀ type, emittedPrimitives type ctx1.m_sortedDrawLists.contents =
        ctx.sortedPrimitives type := by
  have hlen1 := mergeSorted_length (sortKey ctx.m_appData.m_viewOrigin) ctx.sortableCount
    (fun type => ctx.sortedPrimitives type)
  have hlen2 := drawListsOfRuns_length
    (mergeSorted (sortKey ctx.m_appData.m_viewOrigin) ctx.sortableCount
      (fun type => ctx.sortedPrimitives type))
  obtain ⟨s1, hpush, -, hcontents, -⟩ :=
    Vector.push_back_all_spec grant
      (drawListsOfRuns (mergeSorted (sortKey ctx.m_appData.m_viewOrigin) ctx.sortableCount
        (fun type => ctx.sortedPrimitives type)))
      ctx.m_sortedDrawLists hlists (hroom.mono (by rw [hclear]; omega))
  have hempty : ctx.m_sortedDrawLists.contents = [] := by
    unfold Vector.contents
    rw [hclear, List.take_zero]
  rw [hempty, List.nil_append] at hcontents
  have hrun : ctx.sort grant = .ok
      { ctx with
        m_sortCalled := true
        m_vertexData := fun type list =>
          if list = 1 then ctx.sortedBucket type else ctx.m_vertexData type list
        m_sortedDrawLists := s1 } := by
    unfold sort
    rw [if_neg (by simp [hnot])]
    simp only []
    rw [hpush]
    rfl
  refine ⟨_, hrun, rfl, rfl, fun type => rfl, fun type => rfl, fun type => ?_⟩
  show emittedPrimitives type s1.contents = _
  rw [hcontents]
  have hall : ∀ e ∈ mergeSorted (sortKey ctx.m_appData.m_viewOrigin) ctx.sortableCount
      (fun type => ctx.sortedPrimitives type), e.2.length = DrawPrimitiveSize e.1 := by
    intro e he
    exact ctx.sortedPrimitives_length e.1 e.2 (mergeSorted_mem _ _ _ e he)
  rw [(emittedPrimitives_drawListsOfRuns _ hall).2 type]
  exact mergeSorted_filter (sortKey ctx.m_appData.m_viewOrigin) ctx.sortableCount
    (fun type => ctx.sortedPrimitives type) (le_of_eq ctx.sortedPrimitives_total) type

theorem draw_after_draw [LinearOrderedField F] (grant : Nat → Nat → Nat) (c : Context F)
    (h : c.m_drawCalled = true) : c.draw grant = .error Fault.assertion := by
  unfold draw
  rw [h]
  rfl

theorem draw_of_sort [LinearOrderedField F] (grant : Nat → Nat → Nat) (c c1 : Context F)
    (hdraw : c.m_drawCalled = false) (hsort : c.sort grant = .ok c1) :
    c.draw grant = .ok ({ c1 with m_drawCalled := true },
      c.unsortedDrawLists ++ c1.m_sortedDrawLists.contents) := by
  unfold draw
  rw [hdraw, Bool.not_false, Vector.assert_true, hsort, ok_bind]
  rfl

end Context

/-! The stack engine contract. -/

section Claims

variable {F : Type}

theorem Vector.push_back_get {α : Type} (grant : Nat → Nat → Nat) {s : Vector α}
    (h : s.Valid) (v : α)
    (hroom : s.m_size = s.m_capacity →
      s.m_size < grant s.m_capacity (growRequest s.m_capacity) % U32_RANGE) :
    ∃ s1, s.push_back grant v = .ok s1 ∧ s1.Valid ∧ s1.back = .ok v ∧
      s1.m_size = s.m_size + 1 ∧ s1.contents = s.contents ++ [v] ∧
      ∀ i, i < s.m_size → ∃ x, s.index i = .ok x ∧ s1.index i = .ok x := by
  obtain ⟨s1, hrun, hv1, hc, hsz⟩ := push_back_spec grant h v hroom
  refine ⟨s1, hrun, hv1, ?_, hsz, hc, ?_⟩
  · obtain ⟨x, hx, hlast⟩ := back_eq_getLast? hv1 (by omega)
    rw [hc, List.getLast?_concat] at hlast
    rw [hx]
    exact congrArg Except.ok (Option.some.inj hlast).symm
  · intro i hi
    obtain ⟨x, hx, hget⟩ := index_eq h hi
    obtain ⟨y, hy, hget1⟩ := index_eq hv1 (show i < s1.m_size by omega)
    refine ⟨x, hx, ?_⟩
    rw [hc, List.get?_eq_getElem?, List.getElem?_append_left
      (by rw [contents_length h]; exact hi), ← List.get?_eq_getElem?, hget] at hget1
    rw [hy]
    exact congrArg Except.ok (Option.some.inj hget1).symm

/-- C1: on each of the color, alpha, size, transform and identifier stacks, `push(v)`
returns, `get()` then returns `v`, the depth has grown by exactly one and every entry
that was on the stack reads as before; a second `push(v)` leaves the same top as the
first. The stack is taken in its representation invariant and the reallocation is
taken to leave room for the pushed element. -/
theorem push_then_get (grant : Nat → Nat → Nat) (ctx : Context F) (k : StackKind)
    (v : k.Value F) (hvalid : (ctx.stack k).Valid)
    (hroom : Vector.GrantsRoom grant ((ctx.stack k).m_size + 1)) :
    ∃ ctx1 ctx2, ctx.push grant k v = .ok ctx1 ∧ ctx1.get k = .ok v ∧
      (ctx1.stack k).size = (ctx.stack k).size + 1 ∧
      (∀ i, i < (ctx.stack k).size →
        ∃ x, (ctx.stack k).index i = .ok x ∧ (ctx1.stack k).index i = .ok x) ∧
      ctx1.push grant k v = .ok ctx2 ∧ ctx2.get k = .ok v ∧
      (ctx2.stack k).size = (ctx.stack k).size + 2 := by
  obtain ⟨s1, hrun1, hv1, hback1, hsz1, -, hidx⟩ :=
    Vector.push_back_get grant hvalid v (fun hfull => hfull ▸ hroom _ (by omega))
  obtain ⟨ctx1, hp1, hs1⟩ := Context.push_of_push_back grant ctx k v hrun1
  obtain ⟨s2, hrun2, -, hback2, hsz2, -, -⟩ :=
    Vector.push_back_get grant hv1 v
      (fun hfull => hfull ▸ hroom _ (by omega))
  rw [← hs1] at hrun2
  obtain ⟨ctx2, hp2, hs2⟩ := Context.push_of_push_back grant ctx1 k v hrun2
  refine ⟨ctx1, ctx2, hp1, ?_, ?_, ?_, hp2, ?_, ?_⟩
  · rw [Context.get_eq_back, hs1, hback1]
  · rw [hs1]; exact hsz1
  · rw [hs1]; exact hidx
  · rw [Context.get_eq_back, hs2, hback2]
  · rw [hs2]; show s2.m_size = _; rw [hsz2, hsz1]; rfl

/-- C1, evaluated: pushing the color 255 on the sample context. -/
theorem push_then_get_witness :
    (sampleContext.stack .color).Valid ∧
    Vector.GrantsRoom grantAtLeast8 ((sampleContext.stack .color).m_size + 1) ∧
    ∃ ctx1 ctx2, sampleContext.push grantAtLeast8 .color ⟨255⟩ = .ok ctx1 ∧
      ctx1.get .color = .ok (⟨255⟩ : Color) ∧
      (ctx1.stack .color).size = (sampleContext.stack .color).size + 1 ∧
      (∀ i, i < (sampleContext.stack .color).size →
        ∃ x, (sampleContext.stack .color).index i = .ok x ∧
          (ctx1.stack .color).index i = .ok x) ∧
      ctx1.push grantAtLeast8 .color ⟨255⟩ = .ok ctx2 ∧
      ctx2.get .color = .ok (⟨255⟩ : Color) ∧
      (ctx2.stack .color).size = (sampleContext.stack .color).size + 2 :=
  ⟨by decide, by decide,
    push_then_get grantAtLeast8 sampleContext .color ⟨255⟩ (by decide) (by decide)⟩

/-- C2: on a non-empty state stack, `push(v)` followed by `pop()` returns a stack
holding exactly the elements it held before the push, and `get()` returns the previous
top again. (The storage past the top keeps the popped value, and the capacity may have
grown.) -/
theorem push_then_pop (grant : Nat → Nat → Nat) (ctx : Context F) (k : StackKind)
    (v : k.Value F) (hvalid : (ctx.stack k).Valid) (hne : 0 < (ctx.stack k).size)
    (hroom : Vector.GrantsRoom grant (ctx.stack k).m_size) :
    ∃ ctx1 ctx2 top, ctx.push grant k v = .ok ctx1 ∧ ctx1.pop k = .ok ctx2 ∧
      (ctx2.stack k).contents = (ctx.stack k).contents ∧
      (ctx2.stack k).size = (ctx.stack k).size ∧
      ctx.get k = .ok top ∧ ctx2.get k = .ok top := by
  obtain ⟨s1, hrun1, hv1, hc1, hsz1⟩ :=
    Vector.push_back_spec grant hvalid v (fun hfull => hfull ▸ hroom _ (Nat.le_refl _))
  obtain ⟨ctx1, hp1, hs1⟩ := Context.push_of_push_back grant ctx k v hrun1
  obtain ⟨s2, hrun2, hv2, hc2, hsz2, -, -⟩ := Vector.pop_back_spec hv1 (by omega)
  rw [← hs1] at hrun2
  obtain ⟨ctx2, hp2, hs2⟩ := Context.pop_of_pop_back ctx1 k hrun2
  have hc : s2.contents = (ctx.stack k).contents := by
    rw [hc2, hc1, List.dropLast_concat]
  have hsz : s2.m_size = (ctx.stack k).m_size := by omega
  obtain ⟨top, htop, hlast⟩ := Vector.back_eq_getLast? hvalid hne
  obtain ⟨top2, htop2, hlast2⟩ := Vector.back_eq_getLast? hv2 (hsz ▸ hne)
  rw [hc, hlast] at hlast2
  refine ⟨ctx1, ctx2, top, hp1, hp2, ?_, ?_, ?_, ?_⟩
  · rw [hs2]; exact hc
  · rw [hs2]; exact hsz
  · rw [Context.get_eq_back]; exact htop
  · rw [Context.get_eq_back, hs2, htop2]
    exact congrArg Except.ok (Option.some.inj hlast2).symm

/-- C2, evaluated: pushing the size 5 on the sample context and popping it. -/
theorem push_then_pop_witness :
    (sampleContext.stack .size).Valid ∧ 0 < (sampleContext.stack .size).size ∧
    Vector.GrantsRoom grantAtLeast8 (sampleContext.stack .size).m_size ∧
    ∃ ctx1 ctx2 top, sampleContext.push grantAtLeast8 .size (5 : ℚ) = .ok ctx1 ∧
      ctx1.pop .size = .ok ctx2 ∧
      (ctx2.stack .size).contents = (sampleContext.stack .size).contents ∧
      (ctx2.stack .size).size = (sampleContext.stack .size).size ∧
      sampleContext.get .size = .ok top ∧ ctx2.get .size = .ok top :=
  ⟨by decide, by decide, by decide,
    push_then_pop grantAtLeast8 sampleContext .size (5 : ℚ) (by decide) (by decide)
      (by decide)⟩

theorem PushSize_eq (grant : Nat → Nat → Nat) (ctx : Context F) {alpha : F}
    (h : ctx.getAlpha = .ok alpha) : PushSize grant ctx = ctx.pushSize grant alpha := by
  unfold PushSize
  rw [h]
  rfl

theorem PushTop_eq (grant : Nat → Nat → Nat) (ctx : Context F) (k : StackKind)
    (hk : k ≠ .size) {top : k.Value F} (h : ctx.get k = .ok top) :
    PushTop grant ctx k = ctx.push grant k top := by
  cases k
  · show PushColor grant ctx = _
    unfold PushColor
    rw [show ctx.getColor = .ok top from h]
    rfl
  · show PushAlpha grant ctx = _
    unfold PushAlpha
    rw [show ctx.getAlpha = .ok top from h]
    rfl
  · exact absurd rfl hk
  · show PushMatrix grant ctx = _
    unfold PushMatrix
    rw [show ctx.getMatrix = .ok top from h]
    rfl
  · show PushId grant ctx = _
    unfold PushId
    rw [show ctx.getId = .ok top from h]
    rfl

theorem PushSize_pushes_alpha (grant : Nat → Nat → Nat) (ctx : Context F)
    (hsize : ctx.m_sizeStack.Valid) (halpha : ctx.m_alphaStack.Valid)
    (hne : 0 < ctx.m_alphaStack.size)
    (hroom : Vector.GrantsRoom grant ctx.m_sizeStack.m_size) :
    ∃ alpha ctx1, GetAlpha ctx = .ok alpha ∧ PushSize grant ctx = .ok ctx1 ∧
      GetSize ctx1 = .ok alpha := by
  obtain ⟨alpha, ha, -⟩ := Vector.back_eq_getLast? halpha hne
  obtain ⟨s1, hrun, -, hback, -, -, -⟩ :=
    Vector.push_back_get grant hsize alpha (fun hfull => hfull ▸ hroom _ (Nat.le_refl _))
  obtain ⟨ctx1, hp, hs⟩ := Context.push_of_push_back grant ctx .size alpha hrun
  refine ⟨alpha, ctx1, ha, ?_, ?_⟩
  · rw [PushSize_eq grant ctx ha]; exact hp
  · show (ctx1.stack .size).back = _
    rw [hs]; exact hback

/-- C3, on the code: in the sample context the current size is 2 and the current alpha
is 1; `PushSize()` returns, and `GetSize()` then returns 1, the alpha, not the size 2 it
returned before. -/
theorem PushSize_changes_size :
    GetSize sampleContext = .ok 2 ∧ GetAlpha sampleContext = .ok 1 ∧
    ∃ ctx1, PushSize grantAtLeast8 sampleContext = .ok ctx1 ∧ GetSize ctx1 = .ok 1 ∧
      GetSize ctx1 ≠ GetSize sampleContext := by
  refine ⟨rfl, rfl, _, rfl, rfl, ?_⟩
  intro h
  have h2 : (1 : ℚ) = 2 := Except.ok.inj h
  norm_num at h2

/-- C4, as stated, fails: the color stack of the sample context holds exactly one entry,
and `popColor()` on it returns normally, leaving the stack empty; no assertion fails. -/
theorem pop_baseline_succeeds :
    (sampleContext.stack .color).size = 1 ∧
    ∃ ctx1, sampleContext.pop .color = .ok ctx1 ∧ (ctx1.stack .color).size = 0 ∧
      sampleContext.pop .color ≠ .error Fault.assertion := by
  refine ⟨rfl, _, rfl, rfl, ?_⟩
  intro h
  cases h

/-- C4, amended: `pop()` on a state stack fails its assertion exactly when the stack
holds no entry; whenever the stack holds at least one entry, the baseline alone
included, `pop()` returns and the depth is one less. -/
theorem pop_asserts_iff_empty (ctx : Context F) (k : StackKind) :
    (ctx.pop k = .error Fault.assertion ↔ (ctx.stack k).size = 0) ∧
    (0 < (ctx.stack k).size →
      ∃ ctx1, ctx.pop k = .ok ctx1 ∧ (ctx1.stack k).size = (ctx.stack k).size - 1) := by
  have hpos : 0 < (ctx.stack k).m_size →
      ∃ ctx1, ctx.pop k = .ok ctx1 ∧ (ctx1.stack k).size = (ctx.stack k).size - 1 := by
    intro h
    have hrun : (ctx.stack k).pop_back =
        .ok { ctx.stack k with m_size := (ctx.stack k).m_size - 1 } := by
      unfold Vector.pop_back
      rw [decide_eq_true h, Vector.assert_true]
      rfl
    obtain ⟨ctx1, hp, hs⟩ := Context.pop_of_pop_back ctx k hrun
    exact ⟨ctx1, hp, by rw [hs]; rfl⟩
  refine ⟨⟨fun h => ?_, fun h => ?_⟩, hpos⟩
  · by_contra hne
    obtain ⟨ctx1, hp, -⟩ := hpos (Nat.pos_of_ne_zero hne)
    rw [hp] at h
    cases h
  · exact Context.pop_of_pop_back_error ctx k (Vector.pop_back_of_empty h)

/-- C4, amended, evaluated: the identifier stack of the sample context holds one entry,
and `popId()` returns. -/
theorem pop_asserts_iff_empty_witness :
    0 < (sampleContext.stack .id).size ∧
    ∃ ctx1, sampleContext.pop .id = .ok ctx1 ∧
      (ctx1.stack .id).size = (sampleContext.stack .id).size - 1 :=
  ⟨by decide, (pop_asserts_iff_empty sampleContext .id).2 (by decide)⟩

/-- C5: on a non-empty state stack, `set(v)` returns, `get()` then returns `v`, the depth
is unchanged and every entry below the top reads as before. -/
theorem set_then_get (ctx : Context F) (k : StackKind) (v : k.Value F)
    (hvalid : (ctx.stack k).Valid) (hne : 0 < (ctx.stack k).size) :
    ∃ ctx1, ctx.set k v = .ok ctx1 ∧ ctx1.get k = .ok v ∧
      (ctx1.stack k).size = (ctx.stack k).size ∧
      ∀ i, i + 1 < (ctx.stack k).size →
        ∃ x, (ctx.stack k).index i = .ok x ∧ (ctx1.stack k).index i = .ok x := by
  obtain ⟨s1, hrun, hv1, hc, hsz, -⟩ := Vector.back_assign_spec hvalid hne v
  obtain ⟨ctx1, hp, hs⟩ := Context.set_of_back_assign ctx k v hrun
  have hpos : 0 < (ctx.stack k).m_size := hne
  refine ⟨ctx1, hp, ?_, ?_, ?_⟩
  · obtain ⟨x, hx, hlast⟩ := Vector.back_eq_getLast? hv1 (by omega)
    rw [hc, List.getLast?_concat] at hlast
    rw [Context.get_eq_back, hs, hx]
    exact congrArg Except.ok (Option.some.inj hlast).symm
  · rw [hs]; exact hsz
  · intro i hi
    have hi0 : i + 1 < (ctx.stack k).m_size := hi
    obtain ⟨x, hx, hget⟩ := Vector.index_eq hvalid (show i < (ctx.stack k).m_size by omega)
    obtain ⟨y, hy, hget1⟩ := Vector.index_eq hv1 (show i < s1.m_size by omega)
    have hlen := Vector.contents_length hvalid
    have hxi : ((ctx.stack k).contents.dropLast)[i]? = some x := by
      rw [List.dropLast_eq_take, List.getElem?_take_of_lt (by omega),
        ← List.get?_eq_getElem?, hget]
    rw [hc, List.get?_eq_getElem?, List.getElem?_append_left
      (by rw [List.length_dropLast]; omega), hxi] at hget1
    refine ⟨x, hx, ?_⟩
    rw [hs, hy]
    exact congrArg Except.ok (Option.some.inj hget1).symm

/-- C5, evaluated: setting the alpha of the sample context to 1/2. -/
theorem set_then_get_witness :
    (sampleContext.stack .alpha).Valid ∧ 0 < (sampleContext.stack .alpha).size ∧
    ∃ ctx1, sampleContext.set .alpha (1 / 2 : ℚ) = .ok ctx1 ∧
      ctx1.get .alpha = .ok (1 / 2 : ℚ) ∧
      (ctx1.stack .alpha).size = (sampleContext.stack .alpha).size ∧
      ∀ i, i + 1 < (sampleContext.stack .alpha).size →
        ∃ x, (sampleContext.stack .alpha).index i = .ok x ∧
          (ctx1.stack .alpha).index i = .ok x :=
  ⟨by decide, by decide,
    set_then_get sampleContext .alpha (1 / 2 : ℚ) (by decide) (by decide)⟩

/-- C6: the no-argument `PushColor()`, `PushAlpha()`, `PushMatrix()` and `PushId()`
each return with a copy of the top of their own stack pushed: the getter returns the
same value after the call as before it, and the depth of that stack has grown by
exactly one. The stack is taken non-empty, as the getter asserts. -/
theorem push_top_duplicates (grant : Nat → Nat → Nat) (ctx : Context F) (k : StackKind)
    (hk : k ≠ .size) (hvalid : (ctx.stack k).Valid) (hne : 0 < (ctx.stack k).size)
    (hroom : Vector.GrantsRoom grant (ctx.stack k).m_size) :
    ∃ top ctx1, ctx.get k = .ok top ∧ PushTop grant ctx k = .ok ctx1 ∧
      ctx1.get k = .ok top ∧ (ctx1.stack k).size = (ctx.stack k).size + 1 := by
  obtain ⟨top, htop, -⟩ := Vector.back_eq_getLast? hvalid hne
  rw [← Context.get_eq_back] at htop
  obtain ⟨s1, hrun, -, hback, hsz, -, -⟩ :=
    Vector.push_back_get grant hvalid top (fun hfull => hfull ▸ hroom _ (Nat.le_refl _))
  obtain ⟨ctx1, hp, hs⟩ := Context.push_of_push_back grant ctx k top hrun
  refine ⟨top, ctx1, htop, ?_, ?_, ?_⟩
  · rw [PushTop_eq grant ctx k hk htop]; exact hp
  · rw [Context.get_eq_back, hs]; exact hback
  · rw [hs]; exact hsz

/-- C6, evaluated: `PushId()` on the sample context, whose current id is 17. -/
theorem push_top_duplicates_witness :
    StackKind.id ≠ StackKind.size ∧ (sampleContext.stack .id).Valid ∧
    0 < (sampleContext.stack .id).size ∧
    Vector.GrantsRoom grantAtLeast8 (sampleContext.stack .id).m_size ∧
    ∃ top ctx1, sampleContext.get .id = .ok top ∧
      PushTop grantAtLeast8 sampleContext .id = .ok ctx1 ∧
      ctx1.get .id = .ok top ∧
      (ctx1.stack .id).size = (sampleContext.stack .id).size + 1 :=
  ⟨by decide, by decide, by decide, by decide,
    push_top_duplicates grantAtLeast8 sampleContext .id (by decide) (by decide)
      (by decide) (by decide)⟩

/-- C7: a sequence of `push(value)`, `pop()` and `set(value)` on a state stack that
never pops the baseline entry runs to the end, and the stack then holds exactly what the
plain list model holds after the same sequence, so `get()` returns the top of the
model; when the sequence is only pushes and pops that balance, the stack holds what it
held at the start. -/
theorem run_refines_list_model (grant : Nat → Nat → Nat) (ctx : Context F) (k : StackKind)
    (ops : List (StackOp (k.Value F))) (hvalid : (ctx.stack k).Valid)
    (hne : 0 < (ctx.stack k).size)
    (hkeep : StackOp.KeepsBaseline (ctx.stack k).size ops)
    (hroom : Vector.GrantsRoom grant ((ctx.stack k).size + ops.length)) :
    ∃ ctx1 top, ctx.run grant k ops = .ok ctx1 ∧ ctx1.get k = .ok top ∧
      ListModel.top (ListModel.run (ctx.stack k).contents ops) = some top ∧
      (ctx1.stack k).contents = ListModel.run (ctx.stack k).contents ops ∧
      (StackOp.Balanced ops → (ctx1.stack k).contents = (ctx.stack k).contents) := by
  obtain ⟨ctx1, hrun, hv1, hne1, hc1⟩ := Context.run_spec grant k ops ctx hvalid hne hkeep hroom
  obtain ⟨top, htop, hlast⟩ := Vector.back_eq_getLast? hv1 hne1
  refine ⟨ctx1, top, hrun, ?_, ?_, hc1, ?_⟩
  · rw [Context.get_eq_back]; exact htop
  · rw [← hc1]; exact hlast
  · intro hbal
    rw [hc1, ListModel.run_balanced _ hbal]

/-- C7, evaluated: on the identifier stack of the sample context, the balanced sequence
push 3, push 5, pop, pop. -/
theorem run_refines_list_model_witness :
    (sampleContext.stack .id).Valid ∧ 0 < (sampleContext.stack .id).size ∧
    StackOp.KeepsBaseline (sampleContext.stack .id).size
      [StackOp.push 3, .push 5, .pop, .pop] ∧
    Vector.GrantsRoom grantAtLeast8 ((sampleContext.stack .id).size + 4) ∧
    StackOp.Balanced [StackOp.push (3 : Nat), .push 5, .pop, .pop] ∧
    ∃ ctx1, sampleContext.run grantAtLeast8 .id [StackOp.push 3, .push 5, .pop, .pop]
        = .ok ctx1 ∧
      ctx1.get .id = .ok (17 : Nat) ∧
      (ctx1.stack .id).contents = (sampleContext.stack .id).contents := by
  obtain ⟨ctx1, top, hrun, hget, htop, -, hbal⟩ :=
    run_refines_list_model grantAtLeast8 sampleContext .id
      [StackOp.push 3, .push 5, .pop, .pop] (by decide) (by decide) (by decide) (by decide)
  have e : top = 17 := (Option.some.inj htop).symm
  exact ⟨by decide, by decide, by decide, by decide, by decide, ctx1, hrun, e ▸ hget,
    hbal (by decide)⟩

/-- C8: starting from a state stack with at least one entry, take a sequence of `push`,
`set` and `pop` in which each `pop` is made with more than one entry on the stack. No
step of it fails an assertion; after every step that returns the stack is non-empty, so
that `get()` returns there; and when the reallocation leaves room for the pushes, every
step returns. -/
theorem stack_never_empty (grant : Nat → Nat → Nat) (ctx : Context F) (k : StackKind)
    (ops : List (StackOp (k.Value F))) (hvalid : (ctx.stack k).Valid)
    (hne : 0 < (ctx.stack k).size)
    (hkeep : StackOp.KeepsBaseline (ctx.stack k).size ops) :
    ∀ n, n ≤ ops.length →
      ctx.run grant k (ops.take n) ≠ .error Fault.assertion ∧
      (∀ ctx1, ctx.run grant k (ops.take n) = .ok ctx1 →
        0 < (ctx1.stack k).size ∧ ∃ top, ctx1.get k = .ok top) ∧
      (Vector.GrantsRoom grant ((ctx.stack k).size + ops.length) →
        ∃ ctx1, ctx.run grant k (ops.take n) = .ok ctx1) := by
  intro n hn
  obtain ⟨hsafe, hok⟩ := Context.run_safe grant k (ops.take n) ctx hvalid hne (hkeep.take n)
  refine ⟨hsafe, fun ctx1 hrun => ?_, fun hroom => ?_⟩
  · obtain ⟨hv1, hne1⟩ := hok ctx1 hrun
    obtain ⟨top, htop, -⟩ := Vector.back_eq_getLast? hv1 hne1
    exact ⟨hne1, top, by rw [Context.get_eq_back]; exact htop⟩
  · obtain ⟨ctx1, hrun, -⟩ :=
      Context.run_spec grant k (ops.take n) ctx hvalid hne (hkeep.take n)
        (hroom.mono (by
          rw [List.length_take]; show _ + _ ≤ (ctx.stack k).m_size + _; omega))
    exact ⟨ctx1, hrun⟩

/-- C8, evaluated: on the color stack of the sample context, the first three steps of
push 1, set 2, pop, set 3 return, leaving a non-empty stack. -/
theorem stack_never_empty_witness :
    (sampleContext.stack .color).Valid ∧ 0 < (sampleContext.stack .color).size ∧
    StackOp.KeepsBaseline (sampleContext.stack .color).size
      [StackOp.push (⟨1⟩ : Color), .set ⟨2⟩, .pop, .set ⟨3⟩] ∧
    Vector.GrantsRoom grantAtLeast8 ((sampleContext.stack .color).size + 4) ∧
    ∃ ctx1 top, sampleContext.run grantAtLeast8 .color
        ([StackOp.push (⟨1⟩ : Color), .set ⟨2⟩, .pop, .set ⟨3⟩].take 3) = .ok ctx1 ∧
      0 < (ctx1.stack .color).size ∧ ctx1.get .color = .ok top := by
  obtain ⟨-, hok, hrun⟩ :=
    stack_never_empty grantAtLeast8 sampleContext .color
      [StackOp.push (⟨1⟩ : Color), .set ⟨2⟩, .pop, .set ⟨3⟩] (by decide) (by decide)
      (by decide) 3 (by decide)
  obtain ⟨ctx1, h1⟩ := hrun (by decide)
  obtain ⟨hpos, top, htop⟩ := hok ctx1 h1
  exact ⟨by decide, by decide, by decide, by decide, ctx1, top, h1, hpos, htop⟩

/-- C9: a `push`, `pop` or `set` on one of the color, alpha, size, transform and
identifier stacks leaves the other four of them, the sort-enable stack and the gizmo
interaction fields `m_activeId`, `m_hotId`, `m_hotDepth` as they were. -/
theorem stack_op_frame (grant : Nat → Nat → Nat) (ctx ctx1 : Context F) (k : StackKind)
    (op : StackOp (k.Value F)) (h : ctx.apply grant k op = .ok ctx1) :
    (∀ k1, k1 ≠ k → ctx1.stack k1 = ctx.stack k1) ∧
      ctx1.m_enableSortingStack = ctx.m_enableSortingStack ∧
      ctx1.m_activeId = ctx.m_activeId ∧ ctx1.m_hotId = ctx.m_hotId ∧
      ctx1.m_hotDepth = ctx.m_hotDepth := by
  cases k <;> cases op <;>
    (simp only [Context.apply, Context.push, Context.pop, Context.set, Context.pushColor,
       Context.popColor, Context.setColor, Context.pushAlpha, Context.popAlpha,
       Context.setAlpha, Context.pushSize, Context.popSize, Context.setSize,
       Context.pushMatrix, Context.popMatrix, Context.setMatrix, Context.pushId,
       Context.popId, Context.setId] at h
     obtain ⟨s1, -, hs⟩ := bind_eq_ok h
     cases hs
     refine ⟨fun k1 hk1 => ?_, rfl, rfl, rfl, rfl⟩
     cases k1 <;> first | rfl | exact absurd rfl hk1)

/-- C9, evaluated: `pushColor(255)` on the sample context. -/
theorem stack_op_frame_witness :
    sampleContext.apply grantAtLeast8 .color (.push ⟨255⟩) = .ok sampleContextPushed ∧
    ((∀ k1, k1 ≠ StackKind.color →
        sampleContextPushed.stack k1 = sampleContext.stack k1) ∧
      sampleContextPushed.m_enableSortingStack = sampleContext.m_enableSortingStack ∧
      sampleContextPushed.m_activeId = sampleContext.m_activeId ∧
      sampleContextPushed.m_hotId = sampleContext.m_hotId ∧
      sampleContextPushed.m_hotDepth = sampleContext.m_hotDepth) :=
  ⟨rfl, stack_op_frame grantAtLeast8 sampleContext sampleContextPushed .color
    (.push ⟨255⟩) rfl⟩

/-- C10: `PushDrawState()` returns with the current color, alpha and size as they were
and with each of the color, alpha and size stacks one entry deeper; `PopDrawState()` then
returns with the color, alpha and size stacks holding exactly what they held before
`PushDrawState()`. The four draw-state stacks are taken non-empty, as the getters
assert. -/
theorem push_pop_draw_state (grant : Nat → Nat → Nat) (ctx : Context F)
    (hlive : ctx.DrawStateLive) (hroom : Vector.GrantsRoom grant ctx.drawStateDepth) :
    ∃ color alpha size ctx1 ctx2,
      GetColor ctx = .ok color ∧ GetAlpha ctx = .ok alpha ∧ GetSize ctx = .ok size ∧
      PushDrawState grant ctx = .ok ctx1 ∧
      GetColor ctx1 = .ok color ∧ GetAlpha ctx1 = .ok alpha ∧ GetSize ctx1 = .ok size ∧
      ctx1.m_colorStack.size = ctx.m_colorStack.size + 1 ∧
      ctx1.m_alphaStack.size = ctx.m_alphaStack.size + 1 ∧
      ctx1.m_sizeStack.size = ctx.m_sizeStack.size + 1 ∧
      PopDrawState ctx1 = .ok ctx2 ∧
      ctx2.m_colorStack.contents = ctx.m_colorStack.contents ∧
      ctx2.m_alphaStack.contents = ctx.m_alphaStack.contents ∧
      ctx2.m_sizeStack.contents = ctx.m_sizeStack.contents := by
  obtain ⟨⟨hvc, hnc⟩, ⟨hva, hna⟩, ⟨hvz, hnz⟩, ⟨hve, hne⟩⟩ := hlive
  have hrc : Vector.GrantsRoom grant ctx.m_colorStack.m_size :=
    hroom.mono (by unfold Context.drawStateDepth; omega)
  have hra : Vector.GrantsRoom grant ctx.m_alphaStack.m_size :=
    hroom.mono (by unfold Context.drawStateDepth; omega)
  have hrz : Vector.GrantsRoom grant ctx.m_sizeStack.m_size :=
    hroom.mono (by unfold Context.drawStateDepth; omega)
  have hre : Vector.GrantsRoom grant ctx.m_enableSortingStack.m_size :=
    hroom.mono (by unfold Context.drawStateDepth; omega)
  obtain ⟨color, hcol, -⟩ := Vector.back_eq_getLast? hvc hnc
  obtain ⟨alpha, halp, -⟩ := Vector.back_eq_getLast? hva hna
  obtain ⟨size, hsiz, -⟩ := Vector.back_eq_getLast? hvz hnz
  obtain ⟨sorting, hsor, -⟩ := Vector.back_eq_getLast? hve hne
  obtain ⟨c1, hpc, hvc1, hbc, hszc, hcc, -⟩ :=
    Vector.push_back_get grant hvc color (fun hfull => hfull ▸ hrc _ (Nat.le_refl _))
  obtain ⟨a1, hpa, hva1, hba, hsza, hca, -⟩ :=
    Vector.push_back_get grant hva alpha (fun hfull => hfull ▸ hra _ (Nat.le_refl _))
  obtain ⟨z1, hpz, hvz1, hbz, hszz, hcz, -⟩ :=
    Vector.push_back_get grant hvz size (fun hfull => hfull ▸ hrz _ (Nat.le_refl _))
  obtain ⟨e1, hpe, hve1, -, hsze, -, -⟩ :=
    Vector.push_back_get grant hve sorting (fun hfull => hfull ▸ hre _ (Nat.le_refl _))
  obtain ⟨c2, hqc, -, hcc2, -⟩ := Vector.pop_back_spec hvc1 (by omega)
  obtain ⟨a2, hqa, -, hca2, -⟩ := Vector.pop_back_spec hva1 (by omega)
  obtain ⟨z2, hqz, -, hcz2, -⟩ := Vector.pop_back_spec hvz1 (by omega)
  obtain ⟨e2, hqe, -⟩ := Vector.pop_back_spec hve1 (by omega)
  have hpush : PushDrawState grant ctx = .ok { ctx with
      m_colorStack := c1, m_alphaStack := a1, m_sizeStack := z1,
      m_enableSortingStack := e1 } := by
    simp only [PushDrawState, Context.getColor, Context.getAlpha, Context.getSize,
      Context.getEnableSorting, Context.pushColor, Context.pushAlpha, Context.pushSize,
      Context.pushEnableSorting, hcol, halp, hsiz, hsor, hpc, hpa, hpz, hpe, ok_bind, pure,
      Except.pure]
  have hpop : PopDrawState { ctx with
      m_colorStack := c1, m_alphaStack := a1, m_sizeStack := z1,
      m_enableSortingStack := e1 } = .ok { ctx with
      m_colorStack := c2, m_alphaStack := a2, m_sizeStack := z2,
      m_enableSortingStack := e2 } := by
    simp only [PopDrawState, Context.popColor, Context.popAlpha, Context.popSize,
      Context.popEnableSorting, hqc, hqa, hqz, hqe, ok_bind, pure, Except.pure]
  refine ⟨color, alpha, size, _, _, hcol, halp, hsiz, hpush, hbc, hba, hbz, hszc, hsza,
    hszz, hpop, ?_, ?_, ?_⟩
  · show c2.contents = _; rw [hcc2, hcc, List.dropLast_concat]
  · show a2.contents = _; rw [hca2, hca, List.dropLast_concat]
  · show z2.contents = _; rw [hcz2, hcz, List.dropLast_concat]

/-- C10, evaluated: `PushDrawState()` and `PopDrawState()` on the sample context. -/
theorem push_pop_draw_state_witness :
    sampleContext.DrawStateLive ∧
    Vector.GrantsRoom grantAtLeast8 sampleContext.drawStateDepth ∧
    ∃ color alpha size ctx1 ctx2,
      GetColor sampleContext = .ok color ∧ GetAlpha sampleContext = .ok alpha ∧
      GetSize sampleContext = .ok size ∧
      PushDrawState grantAtLeast8 sampleContext = .ok ctx1 ∧
      GetColor ctx1 = .ok color ∧ GetAlpha ctx1 = .ok alpha ∧ GetSize ctx1 = .ok size ∧
      ctx1.m_colorStack.size = sampleContext.m_colorStack.size + 1 ∧
      ctx1.m_alphaStack.size = sampleContext.m_alphaStack.size + 1 ∧
      ctx1.m_sizeStack.size = sampleContext.m_sizeStack.size + 1 ∧
      PopDrawState ctx1 = .ok ctx2 ∧
      ctx2.m_colorStack.contents = sampleContext.m_colorStack.contents ∧
      ctx2.m_alphaStack.contents = sampleContext.m_alphaStack.contents ∧
      ctx2.m_sizeStack.contents = sampleContext.m_sizeStack.contents :=
  ⟨by decide, by decide,
    push_pop_draw_state grantAtLeast8 sampleContext (by decide) (by decide)⟩

/-- C12: for every packed color `v`, `getR()`, `getG()`, `getB()` and `getA()` return the
value of bits 24-31, 16-23, 8-15 and 0-7 of `v`, converted to float and divided by 255:
red is the most significant byte and alpha the least significant one. This holds for
whatever the float type takes integer conversion and division to be. -/
theorem get_channels [NatCast F] [Div F] (c : Color) :
    (c.getR : F) = ((c.v / 2 ^ 24 % 256 : Nat) : F) / ((255 : Nat) : F) ∧
    (c.getG : F) = ((c.v / 2 ^ 16 % 256 : Nat) : F) / ((255 : Nat) : F) ∧
    (c.getB : F) = ((c.v / 2 ^ 8 % 256 : Nat) : F) / ((255 : Nat) : F) ∧
    (c.getA : F) = ((c.v % 256 : Nat) : F) / ((255 : Nat) : F) := by
  refine ⟨?_, ?_, ?_, ?_⟩
  · exact Color.get_eq_channel c 3 (by decide)
  · exact Color.get_eq_channel c 2 (by decide)
  · exact Color.get_eq_channel c 1 (by decide)
  · have h := @Color.get_eq_channel F _ _ c 0 (by decide)
    simpa [Color.channel] using h

/-- C13: `wasKeyPressed(key)` is true exactly when the key is down in the current
snapshot and not down in the previous one; so it implies `isKeyDown(key)`, and it is
false for a key held down in both snapshots. -/
theorem wasKeyPressed_iff (ctx : Context F) (key : Key) :
    (ctx.wasKeyPressed key = true ↔
      ctx.m_keyDownCurr key = true ∧ ctx.m_keyDownPrev key = false) ∧
    (ctx.wasKeyPressed key = true → ctx.isKeyDown key = true) ∧
    (ctx.m_keyDownCurr key = true → ctx.m_keyDownPrev key = true →
      ctx.wasKeyPressed key = false) := by
  unfold Context.wasKeyPressed Context.isKeyDown
  cases ctx.m_keyDownCurr key <;> cases ctx.m_keyDownPrev key <;> simp

/-- C14: `clear()` sets the size to 0 and leaves the capacity and the storage as they
were; cleared twice, the vector is as after one `clear()`. -/
theorem clear_keeps_storage {α : Type} (s : Vector α) :
    s.clear.size = 0 ∧ s.clear.empty = true ∧ s.clear.capacity = s.capacity ∧
    s.clear.m_data = s.m_data ∧ s.clear.clear = s.clear :=
  ⟨rfl, rfl, rfl, rfl, rfl⟩

/-- C18, as stated, fails: at capacity 0 and at capacity 1 the capacity that `push_back`
requests from `reserve` equals the current capacity, and at capacity 4294967295 the
32-bit sum wraps to a smaller one; with a reallocation that ends up with exactly the
requested capacity, `push_back` on a full one-element vector has no room for the
element. -/
theorem growRequest_not_greater :
    Vector.growRequest 0 = 0 ∧ Vector.growRequest 1 = 1 ∧
    Vector.growRequest 4294967295 = 2147483646 ∧
    ¬ (∀ cap, cap < U32_RANGE → cap < Vector.growRequest cap) ∧
    Vector.push_back (fun _ requested => requested)
      ({ m_data := [7], m_size := 1, m_capacity := 1 } : Vector Nat) 9 =
      .error Fault.outOfBounds := by
  refine ⟨by decide, by decide, by decide, fun h => ?_, rfl⟩
  exact absurd (h 0 (by decide)) (by decide)

/-- C18, amended: when `push_back` is called on a full vector, the capacity it requests
from `reserve` is `m_capacity + m_capacity / 2` in 32-bit arithmetic; it is strictly
greater than the current capacity exactly for capacities from 2 to 2863311530, it equals
the capacity at 0 and 1, and it is smaller beyond 2863311530. Where it is greater, a
reallocation that ends up with at least the requested capacity leaves room and
`push_back` returns. -/
theorem growRequest_greater_iff (cap : Nat) (hcap : cap < U32_RANGE) :
    (cap < Vector.growRequest cap ↔ 2 ≤ cap ∧ cap ≤ 2863311530) ∧
    (cap ≤ 1 → Vector.growRequest cap = cap) ∧
    (2863311530 < cap → Vector.growRequest cap < cap) ∧
    (∀ (α : Type) (grant : Nat → Nat → Nat) (s : Vector α) (v : α),
      s.Valid → s.m_size = s.m_capacity → s.m_capacity = cap →
      2 ≤ cap → cap ≤ 2863311530 →
      Vector.growRequest cap ≤ grant cap (Vector.growRequest cap) →
      grant cap (Vector.growRequest cap) < U32_RANGE →
      ∃ s1, s.push_back grant v = .ok s1 ∧ s1.size = s.size + 1 ∧
        Vector.growRequest cap ≤ s1.capacity) := by
  unfold U32_RANGE at hcap
  have hreq : Vector.growRequest cap = (cap + cap / 2) % 4294967296 := rfl
  have key : (cap + cap / 2 < 4294967296 ∧ Vector.growRequest cap = cap + cap / 2) ∨
      (4294967296 ≤ cap + cap / 2 ∧
        Vector.growRequest cap = cap + cap / 2 - 4294967296) := by
    by_cases hlt : cap + cap / 2 < 4294967296
    · exact Or.inl ⟨hlt, by rw [hreq, Nat.mod_eq_of_lt hlt]⟩
    · refine Or.inr ⟨by omega, ?_⟩
      rw [hreq, Nat.mod_eq_sub_mod (by omega), Nat.mod_eq_of_lt (by omega)]
  refine ⟨?_, ?_, ?_, ?_⟩
  · rcases key with ⟨h1, h2⟩ | ⟨h1, h2⟩ <;> rw [h2] <;> omega
  · rcases key with ⟨h1, h2⟩ | ⟨h1, h2⟩ <;> rw [h2] <;> omega
  · rcases key with ⟨h1, h2⟩ | ⟨h1, h2⟩ <;> rw [h2] <;> omega
  · intro α grant s v hvalid hfull hc h2 hmax hge hlt
    have hgt : cap < Vector.growRequest cap := by
      rcases key with ⟨h1, h2⟩ | ⟨h1, h2⟩ <;> rw [h2] <;> omega
    have hmod : grant cap (Vector.growRequest cap) % U32_RANGE =
        grant cap (Vector.growRequest cap) := Nat.mod_eq_of_lt hlt
    have hroom : s.HasRoom grant := by
      intro _
      rw [hc, hmod, hfull, hc]
      exact Nat.lt_of_lt_of_le hgt hge
    obtain ⟨s1, hrun, -, -, hsz⟩ := Vector.push_back_spec grant hvalid v hroom
    refine ⟨s1, hrun, hsz, ?_⟩
    have hcap1 : s.push_back grant v = .ok
        { m_data := Vector.store (s.m_data.take s.m_size) s.m_size v
          m_size := (s.m_size + 1) % U32_RANGE
          m_capacity := grant s.m_capacity (Vector.growRequest s.m_capacity) % U32_RANGE } := by
      unfold Vector.push_back
      rw [if_pos hfull]
      simp only [Vector.reserve]
      rw [if_pos (by rw [hc, hmod, hfull, hc]; exact Nat.lt_of_lt_of_le hgt hge)]
    rw [hcap1] at hrun
    cases hrun
    show _ ≤ grant s.m_capacity (Vector.growRequest s.m_capacity) % U32_RANGE
    rw [hc, hmod]
    exact hge

/-- C18, amended, evaluated: a full vector of capacity 8 requests capacity 12, and
`push_back` returns. -/
theorem growRequest_greater_iff_witness :
    8 < U32_RANGE ∧ 8 < Vector.growRequest 8 ∧ Vector.growRequest 8 = 12 ∧
    ∃ s1, Vector.push_back grantAtLeast8
        ({ m_data := [0, 1, 2, 3, 4, 5, 6, 7], m_size := 8, m_capacity := 8 } : Vector Nat)
        8 = .ok s1 ∧
      s1.size = 8 + 1 ∧ Vector.growRequest 8 ≤ s1.capacity := by
  have h := growRequest_greater_iff 8 (by decide)
  exact ⟨by decide, h.1.mpr (by decide), by decide,
    h.2.2.2 Nat grantAtLeast8 { m_data := [0, 1, 2, 3, 4, 5, 6, 7], m_size := 8, m_capacity := 8 }
      8 (by decide) rfl rfl (by decide) (by decide) (by decide) (by decide)⟩

/-- C20: with the default column-major layout, `Mat4::operator()(row, col)` for `row`
and `col` in 0..3 addresses `m[col * 4 + row]`, and `Mat3::operator()(r, c)` for `r` and
`c` in 0..2 addresses `m[c * 3 + r]`; the index lies inside the 16 or 9 elements, the
call returns that element, and distinct pairs in range have distinct indices. -/
theorem matrix_index (row col r c : Int)
    (hrow : 0 ≤ row ∧ row ≤ 3) (hcol : 0 ≤ col ∧ col ≤ 3)
    (hr : 0 ≤ r ∧ r ≤ 2) (hc : 0 ≤ c ∧ c ≤ 2) :
    (Mat4.index false row col = col * 4 + row ∧
      0 ≤ Mat4.index false row col ∧ Mat4.index false row col < 16 ∧
      (∀ m4 : Mat4 F,
        ∃ h, Mat4.elem false m4 row col = .ok (m4.m ⟨(col * 4 + row).toNat, h⟩)) ∧
      (∀ row1 col1 : Int, 0 ≤ row1 → row1 ≤ 3 → 0 ≤ col1 → col1 ≤ 3 →
        Mat4.index false row1 col1 = Mat4.index false row col →
          row1 = row ∧ col1 = col)) ∧
    (Mat3.index false r c = c * 3 + r ∧
      0 ≤ Mat3.index false r c ∧ Mat3.index false r c < 9 ∧
      (∀ m3 : Mat3 F,
        ∃ h, Mat3.elem false m3 r c = .ok (m3.m ⟨(c * 3 + r).toNat, h⟩)) ∧
      (∀ r1 c1 : Int, 0 ≤ r1 → r1 ≤ 2 → 0 ≤ c1 → c1 ≤ 2 →
        Mat3.index false r1 c1 = Mat3.index false r c → r1 = r ∧ c1 = c)) := by
  obtain ⟨hrow0, hrow3⟩ := hrow
  obtain ⟨hcol0, hcol3⟩ := hcol
  obtain ⟨hr0, hr2⟩ := hr
  obtain ⟨hc0, hc2⟩ := hc
  constructor
  · have hi : Mat4.index false row col = col * 4 + row := rfl
    refine ⟨hi, by rw [hi]; omega, by rw [hi]; omega, fun m4 => ?_, ?_⟩
    · have hin : 0 ≤ Mat4.index false row col ∧ Mat4.index false row col < 16 := by
        rw [hi]; omega
      refine ⟨by omega, ?_⟩
      unfold Mat4.elem
      rw [dif_pos hin]
      simp only [hi]
    · intro row1 col1 a1 a2 a3 a4 he
      have hi1 : Mat4.index false row1 col1 = col1 * 4 + row1 := rfl
      rw [hi, hi1] at he
      omega
  · have hi : Mat3.index false r c = c * 3 + r := rfl
    refine ⟨hi, by rw [hi]; omega, by rw [hi]; omega, fun m3 => ?_, ?_⟩
    · have hin : 0 ≤ Mat3.index false r c ∧ Mat3.index false r c < 9 := by
        rw [hi]; omega
      refine ⟨by omega, ?_⟩
      unfold Mat3.elem
      rw [dif_pos hin]
      simp only [hi]
    · intro r1 c1 a1 a2 a3 a4 he
      have hi1 : Mat3.index false r1 c1 = c1 * 3 + r1 := rfl
      rw [hi, hi1] at he
      omega

/-- C20, evaluated: row 1, column 2 of a `Mat4` is element 9, and row 2, column 1 of a
`Mat3` is element 5. -/
theorem matrix_index_witness :
    ((0 : Int) ≤ 1 ∧ (1 : Int) ≤ 3) ∧ ((0 : Int) ≤ 2 ∧ (2 : Int) ≤ 3) ∧
    ((0 : Int) ≤ 2 ∧ (2 : Int) ≤ 2) ∧ ((0 : Int) ≤ 1 ∧ (1 : Int) ≤ 2) ∧
    Mat4.index false 1 2 = 9 ∧ Mat3.index false 2 1 = 5 ∧
    (∀ m4 : Mat4 ℚ, Mat4.elem false m4 1 2 = .ok (m4.m 9)) ∧
    (∀ m3 : Mat3 ℚ, Mat3.elem false m3 2 1 = .ok (m3.m 5)) := by
  have h := @matrix_index ℚ 1 2 2 1 (by decide) (by decide) (by decide) (by decide)
  refine ⟨by decide, by decide, by decide, by decide, h.1.1, h.2.1, fun m4 => ?_,
    fun m3 => ?_⟩
  · obtain ⟨_, hm⟩ := h.1.2.2.2.1 m4
    exact hm
  · obtain ⟨_, hm⟩ := h.2.2.2.2.1 m3
    exact hm

/-- C19: for a packed color `v`, a channel `i` in 0..3 and `0 ≤ x ≤ 1`, `set(i, x)`
changes only the 8 bits of channel `i`: every other bit of `v` is as before, the other
three channels read back through `get` as before, and channel `i` reads back as
`floor(255 * x) / 255`. -/
theorem set_changes_one_channel [LinearOrderedField F] [FloorRing F] (c : Color) (i : Nat)
    (x : F) (hv : c.v < U32_RANGE) (hi : i ≤ 3) (h0 : 0 ≤ x) (h1 : x ≤ 1) :
    (∀ b, ¬ (8 * i ≤ b ∧ b < 8 * i + 8) →
      Nat.testBit (c.set i x).v b = Nat.testBit c.v b) ∧
    (∀ j, j ≤ 3 → j ≠ i → ((c.set i x).get j : F) = c.get j) ∧
    ((c.set i x).get i : F) = ((⌊255 * x⌋₊ : Nat) : F) / 255 ∧
    0 ≤ ((c.set i x).get i : F) ∧ ((c.set i x).get i : F) ≤ x := by
  have hget : ((c.set i x).get i : F) = ((⌊255 * x⌋₊ : Nat) : F) / 255 := by
    rw [Color.get_eq_channel _ i hi, Color.channel_set c i i x hi hi h1, if_pos rfl,
      mul_comm x 255, Nat.cast_ofNat]
  refine ⟨fun b hb => ?_, fun j hj hji => ?_, hget, ?_, ?_⟩
  · rw [Color.testBit_set c i x hi h1, if_neg (by omega)]
    by_cases hb32 : b < 32
    · simp [hb32]
    · have hz : Nat.testBit c.v b = false :=
        Nat.testBit_lt_two_pow (Nat.lt_of_lt_of_le hv
          (by
            have : 2 ^ 32 ≤ 2 ^ b := Nat.pow_le_pow_right (by decide) (by omega)
            simpa [U32_RANGE] using this))
      simp [hz]
  · rw [Color.get_eq_channel _ j hj, Color.get_eq_channel _ j hj,
      Color.channel_set c i j x hi hj h1, if_neg hji]
  · rw [hget]
    positivity
  · rw [hget, div_le_iff₀ (by norm_num)]
    calc ((⌊255 * x⌋₊ : Nat) : F) ≤ 255 * x := Nat.floor_le (by positivity)
      _ = x * 255 := mul_comm _ _

/-- C19, evaluated: setting the green channel of 0x11223344 to 1/2. -/
theorem set_changes_one_channel_witness :
    (287454020 : Nat) < U32_RANGE ∧ (2 : Nat) ≤ 3 ∧ (0 : ℚ) ≤ 1 / 2 ∧ (1 / 2 : ℚ) ≤ 1 ∧
    (∀ j, j ≤ 3 → j ≠ 2 →
      (((⟨287454020⟩ : Color).set 2 (1 / 2 : ℚ)).get j : ℚ) = (⟨287454020⟩ : Color).get j) ∧
    (((⟨287454020⟩ : Color).set 2 (1 / 2 : ℚ)).get 2 : ℚ) =
      ((⌊255 * (1 / 2 : ℚ)⌋₊ : Nat) : ℚ) / 255 := by
  have h := set_changes_one_channel (⟨287454020⟩ : Color) 2 (1 / 2 : ℚ) (by decide)
    (by decide) (by norm_num) (by norm_num)
  exact ⟨by decide, by decide, by norm_num, by norm_num, h.2.1, h.2.2.1⟩

/-- C15, as stated, fails: while gizmo 7 is active (and hot, at depth 5), a candidate 9
that intersects at the nearer depth 2 is not made hot, with 0 for `Id_Invalid`:
`intersects` is true and `depth < m_hotDepth`, yet the hot id stays 7 and the hot depth
stays 5. -/
theorem makeHot_during_drag :
    sampleContextDragging.m_activeId = 7 ∧ sampleContextDragging.m_hotId = 7 ∧
    (2 : ℚ) < sampleContextDragging.m_hotDepth ∧
    sampleContextDragging.makeHot 0 9 2 true = (sampleContextDragging, false) ∧
    (sampleContextDragging.makeHot 0 9 2 true).1.m_hotId ≠ 9 ∧
    (sampleContextDragging.makeHot 0 9 2 true).1.m_hotDepth ≠ 2 := by
  have hrun : sampleContextDragging.makeHot 0 9 2 true = (sampleContextDragging, false) := by
    unfold Context.makeHot
    rw [if_neg (fun h => absurd h.1 (by decide))]
  have hdepth : sampleContextDragging.m_hotDepth = 5 := rfl
  refine ⟨rfl, rfl, ?_, hrun, ?_, ?_⟩
  · rw [hdepth]; norm_num
  · rw [hrun]; decide
  · rw [hrun]
    show sampleContextDragging.m_hotDepth ≠ 2
    rw [hdepth]; norm_num

/-- C15, amended: `makeHot(id, depth, intersects)` makes `id` the hot id and `depth` the
hot depth exactly when no gizmo is active (`m_activeId` is `Id_Invalid`), `intersects` is
true and `depth < m_hotDepth`, and otherwise changes nothing; it never changes
`m_activeId`. So with no gizmo active, of two intersecting candidates the nearer one is
the hot id after both calls, in either order, when it is nearer than the hot depth the
frame started with; and while a gizmo is active, no sequence of two calls changes the hot
id or the hot depth. -/
theorem makeHot_nearest [LinearOrder F] (Id_Invalid : Id) (ctx : Context F) (id : Id)
    (depth : F) (intersects : Bool) :
    (ctx.m_activeId = Id_Invalid ∧ intersects = true ∧ depth < ctx.m_hotDepth →
      (ctx.makeHot Id_Invalid id depth intersects).1.m_hotId = id ∧
      (ctx.makeHot Id_Invalid id depth intersects).1.m_hotDepth = depth ∧
      (ctx.makeHot Id_Invalid id depth intersects).2 = true) ∧
    (¬ (ctx.m_activeId = Id_Invalid ∧ intersects = true ∧ depth < ctx.m_hotDepth) →
      ctx.makeHot Id_Invalid id depth intersects = (ctx, false)) ∧
    (ctx.makeHot Id_Invalid id depth intersects).1.m_activeId = ctx.m_activeId ∧
    (ctx.m_activeId = Id_Invalid →
      ∀ (idNear idFar : Id) (dNear dFar : F), dNear < dFar → dNear < ctx.m_hotDepth →
      ((ctx.makeHot Id_Invalid idNear dNear true).1.makeHot Id_Invalid idFar dFar
        true).1.m_hotId = idNear ∧
      ((ctx.makeHot Id_Invalid idNear dNear true).1.makeHot Id_Invalid idFar dFar
        true).1.m_hotDepth = dNear ∧
      ((ctx.makeHot Id_Invalid idFar dFar true).1.makeHot Id_Invalid idNear dNear
        true).1.m_hotId = idNear ∧
      ((ctx.makeHot Id_Invalid idFar dFar true).1.makeHot Id_Invalid idNear dNear
        true).1.m_hotDepth = dNear) ∧
    (ctx.m_activeId ≠ Id_Invalid →
      ∀ (id1 id2 : Id) (d1 d2 : F) (i1 i2 : Bool),
      ((ctx.makeHot Id_Invalid id1 d1 i1).1.makeHot Id_Invalid id2 d2 i2).1 = ctx) := by
  have hgate : ∀ (c : Context F) (i : Id) (d : F) (b : Bool),
      c.m_activeId = Id_Invalid → d < c.m_hotDepth → b = true →
      c.makeHot Id_Invalid i d b = ({ c with m_hotId := i, m_hotDepth := d }, true) := by
    intro c i d b ha hd hb
    unfold Context.makeHot
    rw [if_pos ⟨ha, hd, hb⟩]
  have hskip : ∀ (c : Context F) (i : Id) (d : F) (b : Bool),
      ¬ (c.m_activeId = Id_Invalid ∧ d < c.m_hotDepth ∧ b = true) →
      c.makeHot Id_Invalid i d b = (c, false) := by
    intro c i d b h
    unfold Context.makeHot
    rw [if_neg h]
  refine ⟨fun h => ?_, fun h => ?_, ?_, fun hact idNear idFar dNear dFar hlt hhot => ?_,
    fun hact id1 id2 d1 d2 i1 i2 => ?_⟩
  · rw [hgate ctx id depth intersects h.1 h.2.2 h.2.1]
    exact ⟨rfl, rfl, rfl⟩
  · exact hskip ctx id depth intersects (fun h2 => h ⟨h2.1, h2.2.2, h2.2.1⟩)
  · by_cases h : ctx.m_activeId = Id_Invalid ∧ depth < ctx.m_hotDepth ∧ intersects = true
    · rw [hgate ctx id depth intersects h.1 h.2.1 h.2.2]
    · rw [hskip ctx id depth intersects h]
  · have hnear := hgate ctx idNear dNear true hact hhot rfl
    have hfarAfter : Context.makeHot Id_Invalid
        { ctx with m_hotId := idNear, m_hotDepth := dNear } idFar dFar true =
        ({ ctx with m_hotId := idNear, m_hotDepth := dNear }, false) :=
      hskip _ idFar dFar true (fun h2 => absurd h2.2.1 (not_lt.mpr (le_of_lt hlt)))
    refine ⟨by rw [hnear, hfarAfter], by rw [hnear, hfarAfter], ?_⟩
    by_cases hfar : dFar < ctx.m_hotDepth
    · have h1 := hgate ctx idFar dFar true hact hfar rfl
      have h2 : Context.makeHot Id_Invalid
          { ctx with m_hotId := idFar, m_hotDepth := dFar } idNear dNear true =
          ({ ctx with m_hotId := idNear, m_hotDepth := dNear }, true) :=
        hgate _ idNear dNear true hact hlt rfl
      rw [h1, h2]
      exact ⟨rfl, rfl⟩
    · have h1 := hskip ctx idFar dFar true (fun h2 => hfar h2.2.1)
      rw [h1, hnear]
      exact ⟨rfl, rfl⟩
  · rw [hskip ctx id1 d1 i1 (fun h => hact h.1), hskip ctx id2 d2 i2 (fun h => hact h.1)]

/-- C15, amended, evaluated: at the start of a frame with no gizmo active, candidates 11
at depth 2 and 22 at depth 4, both intersecting: 11 is the hot id after both calls, in
either order; during a drag of gizmo 7 the same two calls leave the context as it was. -/
theorem makeHot_nearest_witness :
    sampleContextFrameStart.m_activeId = 0 ∧
    (2 : ℚ) < 4 ∧ (2 : ℚ) < sampleContextFrameStart.m_hotDepth ∧
    ((sampleContextFrameStart.makeHot 0 11 2 true).1.makeHot 0 22 4 true).1.m_hotId = 11 ∧
    ((sampleContextFrameStart.makeHot 0 22 4 true).1.makeHot 0 11 2 true).1.m_hotId = 11 ∧
    sampleContextDragging.m_activeId ≠ 0 ∧
    ((sampleContextDragging.makeHot 0 11 2 true).1.makeHot 0 22 4 true).1 =
      sampleContextDragging := by
  have h24 : (2 : ℚ) < 4 := by norm_num
  have hhot : (2 : ℚ) < sampleContextFrameStart.m_hotDepth := by
    show (2 : ℚ) < 1000000
    norm_num
  have h := (makeHot_nearest 0 sampleContextFrameStart 0 0 false).2.2.2.1 rfl 11 22 2 4 h24
    hhot
  have hd := (makeHot_nearest 0 sampleContextDragging 0 0 false).2.2.2.2 (by decide)
    11 22 2 4 true true
  exact ⟨rfl, h24, hhot, h.1, h.2.2.1, by decide, hd⟩

/-- C16: in a frame that has not been drawn or sorted yet, `draw` returns and hands the
host the draw lists of the unsorted buffers, then the sorted draw lists; these hold the
sortable primitives of each primitive type in the order of the stable descending sort by
squared distance from the view origin to the centroid: the same primitives, each at least
as far as those after it, and those at equal distance in the order in which they were
submitted. The sortable buffers hold them in the same order, and a second `draw` in the
same frame fails. -/
theorem draw_farthest_first [LinearOrderedField F] (grant : Nat → Nat → Nat)
    (ctx : Context F) (hdraw : ctx.m_drawCalled = false) (hnot : ctx.m_sortCalled = false)
    (hvalid : ∀ type, (ctx.m_vertexData type 1).Valid)
    (hlists : ctx.m_sortedDrawLists.Valid) (hclear : ctx.m_sortedDrawLists.m_size = 0)
    (hroom : Vector.GrantsRoom grant ctx.sortableCount) :
    ∃ ctx1 sorted, ctx.draw grant = .ok (ctx1, ctx.unsortedDrawLists ++ sorted) ∧
      Draw grant ctx = ctx.draw grant ∧
      sorted = ctx1.m_sortedDrawLists.contents ∧
      ctx1.m_drawCalled = true ∧ ctx1.draw grant = .error Fault.assertion ∧
      ∀ type,
        emittedPrimitives type sorted =
          sortPrimitives ctx.m_appData.m_viewOrigin (ctx.sortablePrimitives type) ∧
        ctx1.sortablePrimitives type = emittedPrimitives type sorted ∧
        List.Perm (emittedPrimitives type sorted) (ctx.sortablePrimitives type) ∧
        (emittedPrimitives type sorted).Pairwise
          (fun a b => sortKey ctx.m_appData.m_viewOrigin b ≤
            sortKey ctx.m_appData.m_viewOrigin a) ∧
        ∀ d : F,
          (emittedPrimitives type sorted).filter
              (fun p => decide (sortKey ctx.m_appData.m_viewOrigin p = d)) =
            (ctx.sortablePrimitives type).filter
              (fun p => decide (sortKey ctx.m_appData.m_viewOrigin p = d)) := by
  obtain ⟨c1, hsort, -, -, hsorted, -, hemit⟩ :=
    Context.sort_spec grant ctx hnot hlists hclear hroom
  refine ⟨{ c1 with m_drawCalled := true }, c1.m_sortedDrawLists.contents,
    Context.draw_of_sort grant ctx c1 hdraw hsort, rfl, rfl, rfl,
    Context.draw_after_draw grant _ rfl, fun type => ?_⟩
  rw [hemit type]
  refine ⟨rfl, ?_, List.perm_insertionSort _ _,
    insertionSort_desc_sorted (sortKey ctx.m_appData.m_viewOrigin) _,
    insertionSort_desc_stable (sortKey ctx.m_appData.m_viewOrigin) _⟩
  show primitivesOf (DrawPrimitiveSize type) (c1.m_vertexData type 1).contents = _
  rw [hsorted type]
  exact Context.sortedBucket_primitives ctx type (hvalid type)

theorem sortKey_sampleTriangle (d : ℚ) :
    sortKey (⟨0, 0, 0⟩ : Vec3 ℚ) (sampleTriangle d) = d * d := by
  simp only [sortKey, centroid, distanceSq, sampleTriangle, VertexData.position,
    VertexData.new, Vec4.ofVec3, List.map, List.sum_cons, List.sum_nil, List.length]
  norm_num
  ring

/-- C16, evaluated: three sortable triangles submitted at distances 1, 5 and 3 from the
view origin are handed to the host by `draw` in the order 5, 3, 1, in one draw list of 9
vertices. -/
theorem draw_farthest_first_witness :
    sampleContextTriangles.m_drawCalled = false ∧
    sampleContextTriangles.m_sortCalled = false ∧
    (∀ type, (sampleContextTriangles.m_vertexData type 1).Valid) ∧
    sampleContextTriangles.m_sortedDrawLists.Valid ∧
    sampleContextTriangles.m_sortedDrawLists.m_size = 0 ∧
    Vector.GrantsRoom grantAtLeast8 sampleContextTriangles.sortableCount ∧
    sampleContextTriangles.sortablePrimitives .DrawPrimitive_Triangles =
      [sampleTriangle 1, sampleTriangle 5, sampleTriangle 3] ∧
    ∃ ctx1 sorted,
      sampleContextTriangles.draw grantAtLeast8 = .ok (ctx1, sorted) ∧
      sorted =
        [{ m_primType := .DrawPrimitive_Triangles
           m_vertexData := sampleTriangle 5 ++ sampleTriangle 3 ++ sampleTriangle 1
           m_vertexCount := 9 }] ∧
      emittedPrimitives .DrawPrimitive_Triangles sorted =
        [sampleTriangle 5, sampleTriangle 3, sampleTriangle 1] := by
  have hvalid : ∀ type, (sampleContextTriangles.m_vertexData type 1).Valid := by
    intro type
    cases type <;> decide
  have hcount : sampleContextTriangles.sortableCount = 3 := rfl
  have hroom : Vector.GrantsRoom grantAtLeast8 sampleContextTriangles.sortableCount := by
    rw [hcount]
    decide
  have hbefore : sampleContextTriangles.sortablePrimitives .DrawPrimitive_Triangles =
      [sampleTriangle 1, sampleTriangle 5, sampleTriangle 3] := rfl
  obtain ⟨ctx1, sorted, hrun, -, -, -, -, hall⟩ :=
    draw_farthest_first grantAtLeast8 sampleContextTriangles rfl rfl hvalid (by decide) rfl
      hroom
  have hunsorted : sampleContextTriangles.unsortedDrawLists = [] := rfl
  rw [hunsorted, List.nil_append] at hrun
  have h := (hall .DrawPrimitive_Triangles).1
  have hsorted : sortPrimitives (⟨0, 0, 0⟩ : Vec3 ℚ)
      [sampleTriangle 1, sampleTriangle 5, sampleTriangle 3] =
      [sampleTriangle 5, sampleTriangle 3, sampleTriangle 1] := by
    have k1 := sortKey_sampleTriangle 1
    have k3 := sortKey_sampleTriangle 3
    have k5 := sortKey_sampleTriangle 5
    have h15 : ¬ sortKey (⟨0, 0, 0⟩ : Vec3 ℚ) (sampleTriangle 5) ≤
        sortKey (⟨0, 0, 0⟩ : Vec3 ℚ) (sampleTriangle 1) := by
      rw [k1, k5]; norm_num
    have h13 : ¬ sortKey (⟨0, 0, 0⟩ : Vec3 ℚ) (sampleTriangle 3) ≤
        sortKey (⟨0, 0, 0⟩ : Vec3 ℚ) (sampleTriangle 1) := by
      rw [k1, k3]; norm_num
    have h35 : sortKey (⟨0, 0, 0⟩ : Vec3 ℚ) (sampleTriangle 3) ≤
        sortKey (⟨0, 0, 0⟩ : Vec3 ℚ) (sampleTriangle 5) := by
      rw [k3, k5]; norm_num
    simp only [sortPrimitives, List.insertionSort, List.orderedInsert, h15, h13, h35,
      if_true, if_false]
  have hpending : (fun type => sampleContextTriangles.sortedPrimitives type) =
      fun type => if type = .DrawPrimitive_Triangles then
        [sampleTriangle 5, sampleTriangle 3, sampleTriangle 1] else [] := by
    funext type
    cases type
    · show sortPrimitives (⟨0, 0, 0⟩ : Vec3 ℚ)
        (sampleContextTriangles.sortablePrimitives .DrawPrimitive_Triangles) = _
      rw [hbefore]
      exact hsorted
    · rfl
    · rfl
  have hlists : ∃ c, sampleContextTriangles.sort grantAtLeast8 = .ok c ∧
      c.m_sortedDrawLists.contents =
        [{ m_primType := .DrawPrimitive_Triangles
           m_vertexData := sampleTriangle 5 ++ sampleTriangle 3 ++ sampleTriangle 1
           m_vertexCount := 9 }] := by
    unfold Context.sort
    rw [if_neg (by decide), hpending, hcount]
    exact ⟨_, rfl, rfl⟩
  obtain ⟨c, hc, hcl⟩ := hlists
  have hrun2 := Context.draw_of_sort grantAtLeast8 sampleContextTriangles c rfl hc
  rw [hunsorted, List.nil_append, hrun, hcl] at hrun2
  have heq : sorted = _ := congrArg Prod.snd (Except.ok.inj hrun2)
  refine ⟨rfl, rfl, hvalid, by decide, rfl, hroom, hbefore, ctx1, sorted, hrun, heq, ?_⟩
  rw [h, hbefore]
  exact hsorted

/-- C11: over any definition of `Context::vertex(position, size, color)`, `Vertex(p)` is
`Vertex(p, GetSize(), GetColor())`, `Vertex(p, c)` is `Vertex(p, GetSize(), c)` and
`Vertex(p, s)` is `Vertex(p, s, GetColor())`, a failing getter included: an omitted size
or color is the top of the size or color stack at the call. So after pushing a color and
a size, `Vertex(p)` submits `p` with that size and that color. -/
theorem vertex_defaults
    (vertex : Context F → Vec3 F → F → Color → Except Fault (Context F))
    (ctx : Context F) (p : Vec3 F) (s : F) (c : Color) :
    Vertex vertex ctx p =
      (GetSize ctx >>= fun size => GetColor ctx >>= fun color =>
        VertexSizeColor vertex ctx p size color) ∧
    VertexColor vertex ctx p c =
      (GetSize ctx >>= fun size => VertexSizeColor vertex ctx p size c) ∧
    VertexSize vertex ctx p s =
      (GetColor ctx >>= fun color => VertexSizeColor vertex ctx p s color) ∧
    ctx.vertexPosition vertex p = Vertex vertex ctx p ∧
    (∀ (grant : Nat → Nat → Nat) (red : Color) (two : F),
      ctx.m_colorStack.Valid → ctx.m_sizeStack.Valid →
      Vector.GrantsRoom grant (max ctx.m_colorStack.m_size ctx.m_sizeStack.m_size) →
      ∃ ctx1 ctx2, ctx.pushColor grant red = .ok ctx1 ∧ ctx1.pushSize grant two = .ok ctx2 ∧
        GetSize ctx2 = .ok two ∧ GetColor ctx2 = .ok red ∧
        Vertex vertex ctx2 p = VertexSizeColor vertex ctx2 p two red) := by
  refine ⟨rfl, rfl, rfl, rfl, ?_⟩
  intro grant red two hvc hvs hroom
  obtain ⟨c1, hpc, -, hbc, -, -, -⟩ :=
    Vector.push_back_get grant hvc red (hroom.hasRoom (le_max_left _ _))
  obtain ⟨s1, hps, -, hbs, -, -, -⟩ :=
    Vector.push_back_get grant hvs two (hroom.hasRoom (le_max_right _ _))
  have h1 : ctx.pushColor grant red = .ok { ctx with m_colorStack := c1 } := by
    unfold Context.pushColor
    rw [hpc]
    rfl
  have h2 : Context.pushSize grant { ctx with m_colorStack := c1 } two =
      .ok { ctx with m_colorStack := c1, m_sizeStack := s1 } := by
    unfold Context.pushSize
    show (Vector.push_back grant ctx.m_sizeStack two >>= _) = _
    rw [hps]
    rfl
  refine ⟨_, _, h1, h2, hbs, hbc, ?_⟩
  unfold Vertex
  rw [show Context.getSize { ctx with m_colorStack := c1, m_sizeStack := s1 } = .ok two
    from hbs]
  rw [show Context.getColor { ctx with m_colorStack := c1, m_sizeStack := s1 } = .ok red
    from hbc]
  rfl

/-- C11, evaluated: in the sample context with a `Triangles` primitive open, after
`PushColor(0xff0000ff)` and `PushSize(2)`, `Vertex(p)` stores `p` with size 2 and the
color 0xff0000ff. -/
theorem vertex_defaults_witness :
    sampleContextOpen.m_colorStack.Valid ∧ sampleContextOpen.m_sizeStack.Valid ∧
    Vector.GrantsRoom grantAtLeast8
      (max sampleContextOpen.m_colorStack.m_size sampleContextOpen.m_sizeStack.m_size) ∧
    ∃ ctx1 ctx2, sampleContextOpen.pushColor grantAtLeast8 ⟨4278190335⟩ = .ok ctx1 ∧
      ctx1.pushSize grantAtLeast8 2 = .ok ctx2 ∧
      Vertex (Context.vertex sampleMath grantAtLeast8) ctx2 ⟨1, 2, 3⟩ =
        Context.vertex sampleMath grantAtLeast8 ctx2 ⟨1, 2, 3⟩ 2 ⟨4278190335⟩ ∧
      ∃ ctx3, Context.vertex sampleMath grantAtLeast8 ctx2 ⟨1, 2, 3⟩ 2 ⟨4278190335⟩ =
          .ok ctx3 ∧
        (ctx3.m_vertexData .DrawPrimitive_Triangles 0).contents =
          [VertexData.new ⟨1, 2, 3⟩ 2 ⟨4278190335⟩] := by
  obtain ⟨ctx1, ctx2, h1, h2, -, -, h3⟩ :=
    (vertex_defaults (Context.vertex sampleMath grantAtLeast8) sampleContextOpen
      ⟨1, 2, 3⟩ 0 ⟨0⟩).2.2.2.2 grantAtLeast8 ⟨4278190335⟩ 2 (by decide) (by decide)
      (by decide)
  refine ⟨by decide, by decide, by decide, ctx1, ctx2, h1, h2, h3, ?_⟩
  have e1 : sampleContextOpen.pushColor grantAtLeast8 ⟨4278190335⟩ =
      .ok { sampleContextOpen with
        m_colorStack := { m_data := [⟨4294967295⟩, ⟨4278190335⟩], m_size := 2,
                          m_capacity := 8 } } := rfl
  rw [e1] at h1
  cases h1
  have e2 : Context.pushSize grantAtLeast8 { sampleContextOpen with
        m_colorStack := { m_data := [⟨4294967295⟩, ⟨4278190335⟩], m_size := 2,
                          m_capacity := 8 } } 2 =
      .ok { sampleContextOpen with
        m_colorStack := { m_data := [⟨4294967295⟩, ⟨4278190335⟩], m_size := 2,
                          m_capacity := 8 }
        m_sizeStack := { m_data := [2, 2], m_size := 2, m_capacity := 8 } } := rfl
  rw [e2] at h2
  cases h2
  exact ⟨_, rfl, rfl⟩

/-- C17: a `LineLoop` primitive of `n ≥ 3` vertices stores the same vertices, and so the
same line segments, as the `Lines` primitive that lists each consecutive pair of the
vertices followed by the last-to-first pair: in a frame that has not been drawn yet and
with no primitive open, both return and leave the lines buffer holding what it held, then
`[A,B,B,C,...,last,A]` as `vertex` stores them. -/
theorem line_loop_as_lines (math : VertexMath F) (grant : Nat → Nat → Nat)
    (ctx : Context F) (vs : List (VertexInput F))
    (hdraw : ctx.m_drawCalled = false)
    (hmode : ctx.m_primMode = .PrimitiveMode_None)
    (hmatrix : ctx.m_matrixStack.Live) (halpha : ctx.m_alphaStack.Live)
    (hsorting : ctx.m_enableSortingStack.Live)
    (hvalid : ∀ l, (ctx.m_vertexData .DrawPrimitive_Lines l).Valid)
    (hn : 3 ≤ vs.length)
    (hroom : ∀ l, Vector.GrantsRoom grant
      ((ctx.m_vertexData .DrawPrimitive_Lines l).m_size + 2 * vs.length)) :
    ∃ ctxLoop ctxLines sorting mat alpha,
      ctx.getEnableSorting = .ok sorting ∧ ctx.getMatrix = .ok mat ∧
      ctx.getAlpha = .ok alpha ∧
      ctx.primitive math grant .PrimitiveMode_LineLoop vs = .ok ctxLoop ∧
      ctx.primitive math grant .PrimitiveMode_Lines (loopAsLines vs) = .ok ctxLines ∧
      (ctxLoop.m_vertexData .DrawPrimitive_Lines (if sorting then 1 else 0)).contents =
        (ctx.m_vertexData .DrawPrimitive_Lines (if sorting then 1 else 0)).contents ++
          (loopAsLines vs).map (math.stored mat alpha) ∧
      (ctxLines.m_vertexData .DrawPrimitive_Lines (if sorting then 1 else 0)).contents =
        (ctxLoop.m_vertexData .DrawPrimitive_Lines (if sorting then 1 else 0)).contents ∧
      segments
          (ctxLines.m_vertexData .DrawPrimitive_Lines (if sorting then 1 else 0)).contents =
        segments
          (ctxLoop.m_vertexData .DrawPrimitive_Lines (if sorting then 1 else 0)).contents := by
  obtain ⟨mat, hmat, -⟩ := Vector.back_eq_getLast? hmatrix.1 hmatrix.2
  obtain ⟨alpha, halp, -⟩ := Vector.back_eq_getLast? halpha.1 halpha.2
  obtain ⟨sorting, hsort, -⟩ := Vector.back_eq_getLast? hsorting.1 hsorting.2
  obtain ⟨cLoop, hloop, hcLoop⟩ :=
    Context.primitive_loop math grant ctx vs mat alpha sorting hdraw hmode hmat halp hsort
      (hvalid _) hn (hroom _)
  have hlen : (loopAsLines vs).length = 2 * vs.length := length_loopAsLines vs (by omega)
  obtain ⟨cLines, hlines, hcLines⟩ :=
    Context.primitive_lines math grant ctx (loopAsLines vs) mat alpha sorting hdraw hmode hmat
      halp hsort (hvalid _) (by rw [hlen]; omega) (by rw [hlen]; exact hroom _)
  rw [loopAsLines_map] at hcLoop
  have heq : (cLines.m_vertexData .DrawPrimitive_Lines (if sorting then 1 else 0)).contents =
      (cLoop.m_vertexData .DrawPrimitive_Lines (if sorting then 1 else 0)).contents := by
    rw [hcLines, hcLoop]
  exact ⟨cLoop, cLines, sorting, mat, alpha, hsort, hmat, halp, hloop, hlines, hcLoop, heq,
    by rw [heq]⟩

/-- C17, evaluated: in the sample context, `LineLoop [A,B,C]` and
`Lines [A,B,B,C,C,A]` both store `[A,B,B,C,C,A]` in the unsorted lines buffer. -/
theorem line_loop_as_lines_witness :
    sampleContext.m_drawCalled = false ∧
    sampleContext.m_primMode = .PrimitiveMode_None ∧ sampleContext.m_matrixStack.Live ∧
    sampleContext.m_alphaStack.Live ∧ sampleContext.m_enableSortingStack.Live ∧
    (∀ l, (sampleContext.m_vertexData .DrawPrimitive_Lines l).Valid) ∧
    3 ≤ sampleLoop.length ∧
    (∀ l, Vector.GrantsRoom grantAtLeast8
      ((sampleContext.m_vertexData .DrawPrimitive_Lines l).m_size + 2 * sampleLoop.length)) ∧
    ∃ ctxLoop ctxLines,
      sampleContext.primitive sampleMath grantAtLeast8 .PrimitiveMode_LineLoop sampleLoop =
        .ok ctxLoop ∧
      sampleContext.primitive sampleMath grantAtLeast8 .PrimitiveMode_Lines
        (loopAsLines sampleLoop) = .ok ctxLines ∧
      (ctxLines.m_vertexData .DrawPrimitive_Lines 0).contents =
        (ctxLoop.m_vertexData .DrawPrimitive_Lines 0).contents ∧
      (ctxLoop.m_vertexData .DrawPrimitive_Lines 0).contents =
        (loopAsLines sampleLoop).map (sampleMath.stored ⟨fun _ => 0⟩ 1) := by
  obtain ⟨ctxLoop, ctxLines, sorting, mat, alpha, hsort, hmat, halp, hloop, hlines, hc, heq,
      -⟩ :=
    line_loop_as_lines sampleMath grantAtLeast8 sampleContext sampleLoop rfl rfl (by decide)
      (by decide) (by decide) (by decide) (by decide) (by decide)
  have hs : sorting = false := (Except.ok.inj hsort).symm
  have ha : alpha = 1 := (Except.ok.inj halp).symm
  have hm : mat = ⟨fun _ => 0⟩ := (Except.ok.inj hmat).symm
  subst hs ha hm
  exact ⟨rfl, rfl, by decide, by decide, by decide, by decide, by decide, by decide,
    ctxLoop, ctxLines, hloop, hlines, heq, hc⟩

/-- C21: for a packed color `v` and a channel `i` in 0..3, in exact arithmetic, writing a
channel's own value back is a no-op, `set(i, get(i))` leaves `v` unchanged, and for every
byte `k` in 0..255, `set(i, k/255)` followed by `get(i)` returns `k/255`. -/
theorem set_get_roundtrip [LinearOrderedField F] [FloorRing F] (c : Color) (i : Nat)
    (hv : c.v < U32_RANGE) (hi : i ≤ 3) :
    c.set i (c.get i : F) = c ∧
    (∀ k : Nat, k ≤ 255 → ((c.set i ((k : F) / 255)).get i : F) = (k : F) / 255) := by
  refine ⟨?_, fun k hk => ?_⟩
  · have hbits : (c.set i (c.get i : F)).v = c.v := by
      apply Nat.eq_of_testBit_eq
      intro b
      rw [Color.testBit_set_any c i _ hi b, Color.toU32_get_mul c i hi]
      by_cases h1 : b < i * 8
      · rw [if_pos h1, Color.testBit_of_u32 hv]
      · rw [if_neg h1]
        by_cases h2 : b < i * 8 + 8
        · rw [if_pos h2, Color.testBit_channel, show 8 * i + (b - i * 8) = b by omega]
          simp [show b - i * 8 < 8 by omega]
        · rw [if_neg h2, Color.testBit_of_byte (Color.channel_lt c i) (by omega),
            Bool.or_false, Color.testBit_of_u32 hv]
    have hext : ∀ a b : Color, a.v = b.v → a = b := by
      intro a b h
      cases a
      cases b
      cases h
      rfl
    exact hext _ _ hbits
  · have hx : ((k : F) / 255) ≤ 1 := by
      rw [div_le_one (by norm_num)]
      exact_mod_cast hk
    have hfloor : ⌊((k : F) / 255) * 255⌋₊ = k := by
      rw [div_mul_cancel₀ _ (by norm_num : (255 : F) ≠ 0), Nat.floor_natCast]
    rw [Color.get_eq_channel _ i hi, Color.channel_set c i i _ hi hi hx, if_pos rfl, hfloor,
      Nat.cast_ofNat]

/-- C21, evaluated: on 0x11223344, writing channel 2 back, and writing 34/255 to it. -/
theorem set_get_roundtrip_witness :
    (287454020 : Nat) < U32_RANGE ∧ (2 : Nat) ≤ 3 ∧
    (⟨287454020⟩ : Color).set 2 ((⟨287454020⟩ : Color).get 2 : ℚ) = ⟨287454020⟩ ∧
    (((⟨287454020⟩ : Color).set 2 (((34 : Nat) : ℚ) / 255)).get 2 : ℚ) =
      ((34 : Nat) : ℚ) / 255 := by
  have h := @set_get_roundtrip ℚ _ _ (⟨287454020⟩ : Color) 2 (by decide) (by decide)
  exact ⟨by decide, by decide, h.1, h.2 34 (by decide)⟩

/-- C22, as stated, fails: `set(0, 2)` on the packed color 0 stores `(U32)(2 * 255) = 510 =
0x1FE` unmasked, so bit 8, the lowest bit of channel 1, goes from 0 to 1 and channel 1
reads back as 1/255 instead of 0. -/
theorem set_above_one_spills :
    (0 : ℚ) ≤ 2 ∧
    ((⟨0⟩ : Color).set 0 (2 : ℚ)).v = 510 ∧
    Nat.testBit (⟨0⟩ : Color).v 8 = false ∧
    Nat.testBit ((⟨0⟩ : Color).set 0 (2 : ℚ)).v 8 = true ∧
    (⟨0⟩ : Color).channel 1 = 0 ∧
    ((⟨0⟩ : Color).set 0 (2 : ℚ)).channel 1 = 1 ∧
    (((⟨0⟩ : Color).set 0 (2 : ℚ)).get 1 : ℚ) ≠ ((⟨0⟩ : Color).get 1 : ℚ) := by
  have hk : Color.toU32 ((2 : ℚ) * 255) = 510 := by
    unfold Color.toU32
    rw [show (2 : ℚ) * 255 = ((510 : ℕ) : ℚ) by norm_num, Nat.floor_natCast]
    rfl
  have hset : (⟨0⟩ : Color).set 0 (2 : ℚ) = ⟨510⟩ := by
    unfold Color.set
    rw [hk]
    rfl
  rw [hset]
  refine ⟨by norm_num, rfl, by decide, by decide, by decide, by decide, ?_⟩
  rw [Color.get_eq_channel _ 1 (by decide), Color.get_eq_channel _ 1 (by decide),
    show (⟨510⟩ : Color).channel 1 = 1 by decide, show (⟨0⟩ : Color).channel 1 = 0 by decide]
  norm_num

/-- C22, amended: for a packed color `v`, a channel `i` in 0..3 and `x ≥ 0`, `set(i, x)`
leaves every bit outside channel `i` unchanged, and the other three channels read back as
before, when `255 * x < 256`; for any `x ≥ 0` the bits below channel `i` are unchanged,
and each bit `b` above channel `i` becomes the old bit or-ed with bit `b - 8 * i` of
`(U32)(x * 255)`. -/
theorem set_other_channels [LinearOrderedField F] [FloorRing F] (c : Color) (i : Nat)
    (x : F) (hv : c.v < U32_RANGE) (hi : i ≤ 3) (h0 : 0 ≤ x) :
    (x * 255 < 256 →
      (∀ b, ¬ (8 * i ≤ b ∧ b < 8 * i + 8) →
        Nat.testBit (c.set i x).v b = Nat.testBit c.v b) ∧
      (∀ j, j ≤ 3 → j ≠ i → ((c.set i x).get j : F) = c.get j)) ∧
    (∀ b, b < 8 * i → Nat.testBit (c.set i x).v b = Nat.testBit c.v b) ∧
    (∀ b, 8 * i + 8 ≤ b → b < 32 →
      Nat.testBit (c.set i x).v b =
        (Nat.testBit c.v b || Nat.testBit (Color.toU32 (x * 255)) (b - 8 * i))) := by
  refine ⟨fun hx => ?_, fun b hb => ?_, fun b hb hb32 => ?_⟩
  · have hk : Color.toU32 (x * 255) < 256 := by
      have hfl : ⌊x * 255⌋₊ < 256 := by
        rw [Nat.floor_lt (by positivity)]
        exact_mod_cast hx
      unfold Color.toU32
      exact Nat.lt_of_le_of_lt (Nat.mod_le _ _) hfl
    have hbits : ∀ b, ¬ (8 * i ≤ b ∧ b < 8 * i + 8) →
        Nat.testBit (c.set i x).v b = Nat.testBit c.v b := by
      intro b hb
      rw [Color.testBit_set_any c i x hi b]
      by_cases h1 : b < i * 8
      · rw [if_pos h1, Color.testBit_of_u32 hv]
      · rw [if_neg h1, if_neg (by omega), Color.testBit_of_byte hk (by omega),
          Bool.or_false, Color.testBit_of_u32 hv]
    refine ⟨hbits, fun j hj hji => ?_⟩
    rw [Color.get_eq_channel _ j hj, Color.get_eq_channel _ j hj,
      Color.channel_eq_of_testBit (c.set i x) c j (fun t ht => hbits _ (by omega))]
  · rw [Color.testBit_set_any c i x hi b, if_pos (by omega), Color.testBit_of_u32 hv]
  · rw [Color.testBit_set_any c i x hi b, if_neg (by omega), if_neg (by omega),
      show b - i * 8 = b - 8 * i by omega]
    simp [hb32]

/-- C22, amended, evaluated: setting channel 1 of 0x11223344 to 1, and to 2. -/
theorem set_other_channels_witness :
    (287454020 : Nat) < U32_RANGE ∧ (1 : Nat) ≤ 3 ∧ (0 : ℚ) ≤ 1 ∧ (0 : ℚ) ≤ 2 ∧
    (∀ j, j ≤ 3 → j ≠ 1 →
      (((⟨287454020⟩ : Color).set 1 (1 : ℚ)).get j : ℚ) = (⟨287454020⟩ : Color).get j) ∧
    (∀ b, b < 8 * 1 →
      Nat.testBit ((⟨287454020⟩ : Color).set 1 (2 : ℚ)).v b =
        Nat.testBit (⟨287454020⟩ : Color).v b) := by
  have h1 := @set_other_channels ℚ _ _ (⟨287454020⟩ : Color) 1 (1 : ℚ) (by decide)
    (by decide) (by norm_num)
  have h2 := @set_other_channels ℚ _ _ (⟨287454020⟩ : Color) 1 (2 : ℚ) (by decide)
    (by decide) (by norm_num)
  exact ⟨by decide, by decide, by norm_num, by norm_num, (h1.1 (by norm_num)).2, h2.2.1⟩

end Claims

end Im3d

